import Mathlib

/-!
# XCSF: the graph engine (`dgp.c`) and the trial loop (`main.c`)

A shallow embedding of the graph engine of `dgp.c` and of the control loop of
`main.c`, and of the properties their specification states about them.

Modelling conventions.

* A finite C `double` is an element of an arbitrary linearly ordered field `α`
  (exact arithmetic: no rounding).  Every definition is computable, so it can be
  run at `α := ℚ`.
* Where a property speaks about every `double`, the special values are added
  (`Double`: finite value, `+inf`, `-inf`, NaN, with the IEEE 754 rules for
  them, comparisons with NaN being false), and `node_update` and `graph_update`
  are embedded a second time over them (`node_update_dbl`, `graph_update_dbl`);
  on finite values the two embeddings agree (`node_update_dbl_fin`,
  `graph_update_dbl_fin`).
* A C `int` whose arithmetic can leave the 32-bit range is reduced by `int_wrap`
  (the accumulator of `graph_avg_k`).
* `sin`, `cos` and `tanh` of `math.h` are parameters (`MathFns`).
* `drand` and `irand` of `random.h` are parameters acting on an explicit
  generator state (`RNG`); a theorem quantified over the generator and its
  state speaks about every sequence of draws.
* `MAX_K`, `MAX_T`, `NUM_FUNC` (from `dgp.h`) and the global `state_length`
  (from `cons.h`) are collected in `Consts`.
* `GNODE.conn`, the C array `int conn[MAX_K]`, is a list; a loop
  `for(i = 0; i < MAX_K; i++)` over it is a left-to-right traversal.
* `GRAPH.nodes`, the C array of `n` nodes, is a list and `n` is its length.
* Reading an array outside its bounds is undefined in C; the embedding of
  `graph_update` returns `none` there.
* `graph_copy` allocates and releases node storage, so it is embedded over a
  heap of node blocks (`Heap`, `GRAPH_MEM`); the address `malloc` returns is a
  parameter.
* The functions `main.c` calls in other modules are parameters (`Env`) acting on
  an abstract state of those modules; every call is appended to a log (`Exec`),
  so that the order of calls can be stated.  The globals `MAX_TRIALS`,
  `NUM_EXPERIMENTS` and `PERF_AVG_TRIALS` are what `constants_init` returns.
-/

namespace Xcsf

/-- The functions of `math.h` used by `node_update`. -/
structure MathFns (α : Type) where
  sin : α → α
  cos : α → α
  tanh : α → α

/-- The generator of `random.h`: `drand()` returns a double, `irand(a, b)` an
integer; both advance the generator state. -/
structure RNG (σ α : Type) where
  drand : σ → α × σ
  irand : Int → Int → σ → Int × σ

/-- Constants of `dgp.h` and `cons.h` that `dgp.c` refers to. -/
structure Consts where
  MAX_K : Nat
  MAX_T : Int
  NUM_FUNC : Int
  state_length : Int
  deriving DecidableEq, Repr

/-- A graph node (`GNODE`). -/
structure GNODE (α : Type) where
  k : Int
  state : α
  initial_state : α
  func : Int
  conn : List Int
  deriving DecidableEq, Repr

/-- A graph (`GRAPH`); the field `n` of the C struct is the length of `nodes`. -/
structure GRAPH (α : Type) where
  t : Int
  nodes : List (GNODE α)
  deriving DecidableEq, Repr

/-- The node count `dgp->n`. -/
def GRAPH.n {α : Type} (g : GRAPH α) : Nat := g.nodes.length

section Update

variable {α : Type} [LinearOrderedField α]

/-- The final clamp of `node_update`:
`if(*state > 1.0) *state = 1.0; else if(*state < -1.0) *state = -1.0;`. -/
def clamp (s : α) : α :=
  if s > 1 then 1 else if s < -1 then -1 else s

/-- The `switch(func)` of `node_update`, before the clamp. -/
def node_apply (m : MathFns α) (state : α) (func : Int) (input : α) : α :=
  if func = 0 then state + input
  else if func = 1 then state - input
  else if func = 2 then state * input
  else if func = 3 then (if input ≠ 0 then state / input else state)
  else if func = 4 then m.sin input
  else if func = 5 then m.cos input
  else if func = 6 then m.tanh input
  else state

/-- The function `node_update(&state, func, input)`: the new value of `*state`. -/
def node_update (m : MathFns α) (state : α) (func : Int) (input : α) : α :=
  clamp (node_apply m state func input)

/-- The function `graph_reset`: every node's state becomes its initial state. -/
def graph_reset (g : GRAPH α) : GRAPH α :=
  { g with nodes := g.nodes.map (fun a => { a with state := a.initial_state }) }

/-- One iteration of the `k` loop of `graph_update` for node `i` and slot value
`c = a->conn[k]`, acting in place on the node array.  A negative `c` reads
`inputs[abs(c)-1]`, a positive `c` reads `nodes[c-1].state` (the array as it is
now), zero does nothing. -/
def slot_update (m : MathFns α) (inputs : List α) (i : Nat)
    (nodes : List (GNODE α)) (c : Int) : Option (List (GNODE α)) :=
  if c < 0 then
    match inputs[c.natAbs - 1]?, nodes[i]? with
    | some x, some a =>
        some (nodes.set i { a with state := node_update m a.state a.func x })
    | _, _ => none
  else if c > 0 then
    match nodes[c.toNat - 1]?, nodes[i]? with
    | some b, some a =>
        some (nodes.set i { a with state := node_update m a.state a.func b.state })
    | _, _ => none
  else some nodes

/-- The `k` loop of `graph_update` for node `i`: its slots, in order. -/
def node_sweep (m : MathFns α) (inputs : List α) (i : Nat) :
    List Int → List (GNODE α) → Option (List (GNODE α))
  | [], nodes => some nodes
  | c :: cs, nodes => (slot_update m inputs i nodes c).bind (node_sweep m inputs i cs)

/-- The body of the `i` loop of `graph_update`: `a = &dgp->nodes[i]`, then the
`k` loop. -/
def node_step (m : MathFns α) (inputs : List α) (nodes : List (GNODE α)) (i : Nat) :
    Option (List (GNODE α)) :=
  match nodes[i]? with
  | some a => node_sweep m inputs i a.conn nodes
  | none => none

/-- The `i` loop of `graph_update` over the indices `is`. -/
def sweep_loop (m : MathFns α) (inputs : List α) :
    List Nat → List (GNODE α) → Option (List (GNODE α))
  | [], nodes => some nodes
  | i :: is, nodes => (node_step m inputs nodes i).bind (sweep_loop m inputs is)

/-- One sweep: `for(int i = 0; i < dgp->n; i++)`. -/
def graph_sweep (m : MathFns α) (inputs : List α) (nodes : List (GNODE α)) :
    Option (List (GNODE α)) :=
  sweep_loop m inputs (List.range nodes.length) nodes

/-- The `t` loop of `graph_update`: the given number of sweeps. -/
def sweeps (m : MathFns α) (inputs : List α) :
    Nat → List (GNODE α) → Option (List (GNODE α))
  | 0, nodes => some nodes
  | r + 1, nodes => (graph_sweep m inputs nodes).bind (sweeps m inputs r)

/-- The function `graph_update(dgp, inputs)`: reset, then `dgp->t` sweeps (none when
`dgp->t <= 0`). -/
def graph_update (m : MathFns α) (g : GRAPH α) (inputs : List α) : Option (GRAPH α) :=
  (sweeps m inputs g.t.toNat (graph_reset g).nodes).map (fun ns => { g with nodes := ns })

end Update

section Random

variable {σ α : Type} [LinearOrderedField α]

/-- The loop of `node_rand_conn`: `r` further slots are drawn; the state is the
slots written so far, `node->k`, and the generator.  The C literals `0.1` and
`0.2` are the field elements `1/10` and `1/5`. -/
def node_rand_conn_loop (rng : RNG σ α) (c : Consts) (n : Int) :
    Nat → List Int × Int × σ → List Int × Int × σ
  | 0, st => st
  | r + 1, (conn, k, s) =>
    let d1 := rng.drand s
    if d1.1 < 1 / 10 then
      node_rand_conn_loop rng c n r (conn ++ [0], k, d1.2)
    else
      let d2 := rng.drand d1.2
      if d2.1 < 1 / 5 then
        let e := rng.irand 1 (c.state_length + 1) d2.2
        node_rand_conn_loop rng c n r (conn ++ [-e.1], k + 1, e.2)
      else
        let e := rng.irand 1 (n + 1) d2.2
        node_rand_conn_loop rng c n r (conn ++ [e.1], k + 1, e.2)

/-- The function `node_rand_conn(node, n)`: `node->k = 0`, then all `MAX_K` slots
are drawn. -/
def node_rand_conn (rng : RNG σ α) (c : Consts) (node : GNODE α) (n : Int) (s : σ) :
    GNODE α × σ :=
  let r := node_rand_conn_loop rng c n c.MAX_K ([], 0, s)
  ({ node with k := r.2.1, conn := r.1 }, r.2.2)

/-- The function `node_init(node, n)`: initial state `2*drand()-1`, state equal
to it, function code `irand(0, NUM_FUNC)`, then `node_rand_conn`. -/
def node_init (rng : RNG σ α) (c : Consts) (node : GNODE α) (n : Int) (s : σ) :
    GNODE α × σ :=
  let d := rng.drand s
  let e := rng.irand 0 c.NUM_FUNC d.2
  node_rand_conn rng c
    { node with initial_state := 2 * d.1 - 1, state := 2 * d.1 - 1, func := e.1 } n e.2

/-- The loop of `graph_rand`: `node_init` on every node, in order; the state is the nodes
already initialised and the generator. -/
def graph_rand_loop (rng : RNG σ α) (c : Consts) (n : Int) :
    List (GNODE α) → List (GNODE α) × σ → List (GNODE α) × σ
  | [], st => st
  | a :: rest, (done, s) =>
    let r := node_init rng c a n s
    graph_rand_loop rng c n rest (done ++ [r.1], r.2)

/-- The function `graph_rand(dgp)`. -/
def graph_rand (rng : RNG σ α) (c : Consts) (g : GRAPH α) (s : σ) : GRAPH α × σ :=
  let r := graph_rand_loop rng c g.n g.nodes ([], s)
  ({ g with nodes := r.1 }, r.2)

/-- The function `graph_init(dgp, n)`.  `malloc` returns `n` nodes of unspecified content,
given here as `fresh`; `node_init` overwrites every field of each. -/
def graph_init (rng : RNG σ α) (c : Consts) (fresh : GNODE α) (n : Nat) (s : σ) :
    GRAPH α × σ :=
  let e := rng.irand 0 c.MAX_T s
  graph_rand rng c { t := e.1 + 1, nodes := List.replicate n fresh } e.2

/-- The connectivity loop of `node_mutate` over the slots still to visit; the
state is the slots already visited, `mod`, and the generator. -/
def node_mutate_conn (rng : RNG σ α) (c : Consts) (rate : α) (n : Int) :
    List Int → List Int × Bool × σ → List Int × Bool × σ
  | [], st => st
  | old :: rest, (done, mod, s) =>
    let d := rng.drand s
    if d.1 < rate then
      let d1 := rng.drand d.2
      if d1.1 < 1 / 10 then
        node_mutate_conn rng c rate n rest (done ++ [0], mod || decide (old ≠ 0), d1.2)
      else
        let d2 := rng.drand d1.2
        if d2.1 < 1 / 5 then
          let e := rng.irand 1 (c.state_length + 1) d2.2
          node_mutate_conn rng c rate n rest
            (done ++ [-e.1], mod || decide (old ≠ -e.1), e.2)
        else
          let e := rng.irand 1 (n + 1) d2.2
          node_mutate_conn rng c rate n rest
            (done ++ [e.1], mod || decide (old ≠ e.1), e.2)
    else
      node_mutate_conn rng c rate n rest (done ++ [old], mod, d.2)

/-- The recount `node->k = 0; for(...) if(node->conn[i] != 0) (node->k)++;`. -/
def count_k (conn : List Int) : Int :=
  conn.foldl (fun k x => if x ≠ 0 then k + 1 else k) 0

/-- The `// mutate function` block of `node_mutate`: the new `func`, `mod`, and
the generator. -/
def node_mutate_func (rng : RNG σ α) (c : Consts) (func : Int) (rate : α) (s : σ) :
    Int × Bool × σ :=
  let d := rng.drand s
  if d.1 < rate then
    let e := rng.irand 0 c.NUM_FUNC d.2
    (e.1, decide (func ≠ e.1), e.2)
  else (func, false, d.2)

/-- The function `node_mutate(node, rate, n)`: the node afterwards, the returned flag, and
the generator. -/
def node_mutate (rng : RNG σ α) (c : Consts) (node : GNODE α) (rate : α) (n : Int)
    (s : σ) : GNODE α × Bool × σ :=
  let f := node_mutate_func rng c node.func rate s
  let r := node_mutate_conn rng c rate n node.conn ([], f.2.1, f.2.2)
  let k := if r.2.1 then count_k r.1 else node.k
  ({ node with func := f.1, conn := r.1, k := k }, r.2.1, r.2.2)

/-- The node loop of `graph_mutate`; the state is the nodes already visited,
`mod`, and the generator. -/
def graph_mutate_nodes (rng : RNG σ α) (c : Consts) (rate : α) (n : Int) :
    List (GNODE α) → List (GNODE α) × Bool × σ → List (GNODE α) × Bool × σ
  | [], st => st
  | a :: rest, (done, mod, s) =>
    let r := node_mutate rng c a rate n s
    graph_mutate_nodes rng c rate n rest (done ++ [r.1], mod || r.2.1, r.2.2)

/-- The `// mutate T` block of `graph_mutate`: the new `t`, whether it differs
from the old one, and the generator. -/
def mutate_t (rng : RNG σ α) (c : Consts) (t : Int) (rate : α) (s : σ) :
    Int × Bool × σ :=
  let d := rng.drand s
  if d.1 < rate then
    let d1 := rng.drand d.2
    let t1 := if d1.1 < 1 / 2 then (if t > 1 then t - 1 else t)
              else (if t < c.MAX_T then t + 1 else t)
    (t1, decide (t ≠ t1), d1.2)
  else (t, false, d.2)

/-- The function `graph_mutate(dgp, rate)`: the graph afterwards, the returned flag, and the
generator. -/
def graph_mutate (rng : RNG σ α) (c : Consts) (g : GRAPH α) (rate : α) (s : σ) :
    GRAPH α × Bool × σ :=
  let r := graph_mutate_nodes rng c rate g.n g.nodes ([], false, s)
  let u := mutate_t rng c g.t rate r.2.2
  ({ t := u.1, nodes := r.1 }, r.2.1 || u.2.1, u.2.2)

/-- The value a C `int` (32 bits, two's complement) holds after an arithmetic result
`x`: `x` reduced modulo `2^32` into `[-2^31, 2^31)`. -/
def int_wrap (x : Int) : Int := (x + 2147483648) % 4294967296 - 2147483648

/-- The loop of `graph_avg_k`: the accumulator `int k`, starting at 0; `k++` and
`k += dgp->nodes[i].k` are 32-bit additions. -/
def avg_k_loop (nodes : List (GNODE α)) : Int :=
  nodes.foldl
    (fun k a => if a.func > 3 then (if a.k > 0 then int_wrap (k + 1) else k)
      else int_wrap (k + a.k)) 0

/-- The function `graph_avg_k(dgp)`: `k/(double)dgp->n`. -/
def graph_avg_k (g : GRAPH α) : α :=
  (avg_k_loop g.nodes : α) / (g.n : α)

end Random

section Spec

variable {σ α : Type} [LinearOrderedField α]

/-- The slots of one node applied in order to its accumulator `acc`, where a
positive slot referring to node index `j` reads `rd j acc`. -/
def slots_fold (m : MathFns α) (inputs : List α) (rd : Nat → α → Option α) (func : Int) :
    List Int → α → Option α
  | [], acc => some acc
  | c :: cs, acc =>
    if c < 0 then
      (inputs[c.natAbs - 1]?).bind
        (fun x => slots_fold m inputs rd func cs (node_update m acc func x))
    else if c > 0 then
      (rd (c.toNat - 1) acc).bind
        (fun x => slots_fold m inputs rd func cs (node_update m acc func x))
    else slots_fold m inputs rd func cs acc

/-- The value node `i` reads through a reference to node `j`, in the words of
the specification: the state node `j` has after this sweep when `j < i`, the
state it had before this sweep when `j > i`, and the running accumulator of
node `i` itself when `j = i`. -/
def spec_read (pre post : List (GNODE α)) (i j : Nat) (acc : α) : Option α :=
  if j < i then post[j]?.map GNODE.state
  else if i < j then pre[j]?.map GNODE.state
  else some acc

/-- The state of node `i` after one sweep according to the specification's
evaluation order, from the node arrays before (`pre`) and after (`post`) the
sweep. -/
def spec_node_state (m : MathFns α) (inputs : List α) (pre post : List (GNODE α))
    (i : Nat) (a : GNODE α) : Option α :=
  slots_fold m inputs (spec_read pre post i) a.func a.conn a.state

/-- Every reference of every node is within the input vector (`num_inputs`
entries) or the node array. -/
def nodes_in_bounds (num_inputs : Nat) (nodes : List (GNODE α)) : Prop :=
  ∀ a ∈ nodes, ∀ c ∈ a.conn, -(num_inputs : Int) ≤ c ∧ c ≤ (nodes.length : Int)

instance (num_inputs : Nat) (nodes : List (GNODE α)) :
    Decidable (nodes_in_bounds num_inputs nodes) := by
  unfold nodes_in_bounds; infer_instance

/-- The two-node graph of the specification's scenario: node 0 adds external
input 1, node 1 takes the sine of node 0; `K` further slots are inert. -/
def scenario_graph (K : Nat) : GRAPH α :=
  { t := 1
    nodes :=
      [ { k := 1, state := 0, initial_state := 0, func := 0,
          conn := -1 :: List.replicate K 0 },
        { k := 1, state := 0, initial_state := 0, func := 4,
          conn := 1 :: List.replicate K 0 } ] }

/-- Stand-ins for the functions of `math.h` over `ℚ`, for running examples. -/
def testFns : MathFns ℚ := { sin := fun x => x / 2, cos := fun _ => 1, tanh := fun x => x / 4 }

end Spec

section MutateSpec

variable {σ α : Type} [LinearOrderedField α]

/-- The assumption on `irand(a, b)`: a value in `[a, b)` when that is not empty. -/
def RNG.irand_in_range (rng : RNG σ α) : Prop :=
  ∀ (a b : Int) (s : σ), a < b → a ≤ (rng.irand a b s).1 ∧ (rng.irand a b s).1 < b

/-- The assumption on `drand()`: a value in `[0, 1)`. -/
def RNG.drand_in_range (rng : RNG σ α) : Prop :=
  ∀ s : σ, 0 ≤ (rng.drand s).1 ∧ (rng.drand s).1 < 1

/-- The in-degree invariant of a node: `k` is the number of non-zero entries of
`conn`. -/
def in_degree_ok (a : GNODE α) : Prop :=
  a.k = ((a.conn.filter (fun x => x ≠ 0)).length : Int)

instance (a : GNODE α) : Decidable (in_degree_ok a) := by
  unfold in_degree_ok; infer_instance

/-- What `graph_mutate` reports on: `timesteps` and every node's function code
and connectivity slots. -/
def GRAPH.shape (g : GRAPH α) : Int × List (Int × List Int) :=
  (g.t, g.nodes.map (fun a => (a.func, a.conn)))

/-- The generator state with which `graph_mutate` reaches node `j`: the state
after the node loop has visited the nodes before it. -/
def state_at_node (rng : RNG σ α) (c : Consts) (g : GRAPH α) (rate : α) (s : σ)
    (j : Nat) : σ :=
  (graph_mutate_nodes rng c rate g.n (g.nodes.take j) ([], false, s)).2.2

/-- The generator state with which `node_mutate`, started in state `s`, reaches
slot `i`: the state after the function block and the slots before `i`. -/
def state_at_slot (rng : RNG σ α) (c : Consts) (node : GNODE α) (rate : α) (n : Int)
    (s : σ) (i : Nat) : σ :=
  let f := node_mutate_func rng c node.func rate s
  (node_mutate_conn rng c rate n (node.conn.take i) ([], f.2.1, f.2.2)).2.2

/-- The contribution of one node to `graph_avg_k`, in the words of the
specification: the full in-degree for add, subtract, multiply and
guarded-divide (codes 0 to 3); 1 if `k > 0` and 0 otherwise for sine, cosine and
tanh (codes 4 to 6).  Other codes are not covered by the specification; they
are given 0 here. -/
def spec_contribution (a : GNODE α) : Int :=
  if a.func = 0 ∨ a.func = 1 ∨ a.func = 2 ∨ a.func = 3 then a.k
  else if a.func = 4 ∨ a.func = 5 ∨ a.func = 6 then (if a.k > 0 then 1 else 0)
  else 0

/-- A generator over `ℚ` for running examples: the state is a list of draws;
`drand` returns the next one, `irand(a, b)` returns `a` plus the next one
rounded down and reduced modulo `b - a`; an exhausted list yields zeros. -/
def listRng : RNG (List ℚ) ℚ :=
  { drand := fun s => (s.headD 0, s.tail)
    irand := fun a b s => (a + (Int.floor (s.headD 0)) % (b - a), s.tail) }

/-- A generator for running examples whose `drand` always returns `d` and whose
`irand(a, b)` always returns `a`. -/
def constRng (d : ℚ) : RNG Unit ℚ :=
  { drand := fun s => (d, s)
    irand := fun a _ s => (a, s) }

/-- Constants for running examples. -/
def testConsts : Consts := { MAX_K := 2, MAX_T := 5, NUM_FUNC := 7, state_length := 1 }

end MutateSpec

section GraphSpec

variable {σ α : Type} [LinearOrderedField α]

/-- A well-formed graph: every connectivity entry `c` of every node satisfies
`-state_length <= c <= n`. -/
def well_formed (c : Consts) (g : GRAPH α) : Prop :=
  ∀ a ∈ g.nodes, ∀ x ∈ a.conn, -c.state_length ≤ x ∧ x ≤ (g.n : Int)

instance (c : Consts) (g : GRAPH α) : Decidable (well_formed c g) := by
  unfold well_formed; infer_instance

/-- The value node `i` reads through a non-inert slot `c` while its running
accumulator is `acc`: `inputs[abs(c)-1]` for a negative `c`, and for a positive
`c` the state of node `c-1` as the evaluation order gives it (`spec_read`). -/
def slot_value (inputs : List α) (pre post : List (GNODE α)) (i : Nat) (acc : α)
    (c : Int) : Option α :=
  if c < 0 then inputs[c.natAbs - 1]? else spec_read pre post i (c.toNat - 1) acc

/-- A one-node graph for running examples: a sine node whose second slot refers
to the node itself and whose first slot is `first`. -/
def self_sine_graph (first : Int) : GRAPH ℚ :=
  { t := 1
    nodes :=
      [ { k := count_k [first, 1], state := 0, initial_state := 0, func := 4,
          conn := [first, 1] } ] }

end GraphSpec

section Storage

variable {σ α : Type} [LinearOrderedField α]

/-- The node storage: the block of nodes allocated at each address, if any. -/
abbrev Heap (α : Type) := Nat → Option (List (GNODE α))

/-- The C struct `GRAPH` as it lies in memory: `t`, `n`, and the address held by
the pointer `nodes` (0 is `NULL`). -/
structure GRAPH_MEM where
  t : Int
  n : Nat
  nodes : Nat
  deriving DecidableEq, Repr

/-- The graph a struct denotes in a heap: its `t` and the block its `nodes`
pointer refers to, which must hold `n` nodes. -/
def GRAPH_MEM.load (h : Heap α) (p : GRAPH_MEM) : Option (GRAPH α) :=
  match h p.nodes with
  | some blk => if blk.length = p.n then some { t := p.t, nodes := blk } else none
  | none => none

/-- The C call `free(a)`: nothing for `NULL`, the block at `a` is released
otherwise; releasing an address that holds no block is undefined. -/
def heap_free (h : Heap α) (a : Nat) : Option (Heap α) :=
  if a = 0 then some h
  else match h a with
    | some _ => some (Function.update h a none)
    | none => none

/-- The function `graph_copy(to, from)`, with `dst` for `to` and `src` for
`from`.  `fresh` is the address returned by `malloc`; `memcpy` copies the first
`from->n` nodes of the source block into the new block.  When `to->nodes` is the
source's block, `free` has released what `memcpy` is to read (if `to` and `from`
are one struct, `memcpy` reads the new block, never written): the result is
`none`, as for every undefined read. -/
def graph_copy (fresh : Nat) (h : Heap α) (dst src : GRAPH_MEM) :
    Option (Heap α × GRAPH_MEM) :=
  let dst1 : GRAPH_MEM := { dst with t := src.t, n := src.n }
  match heap_free h dst1.nodes with
  | none => none
  | some h1 =>
    let dst2 : GRAPH_MEM := { dst1 with nodes := fresh }
    if fresh = 0 then none
    else match h1 src.nodes with
      | some blk =>
        if src.n ≤ blk.length then
          some (Function.update h1 fresh (some (blk.take src.n)), dst2)
        else none
      | none => none

/-- The function `graph_mutate` applied to a graph in memory: the nodes are
changed in place, in the block the struct points to. -/
def graph_mutate_mem (rng : RNG σ α) (c : Consts) (h : Heap α) (p : GRAPH_MEM) (rate : α)
    (s : σ) : Option ((Heap α × GRAPH_MEM) × Bool × σ) :=
  (p.load h).map (fun g =>
    let r := graph_mutate rng c g rate s
    ((Function.update h p.nodes (some r.1.nodes), { p with t := r.1.t }), r.2.1, r.2.2))

/-- The function `graph_update` applied to a graph in memory: the node states
are changed in place, in the block the struct points to. -/
def graph_update_mem (m : MathFns α) (h : Heap α) (p : GRAPH_MEM) (inputs : List α) :
    Option (Heap α) :=
  (p.load h).bind (fun g =>
    (graph_update m g inputs).map (fun g2 => Function.update h p.nodes (some g2.nodes)))

/-- A heap for running examples: the nodes of the scenario graph at address 1, a
one-node block at address 2. -/
def testHeap : Heap ℚ := fun a =>
  if a = 1 then some (scenario_graph 1).nodes
  else if a = 2 then some (self_sine_graph 0).nodes
  else none

end Storage

section MainModule

variable {W S L A α : Type} [LinearOrderedField α]

/-- The globals of `cons.h` that `main.c` reads, set by `constants_init`. -/
structure MainConsts where
  MAX_TRIALS : Int
  NUM_EXPERIMENTS : Int
  PERF_AVG_TRIALS : Int
  deriving DecidableEq, Repr

/-- What `set_match` and `set_update` leave in the variables they are given by
address: the match set, its size and numerosity, and the kill set. -/
structure Sets (L : Type) where
  mset : L
  msize : Int
  mnum : Int
  kset : L
  deriving DecidableEq, Repr

/-- The functions `main.c` calls that are defined in other modules, as
functions of their arguments and of the state `W` of those modules (population,
generator, problem function, output file).  A list of classifiers is a value of
type `L`, a problem state a value of type `S`, a command-line argument a value
of type `A`. -/
structure Env (W S L A α : Type) where
  null : L
  constants_init : Int → List A → W → MainConsts × W
  random_init : W → W
  func_init : A → W → W
  gen_outfname : A → W → W
  pop_init : W → W
  outfile_init : Int → W → W
  func_state : Bool → W → S × W
  func_answer : Bool → W → α × W
  set_match : L → Int → Int → S → Int → L → W → Sets L × W
  set_pred : L → Int → S → W → (α × L) × W
  set_update : L → Int → Int → α → L → S → W → Sets L × W
  ga : L → Int → Int → Int → L → W → (L × L) × W
  set_kill : L → W → L × W
  set_free : L → W → L × W
  pop_num : W → Int
  disp_perf : List α → List α → Int → Int → W → W
  set_kill_pset : W → W
  outfile_close : W → W
  func_free : W → W

/-- A call made by `main.c`, with the arguments the properties speak about. -/
inductive Call (L α : Type) where
  | printf_usage
  | exit_process (status : Int)
  | constants_init (argc : Int)
  | random_init
  | func_init
  | gen_outfname
  | printf_experiment (e : Int)
  | pop_init
  | outfile_init (e : Int)
  | func_state (train : Bool)
  | func_answer (train : Bool)
  | set_match (cnt : Int)
  | set_pred
  | set_update
  | ga (cnt : Int)
  | set_kill (kset : L)
  | set_free (mset : L)
  | disp_perf (err terr : List α) (cnt pop_num : Int)
  | set_kill_pset
  | outfile_close
  | func_free
  deriving DecidableEq, Repr

/-- The running program: the state of the other modules and the calls made so
far, oldest first. -/
structure Exec (W L α : Type) where
  world : W
  log : List (Call L α)

/-- A call that returns a value: the callee acts on the world, the call is
logged. -/
def Exec.call {R : Type} (st : Exec W L α) (ev : Call L α) (f : W → R × W) :
    R × Exec W L α :=
  ((f st.world).1, { world := (f st.world).2, log := st.log ++ [ev] })

/-- A call that returns nothing. -/
def Exec.call_void (st : Exec W L α) (ev : Call L α) (f : W → W) : Exec W L α :=
  { world := f st.world, log := st.log ++ [ev] }

/-- The assignment `err[cnt%PERF_AVG_TRIALS] = v`.  The remainder is C's
(truncating); a zero divisor and an index outside the buffer are undefined. -/
def buf_write (err : List α) (cnt P : Int) (v : α) : Option (List α) :=
  if P = 0 then none
  else if 0 ≤ Int.tmod cnt P ∧ (Int.tmod cnt P).toNat < err.length then
    some (err.set (Int.tmod cnt P).toNat v)
  else none

/-- The local variables of `trial` once the system prediction is computed. -/
structure Predicted (W S L α : Type) where
  state : S
  answer : α
  sets : Sets L
  pre : α
  exec : Exec W L α

/-- The first part of `trial`: `func_state`, `func_answer`, `set_match` on empty
sets, `set_pred`. -/
def trial_predict (env : Env W S L A α) (cnt : Int) (train : Bool) (st : Exec W L α) :
    Predicted W S L α :=
  let s := st.call (Call.func_state train) (env.func_state train)
  let a := s.2.call (Call.func_answer train) (env.func_answer train)
  let mt := a.2.call (Call.set_match cnt) (env.set_match env.null 0 0 s.1 cnt env.null)
  let p := mt.2.call Call.set_pred (env.set_pred mt.1.mset mt.1.msize s.1)
  { state := s.1, answer := a.1, sets := { mt.1 with mset := p.1.2 }, pre := p.1.1,
    exec := p.2 }

/-- The block `if(train) { set_update(...); ga(...); }` of `trial`: the match
set and the kill set afterwards. -/
def trial_learn (env : Env W S L A α) (cnt : Int) (train : Bool) (q : Predicted W S L α) :
    (L × L) × Exec W L α :=
  if train then
    let u := q.exec.call Call.set_update
      (env.set_update q.sets.mset q.sets.msize q.sets.mnum q.answer q.sets.kset q.state)
    u.2.call (Call.ga cnt) (env.ga u.1.mset u.1.msize u.1.mnum cnt u.1.kset)
  else ((q.sets.mset, q.sets.kset), q.exec)

/-- The program after the calls of `trial(cnt, train, err)`: those of
`trial_predict`, the learning block, then `set_kill(&kset)` and
`set_free(&mset)`. -/
def trial_exec (env : Env W S L A α) (cnt : Int) (train : Bool) (st : Exec W L α) :
    Exec W L α :=
  let r := trial_learn env cnt train (trial_predict env cnt train st)
  let k := r.2.call (Call.set_kill r.1.2) (env.set_kill r.1.2)
  (k.2.call (Call.set_free r.1.1) (env.set_free r.1.1)).2

/-- The function `trial(cnt, train, err)` with `P` for `PERF_AVG_TRIALS`: the
buffer and the program afterwards. -/
def trial (env : Env W S L A α) (P : Int) (cnt : Int) (train : Bool) (err : List α)
    (st : Exec W L α) : Option (List α × Exec W L α) :=
  let q := trial_predict env cnt train st
  match buf_write err cnt P (abs (q.answer - q.pre)) with
  | none => none
  | some err1 =>
    let r := trial_learn env cnt train q
    let k := r.2.call (Call.set_kill r.1.2) (env.set_kill r.1.2)
    let f := k.2.call (Call.set_free r.1.1) (env.set_free r.1.1)
    some (err1, f.2)

/-- The body of the `cnt` loop of `main`: a training trial, a test trial, and
`disp_perf` when `cnt%PERF_AVG_TRIALS == 0 && cnt > 0`. -/
def trial_pair (env : Env W S L A α) (P : Int) (cnt : Int)
    (b : List α × List α × Exec W L α) : Option (List α × List α × Exec W L α) :=
  match trial env P cnt true b.1 b.2.2 with
  | none => none
  | some r1 =>
    match trial env P cnt false b.2.1 r1.2 with
    | none => none
    | some r2 =>
      if Int.tmod cnt P = 0 ∧ cnt > 0 then
        some (r1.1, r2.1,
          r2.2.call_void (Call.disp_perf r1.1 r2.1 cnt (env.pop_num r2.2.world))
            (env.disp_perf r1.1 r2.1 cnt (env.pop_num r2.2.world)))
      else some (r1.1, r2.1, r2.2)

/-- The `cnt` loop of `main` over the given indices. -/
def trials_loop (env : Env W S L A α) (P : Int) :
    List Int → List α × List α × Exec W L α → Option (List α × List α × Exec W L α)
  | [], b => some b
  | cnt :: rest, b => (trial_pair env P cnt b).bind (trials_loop env P rest)

/-- The indices `0, 1, ..., n-1` of `for(int cnt = 0; cnt < n; cnt++)`. -/
def indices (n : Nat) : List Int := (List.range n).map Int.ofNat

/-- The body of the `e` loop of `main`: one experiment. -/
def experiment (env : Env W S L A α) (cs : MainConsts) (e : Int)
    (b : List α × List α × Exec W L α) : Option (List α × List α × Exec W L α) :=
  let st1 := b.2.2.call_void (Call.printf_experiment e) id
  let st2 := st1.call_void Call.pop_init env.pop_init
  let st3 := st2.call_void (Call.outfile_init e) (env.outfile_init e)
  (trials_loop env cs.PERF_AVG_TRIALS (indices cs.MAX_TRIALS.toNat) (b.1, b.2.1, st3)).map
    (fun r =>
      let st4 := r.2.2.call_void Call.set_kill_pset env.set_kill_pset
      (r.1, r.2.1, st4.call_void Call.outfile_close env.outfile_close))

/-- The `e` loop of `main` over the given experiment numbers. -/
def experiments_loop (env : Env W S L A α) (cs : MainConsts) :
    List Int → List α × List α × Exec W L α → Option (List α × List α × Exec W L α)
  | [], b => some b
  | e :: rest, b => (experiment env cs e b).bind (experiments_loop env cs rest)

/-- The value of `EXIT_FAILURE`. -/
def EXIT_FAILURE : Int := 1

/-- The value of `EXIT_SUCCESS`. -/
def EXIT_SUCCESS : Int := 0

/-- The function `main(argc, argv)`: the exit status and the program at the end.
The arrays `err` and `terr` have `PERF_AVG_TRIALS` entries of unspecified
content, given by `junk1` and `junk2`; a non-positive array size and a missing
`argv[1]` are undefined. -/
def main (env : Env W S L A α) (junk1 junk2 : Nat → α) (argc : Int) (argv : List A)
    (w : W) : Option (Int × Exec W L α) :=
  let st0 : Exec W L α := { world := w, log := [] }
  if argc < 2 ∨ argc > 4 then
    some (EXIT_FAILURE,
      (st0.call_void Call.printf_usage id).call_void (Call.exit_process EXIT_FAILURE) id)
  else
    let c := st0.call (Call.constants_init argc) (env.constants_init argc argv)
    let st1 := c.2.call_void Call.random_init env.random_init
    match argv[1]? with
    | none => none
    | some a1 =>
      let st2 := st1.call_void Call.func_init (env.func_init a1)
      let st3 := st2.call_void Call.gen_outfname (env.gen_outfname a1)
      if c.1.PERF_AVG_TRIALS ≤ 0 then none
      else
        (experiments_loop env c.1
          ((List.range c.1.NUM_EXPERIMENTS.toNat).map (fun (i : Nat) => Int.ofNat i + 1))
          ((List.range c.1.PERF_AVG_TRIALS.toNat).map junk1,
            (List.range c.1.PERF_AVG_TRIALS.toNat).map junk2, st3)).map
          (fun r => (EXIT_SUCCESS, r.2.2.call_void Call.func_free env.func_free))

/-- The environment with reinforcement and evolution replaced by the identity:
`set_update` and `ga` return the sets they are given and leave the world alone. -/
def Env.without_learning (env : Env W S L A α) : Env W S L A α :=
  { env with
    set_update := fun mset msize mnum _ kset _ w =>
      ({ mset := mset, msize := msize, mnum := mnum, kset := kset }, w)
    ga := fun mset _ _ _ kset w => ((mset, kset), w) }

/-- The environment `without_learning` whose `func_state` and `func_answer`
moreover answer every call as they answer a call with `train = false`. -/
def Env.test_view (env : Env W S L A α) : Env W S L A α :=
  { env.without_learning with
    func_state := fun _ => env.func_state false
    func_answer := fun _ => env.func_answer false }

/-- The error a trial records: `fabs(answer - pre)` with the answer and the
prediction of `trial_predict`. -/
def trial_error (env : Env W S L A α) (cnt : Int) (train : Bool) (w : W) : α :=
  abs ((trial_predict env cnt train ({ world := w, log := [] } : Exec W L α)).answer -
    (trial_predict env cnt train ({ world := w, log := [] } : Exec W L α)).pre)

/-- The `cnt` values with which `disp_perf` was called, oldest first. -/
def disp_perf_calls (log : List (Call L α)) : List Int :=
  log.filterMap (fun ev => match ev with
    | Call.disp_perf _ _ cnt _ => some cnt
    | _ => none)

/-- An environment for running examples.  The world is a clock that
`func_state` advances; the answer to a training trial is the clock, to a test
trial 0; the prediction is 0; the sets are numbers. -/
def testEnv : Env Int Unit Nat Unit ℚ :=
  { null := 0
    constants_init := fun _ _ w =>
      ({ MAX_TRIALS := 5, NUM_EXPERIMENTS := 1, PERF_AVG_TRIALS := 2 }, w)
    random_init := id
    func_init := fun _ => id
    gen_outfname := fun _ => id
    pop_init := fun _ => 0
    outfile_init := fun _ => id
    func_state := fun _ w => ((), w + 1)
    func_answer := fun train w => (if train then (w : ℚ) else 0, w)
    set_match := fun _ _ _ _ _ _ w => ({ mset := 1, msize := 1, mnum := 1, kset := 2 }, w)
    set_pred := fun mset _ _ w => ((0, mset), w)
    set_update := fun mset msize mnum _ kset _ w =>
      ({ mset := mset + 2, msize := msize, mnum := mnum, kset := kset + 2 }, w)
    ga := fun mset _ _ _ kset w => ((mset + 4, kset + 4), w)
    set_kill := fun _ w => (0, w)
    set_free := fun _ w => (0, w)
    pop_num := fun _ => 7
    disp_perf := fun _ _ _ _ => id
    set_kill_pset := id
    outfile_close := id
    func_free := id }

end MainModule

section Reporting

variable {W S L A α : Type} [LinearOrderedField α]

/-- The error recorded by the training trial with index `c` in the run of the
`cnt` loop that starts from `b0`: the error of a training trial made in the
world the loop has reached after the indices before `c`. -/
def train_error_at (env : Env W S L A α) (P : Int) (b0 : List α × List α × Exec W L α)
    (c : Nat) : Option α :=
  (trials_loop env P (indices c) b0).map (fun b => trial_error env c true b.2.2.world)

/-- The error recorded by the test trial with index `c` in the run of the `cnt`
loop that starts from `b0`: the error of a test trial made in the world left by
the training trial with index `c`. -/
def test_error_at (env : Env W S L A α) (P : Int) (b0 : List α × List α × Exec W L α)
    (c : Nat) : Option α :=
  (trials_loop env P (indices c) b0).map
    (fun b => trial_error env c false (trial_exec env c true b.2.2).world)

end Reporting

/-- A C `double` with its special values: a finite value, `+inf`, `-inf` or NaN.
Arithmetic on finite values is exact; the special values follow IEEE 754. -/
inductive Double (α : Type) where
  | fin (x : α)
  | pinf
  | ninf
  | nan
  deriving DecidableEq, Repr

section SpecialValues

variable {α : Type} [LinearOrderedField α]

/-- The sum `a + b` of two doubles. -/
def Double.add : Double α → Double α → Double α
  | .fin x, .fin y => .fin (x + y)
  | .nan, _ => .nan
  | _, .nan => .nan
  | .pinf, .ninf => .nan
  | .ninf, .pinf => .nan
  | .pinf, _ => .pinf
  | _, .pinf => .pinf
  | .ninf, _ => .ninf
  | _, .ninf => .ninf

/-- The difference `a - b` of two doubles. -/
def Double.sub : Double α → Double α → Double α
  | .fin x, .fin y => .fin (x - y)
  | .nan, _ => .nan
  | _, .nan => .nan
  | .pinf, .pinf => .nan
  | .ninf, .ninf => .nan
  | .pinf, _ => .pinf
  | _, .ninf => .pinf
  | .ninf, _ => .ninf
  | _, .pinf => .ninf

/-- The product `a * b` of two doubles; an infinity times zero is NaN. -/
def Double.mul : Double α → Double α → Double α
  | .fin x, .fin y => .fin (x * y)
  | .nan, _ => .nan
  | _, .nan => .nan
  | .pinf, .fin y => if y > 0 then .pinf else if y < 0 then .ninf else .nan
  | .ninf, .fin y => if y > 0 then .ninf else if y < 0 then .pinf else .nan
  | .fin x, .pinf => if x > 0 then .pinf else if x < 0 then .ninf else .nan
  | .fin x, .ninf => if x > 0 then .ninf else if x < 0 then .pinf else .nan
  | .pinf, .pinf => .pinf
  | .ninf, .ninf => .pinf
  | .pinf, .ninf => .ninf
  | .ninf, .pinf => .ninf

/-- The quotient `a / b` of two doubles.  The sign of a zero is not represented:
a zero divisor is taken as `+0.0` (`node_update` never divides by zero). -/
def Double.div : Double α → Double α → Double α
  | .nan, _ => .nan
  | _, .nan => .nan
  | .fin x, .fin y =>
      if y ≠ 0 then .fin (x / y)
      else if x > 0 then .pinf else if x < 0 then .ninf else .nan
  | .fin _, .pinf => .fin 0
  | .fin _, .ninf => .fin 0
  | .pinf, .fin y => if y < 0 then .ninf else .pinf
  | .ninf, .fin y => if y < 0 then .pinf else .ninf
  | .pinf, .pinf => .nan
  | .pinf, .ninf => .nan
  | .ninf, .pinf => .nan
  | .ninf, .ninf => .nan

/-- The comparison `a < b` of two doubles: false when either is NaN. -/
def Double.lt : Double α → Double α → Bool
  | .fin x, .fin y => decide (x < y)
  | .nan, _ => false
  | _, .nan => false
  | .ninf, .ninf => false
  | .ninf, _ => true
  | .pinf, _ => false
  | .fin _, .pinf => true
  | .fin _, .ninf => false

/-- The comparison `a != b` of two doubles: true when either is NaN. -/
def Double.ne : Double α → Double α → Bool
  | .fin x, .fin y => decide (x ≠ y)
  | .nan, _ => true
  | _, .nan => true
  | .pinf, .pinf => false
  | .ninf, .ninf => false
  | _, _ => true

/-- The function `sin` of `math.h` on doubles: NaN at the infinities and at NaN. -/
def Double.sin (m : MathFns α) : Double α → Double α
  | .fin x => .fin (m.sin x)
  | _ => .nan

/-- The function `cos` of `math.h` on doubles: NaN at the infinities and at NaN. -/
def Double.cos (m : MathFns α) : Double α → Double α
  | .fin x => .fin (m.cos x)
  | _ => .nan

/-- The function `tanh` of `math.h` on doubles: `1` and `-1` at the infinities,
NaN at NaN. -/
def Double.tanh (m : MathFns α) : Double α → Double α
  | .fin x => .fin (m.tanh x)
  | .pinf => .fin 1
  | .ninf => .fin (-1)
  | .nan => .nan

/-- A double that is a finite value in `[-1, 1]`. -/
def Double.bounded : Double α → Prop
  | .fin y => -1 ≤ y ∧ y ≤ 1
  | _ => False

instance (a : Double α) : Decidable a.bounded := by
  cases a <;> unfold Double.bounded <;> infer_instance

/-- The finite value of a double (0 for a special value). -/
def Double.val : Double α → α
  | .fin x => x
  | _ => 0

/-- The final clamp of `node_update` on doubles:
`if(*state > 1.0) *state = 1.0; else if(*state < -1.0) *state = -1.0;`. -/
def clamp_dbl (s : Double α) : Double α :=
  if Double.lt (.fin 1) s then .fin 1 else if Double.lt s (.fin (-1)) then .fin (-1) else s

/-- The `switch(func)` of `node_update` on doubles, before the clamp. -/
def node_apply_dbl (m : MathFns α) (state : Double α) (func : Int) (input : Double α) :
    Double α :=
  if func = 0 then state.add input
  else if func = 1 then state.sub input
  else if func = 2 then state.mul input
  else if func = 3 then (if Double.ne input (.fin 0) then state.div input else state)
  else if func = 4 then Double.sin m input
  else if func = 5 then Double.cos m input
  else if func = 6 then Double.tanh m input
  else state

/-- The function `node_update(&state, func, input)` on doubles with their
special values: the new value of `*state`. -/
def node_update_dbl (m : MathFns α) (state : Double α) (func : Int) (input : Double α) :
    Double α :=
  clamp_dbl (node_apply_dbl m state func input)

/-- One iteration of the `k` loop of `graph_update`, as `slot_update`, on doubles
with their special values. -/
def slot_update_dbl (m : MathFns α) (inputs : List (Double α)) (i : Nat)
    (nodes : List (GNODE (Double α))) (c : Int) : Option (List (GNODE (Double α))) :=
  if c < 0 then
    match inputs[c.natAbs - 1]?, nodes[i]? with
    | some x, some a =>
        some (nodes.set i { a with state := node_update_dbl m a.state a.func x })
    | _, _ => none
  else if c > 0 then
    match nodes[c.toNat - 1]?, nodes[i]? with
    | some b, some a =>
        some (nodes.set i { a with state := node_update_dbl m a.state a.func b.state })
    | _, _ => none
  else some nodes

/-- The `k` loop of `graph_update` for node `i`, on doubles with their special
values. -/
def node_sweep_dbl (m : MathFns α) (inputs : List (Double α)) (i : Nat) :
    List Int → List (GNODE (Double α)) → Option (List (GNODE (Double α)))
  | [], nodes => some nodes
  | c :: cs, nodes =>
    (slot_update_dbl m inputs i nodes c).bind (node_sweep_dbl m inputs i cs)

/-- The body of the `i` loop of `graph_update`, on doubles with their special
values. -/
def node_step_dbl (m : MathFns α) (inputs : List (Double α))
    (nodes : List (GNODE (Double α))) (i : Nat) : Option (List (GNODE (Double α))) :=
  match nodes[i]? with
  | some a => node_sweep_dbl m inputs i a.conn nodes
  | none => none

/-- The `i` loop of `graph_update` over the indices `is`, on doubles with their
special values. -/
def sweep_loop_dbl (m : MathFns α) (inputs : List (Double α)) :
    List Nat → List (GNODE (Double α)) → Option (List (GNODE (Double α)))
  | [], nodes => some nodes
  | i :: is, nodes => (node_step_dbl m inputs nodes i).bind (sweep_loop_dbl m inputs is)

/-- One sweep, on doubles with their special values. -/
def graph_sweep_dbl (m : MathFns α) (inputs : List (Double α))
    (nodes : List (GNODE (Double α))) : Option (List (GNODE (Double α))) :=
  sweep_loop_dbl m inputs (List.range nodes.length) nodes

/-- The `t` loop of `graph_update`, on doubles with their special values. -/
def sweeps_dbl (m : MathFns α) (inputs : List (Double α)) :
    Nat → List (GNODE (Double α)) → Option (List (GNODE (Double α)))
  | 0, nodes => some nodes
  | r + 1, nodes => (graph_sweep_dbl m inputs nodes).bind (sweeps_dbl m inputs r)

/-- The function `graph_update(dgp, inputs)` on doubles with their special values:
reset, then `dgp->t` sweeps. -/
def graph_update_dbl (m : MathFns α) (g : GRAPH (Double α)) (inputs : List (Double α)) :
    Option (GRAPH (Double α)) :=
  (sweeps_dbl m inputs g.t.toNat (graph_reset g).nodes).map (fun ns => { g with nodes := ns })

/-- A node of finite values as a node of doubles. -/
def GNODE.to_double (a : GNODE α) : GNODE (Double α) :=
  { k := a.k, state := .fin a.state, initial_state := .fin a.initial_state, func := a.func,
    conn := a.conn }

/-- The node of finite values whose initial state is that of a node of doubles;
its state is the initial state, as after `graph_reset`. -/
def GNODE.finite_part (a : GNODE (Double α)) : GNODE α :=
  { k := a.k, state := a.initial_state.val, initial_state := a.initial_state.val,
    func := a.func, conn := a.conn }

/-- A one-node graph for running examples: an add node with initial state 0 that
reads external input 1 once. -/
def add_input_graph : GRAPH (Double ℚ) :=
  { t := 1, nodes := [{ k := 1, state := .fin 0, initial_state := .fin 0, func := 0, conn := [-1] }] }

end SpecialValues

/-! ## Transfer function -/

section UpdateLemmas

variable {α : Type} [LinearOrderedField α]

theorem clamp_lower (s : α) : -1 ≤ clamp s := by
  unfold clamp
  split_ifs with h1 h2
  · norm_num
  · exact le_refl _
  · exact not_lt.mp h2

theorem clamp_upper (s : α) : clamp s ≤ 1 := by
  unfold clamp
  split_ifs with h1 h2
  · exact le_refl _
  · norm_num
  · exact not_lt.mp h1

theorem clamp_of_mem (s : α) (h1 : -1 ≤ s) (h2 : s ≤ 1) : clamp s = s := by
  unfold clamp
  rw [if_neg (not_lt.mpr h2), if_neg (not_lt.mpr h1)]

/-- C3, as stated, fails: guarded divide by an input of exactly 0 does not leave
every prior state unchanged; the prior state 2 becomes 1. -/
theorem guarded_divide_zero_changes_state :
    ¬ (∀ state : ℚ, node_update testFns state 3 0 = state) := by
  intro h
  have h2 := h 2
  revert h2
  decide

/-- C3, amended: guarded divide by an input of exactly 0 performs no division;
the result is the prior state clamped to `[-1, 1]`, hence the prior state itself
whenever that lies in `[-1, 1]`. -/
theorem guarded_divide_zero (m : MathFns α) (state : α) :
    node_update m state 3 0 = clamp state ∧
      (-1 ≤ state → state ≤ 1 → node_update m state 3 0 = state) := by
  have h : node_update m state 3 0 = clamp state := by
    simp [node_update, node_apply]
  exact ⟨h, fun h1 h2 => by rw [h, clamp_of_mem state h1 h2]⟩

theorem guarded_divide_zero_witness :
    (-1 ≤ (1 / 2 : ℚ) ∧ (1 / 2 : ℚ) ≤ 1) ∧
      node_update testFns (1 / 2 : ℚ) 3 0 = (1 / 2 : ℚ) :=
  ⟨by norm_num, (guarded_divide_zero testFns (1 / 2 : ℚ)).2 (by norm_num) (by norm_num)⟩

end UpdateLemmas

section SweepOrder
/-! ## Evaluation order of a sweep -/

variable {α : Type} [LinearOrderedField α]

theorem slots_fold_congr (m : MathFns α) (inputs : List α) (rd rd2 : Nat → α → Option α)
    (func : Int) (cs : List Int)
    (h : ∀ c ∈ cs, 0 < c → ∀ acc, rd (c.toNat - 1) acc = rd2 (c.toNat - 1) acc) (acc : α) :
    slots_fold m inputs rd func cs acc = slots_fold m inputs rd2 func cs acc := by
  induction cs generalizing acc with
  | nil => rfl
  | cons c cs ih =>
    have ih2 := fun acc => ih (fun c hc => h c (List.mem_cons_of_mem _ hc)) acc
    unfold slots_fold
    split_ifs with h1 h2
    · simp only [ih2]
    · rw [h c (List.mem_cons_self _ _) h2]
      simp only [ih2]
    · exact ih2 acc

theorem node_sweep_eq (m : MathFns α) (inputs : List α) (i : Nat) (nodes : List (GNODE α))
    (a : GNODE α) (hi : i < nodes.length) (cs : List Int) (acc : α) :
    node_sweep m inputs i cs (nodes.set i { a with state := acc }) =
      (slots_fold m inputs
        (fun j x => if j = i then some x else nodes[j]?.map GNODE.state) a.func cs acc).map
        (fun x => nodes.set i { a with state := x }) := by
  induction cs generalizing acc with
  | nil => simp [node_sweep, slots_fold]
  | cons c cs ih =>
    unfold node_sweep slots_fold slot_update
    have hself : (nodes.set i { a with state := acc })[i]? = some { a with state := acc } := by
      simp [List.getElem?_set, hi]
    by_cases h1 : c < 0
    · simp only [h1, if_true]
      rw [hself]
      cases hx : inputs[c.natAbs - 1]? with
      | none => simp
      | some x =>
        simp only [Option.some_bind, List.set_set]
        exact ih _
    · by_cases h2 : c > 0
      · simp only [h1, h2, if_true, if_false]
        rw [hself]
        by_cases hj : c.toNat - 1 = i
        · rw [hj, hself]
          simp only [Option.some_bind, List.set_set, if_true]
          exact ih _
        · have hother :
              (nodes.set i { a with state := acc })[c.toNat - 1]? = nodes[c.toNat - 1]? := by
            rw [List.getElem?_set_ne (Ne.symm hj)]
          rw [hother, if_neg hj]
          cases hx : nodes[c.toNat - 1]? with
          | none => simp
          | some b =>
            simp only [Option.some_bind, List.set_set, Option.map_some']
            exact ih _
      · simp only [h1, h2, if_false, Option.some_bind]
        exact ih _


theorem node_step_eq (m : MathFns α) (inputs : List α) (i : Nat) (nodes : List (GNODE α))
    (a : GNODE α) (ha : nodes[i]? = some a) :
    node_step m inputs nodes i =
      (slots_fold m inputs
        (fun j x => if j = i then some x else nodes[j]?.map GNODE.state) a.func a.conn
        a.state).map (fun x => nodes.set i { a with state := x }) := by
  obtain ⟨hi, hget⟩ := List.getElem?_eq_some.mp ha
  have hset : nodes.set i { a with state := a.state } = nodes := by
    apply List.ext_getElem? ; intro j
    by_cases hj : i = j
    · subst hj; simp [List.getElem?_set, hi, ha]
    · rw [List.getElem?_set_ne hj]
  unfold node_step
  rw [ha]
  simp only
  have h := node_sweep_eq m inputs i nodes a hi a.conn a.state
  rw [hset] at h
  exact h

theorem sweep_loop_range (m : MathFns α) (inputs : List α) (r : Nat) :
    ∀ (i0 : Nat) (cur post : List (GNODE α)),
      sweep_loop m inputs (List.range' i0 r) cur = some post →
      post.length = cur.length ∧
      (∀ j, (j < i0 ∨ i0 + r ≤ j) → post[j]? = cur[j]?) ∧
      (∀ j a, i0 ≤ j → j < i0 + r → cur[j]? = some a →
        ∃ x, post[j]? = some { a with state := x } ∧
          slots_fold m inputs (spec_read cur post j) a.func a.conn a.state = some x) := by
  induction r with
  | zero =>
    intro i0 cur post h
    simp only [List.range'_zero, sweep_loop, Option.some.injEq] at h
    subst h
    refine ⟨rfl, fun _ _ => rfl, ?_⟩
    intro j a h1 h2
    omega
  | succ r ih =>
    intro i0 cur post h
    rw [List.range'_succ] at h
    unfold sweep_loop at h
    obtain ⟨mid, hmid, hrest⟩ := Option.bind_eq_some.mp h
    cases ha : cur[i0]? with
    | none => simp [node_step, ha] at hmid
    | some a =>
      rw [node_step_eq m inputs i0 cur a ha] at hmid
      obtain ⟨x, hx, hmid2⟩ := Option.map_eq_some'.mp hmid
      obtain ⟨hi0, -⟩ := List.getElem?_eq_some.mp ha
      obtain ⟨hlen, hout, hin⟩ := ih (i0 + 1) mid post hrest
      have hmidlen : mid.length = cur.length := by rw [← hmid2, List.length_set]
      have hmid_ne : ∀ j, j ≠ i0 → mid[j]? = cur[j]? := by
        intro j hj
        rw [← hmid2, List.getElem?_set_ne (Ne.symm hj)]
      have hmid_self : mid[i0]? = some { a with state := x } := by
        rw [← hmid2]; simp [List.getElem?_set, hi0]
      refine ⟨hlen.trans hmidlen, ?_, ?_⟩
      · intro j hj
        rw [hout j (by omega), hmid_ne j (by omega)]
      · intro j b h1 h2 hb
        by_cases hj : j = i0
        · subst hj
          rw [ha] at hb
          cases hb
          refine ⟨x, ?_, ?_⟩
          · rw [hout j (by omega), hmid_self]
          · rw [← hx]
            apply slots_fold_congr
            intro c _ _ acc
            unfold spec_read
            by_cases hlt : c.toNat - 1 < j
            · rw [if_pos hlt, if_neg (by omega), hout _ (by omega), hmid_ne _ (by omega)]
            · rw [if_neg hlt]
              by_cases hgt : j < c.toNat - 1
              · rw [if_pos hgt, if_neg (by omega)]
              · rw [if_neg hgt, if_pos (by omega)]
        · have hb2 : mid[j]? = some b := by rw [hmid_ne j hj]; exact hb
          obtain ⟨y, hy1, hy2⟩ := hin j b (by omega) (by omega) hb2
          refine ⟨y, hy1, ?_⟩
          rw [← hy2]
          apply slots_fold_congr
          intro c _ _ acc
          unfold spec_read
          by_cases hlt : c.toNat - 1 < j
          · rw [if_pos hlt, if_pos hlt]
          · rw [if_neg hlt, if_neg hlt]
            by_cases hgt : j < c.toNat - 1
            · rw [if_pos hgt, if_pos hgt, hmid_ne _ (by omega)]
            · rw [if_neg hgt, if_neg hgt]


theorem slots_fold_isSome (m : MathFns α) (inputs : List α) (rd : Nat → α → Option α)
    (func : Int) (cs : List Int)
    (hneg : ∀ c ∈ cs, c < 0 → c.natAbs - 1 < inputs.length)
    (hpos : ∀ c ∈ cs, 0 < c → ∀ acc, ∃ x, rd (c.toNat - 1) acc = some x) (acc : α) :
    ∃ x, slots_fold m inputs rd func cs acc = some x := by
  induction cs generalizing acc with
  | nil => exact ⟨acc, rfl⟩
  | cons c cs ih =>
    have ih2 := ih (fun c hc => hneg c (List.mem_cons_of_mem _ hc))
      (fun c hc => hpos c (List.mem_cons_of_mem _ hc))
    unfold slots_fold
    by_cases h1 : c < 0
    · simp only [h1, if_true]
      have hlt := hneg c (List.mem_cons_self _ _) h1
      rw [List.getElem?_eq_getElem hlt]
      exact ih2 _
    · by_cases h2 : c > 0
      · simp only [h1, h2, if_true, if_false]
        obtain ⟨x, hx⟩ := hpos c (List.mem_cons_self _ _) h2 acc
        rw [hx]
        exact ih2 _
      · simp only [h1, h2, if_false]
        exact ih2 _

omit [LinearOrderedField α] in
theorem nodes_in_bounds_set (k : Nat) (nodes : List (GNODE α)) (i : Nat) (a : GNODE α)
    (x : α) (ha : nodes[i]? = some a) (hb : nodes_in_bounds k nodes) :
    nodes_in_bounds k (nodes.set i { a with state := x }) := by
  intro b hmem c hc
  rw [List.length_set]
  rcases List.mem_or_eq_of_mem_set hmem with h | h
  · exact hb b h c hc
  · subst h
    obtain ⟨hi, hget⟩ := List.getElem?_eq_some.mp ha
    exact hb a (hget ▸ List.getElem_mem hi) c hc

theorem sweep_loop_total (m : MathFns α) (inputs : List α) (r : Nat) :
    ∀ (i0 : Nat) (cur : List (GNODE α)), nodes_in_bounds inputs.length cur →
      i0 + r ≤ cur.length → ∃ post, sweep_loop m inputs (List.range' i0 r) cur = some post := by
  induction r with
  | zero => intro i0 cur _ _; exact ⟨cur, rfl⟩
  | succ r ih =>
    intro i0 cur hb hlen
    have hi0 : i0 < cur.length := by omega
    have ha : cur[i0]? = some cur[i0] := List.getElem?_eq_getElem hi0
    have hmem : cur[i0] ∈ cur := List.getElem_mem hi0
    obtain ⟨x, hx⟩ := slots_fold_isSome m inputs
      (fun j x => if j = i0 then some x else cur[j]?.map GNODE.state) cur[i0].func cur[i0].conn
      (fun c hc hneg => by
        have := (hb _ hmem c hc).1
        omega)
      (fun c hc hpos acc => by
        have := (hb _ hmem c hc).2
        by_cases hj : c.toNat - 1 = i0
        · exact ⟨acc, by simp only [hj, if_true]⟩
        · have hlt : c.toNat - 1 < cur.length := by omega
          exact ⟨cur[c.toNat - 1].state, by
            simp only [hj, if_false, List.getElem?_eq_getElem hlt, Option.map_some']⟩)
      cur[i0].state
    rw [List.range'_succ]
    unfold sweep_loop
    rw [node_step_eq m inputs i0 cur _ ha, hx]
    simp only [Option.map_some', Option.some_bind]
    apply ih
    · exact nodes_in_bounds_set _ _ _ _ _ ha hb
    · rw [List.length_set]; omega

theorem node_sweep_zeros (m : MathFns α) (inputs : List α) (i K : Nat)
    (nodes : List (GNODE α)) :
    node_sweep m inputs i (List.replicate K 0) nodes = some nodes := by
  induction K with
  | zero => rfl
  | succ K ih =>
    rw [List.replicate_succ]
    unfold node_sweep
    simp [slot_update, ih]

theorem scenario_result (m : MathFns α) (K : Nat) :
    graph_update m (scenario_graph K) [1 / 2] =
      some { t := 1
             nodes :=
              [ { k := 1, state := 1 / 2, initial_state := 0, func := 0,
                  conn := -1 :: List.replicate K 0 },
                { k := 1, state := clamp (m.sin (1 / 2)), initial_state := 0, func := 4,
                  conn := 1 :: List.replicate K 0 } ] } := by
  have hc : clamp (2⁻¹ : α) = 2⁻¹ := clamp_of_mem _ (by norm_num) (by norm_num)
  simp [graph_update, graph_reset, scenario_graph, sweeps, graph_sweep, sweep_loop,
    List.range_succ, node_step, node_sweep, slot_update, node_sweep_zeros, node_update,
    node_apply, hc]

/-- C1: evaluation order of `graph_update`.  Whenever a sweep over `pre` returns
`post`, every node keeps all fields but `state`, and the state of node `i` is
obtained by applying its slots in order to its previous state, a reference to
node `j` reading the state of `j` after this sweep when `j < i`, the state of `j`
before this sweep when `j > i`, and the running accumulator when `j = i`
(`spec_node_state`); a sweep returns whenever all references are in bounds; the
first sweep of `graph_update` starts from the initial states; and in the
specification's scenario node 0 ends at `1/2` and node 1 at the clamped sine of
`1/2`, the value node 0 has after the same sweep. -/
theorem graph_sweep_evaluation_order (m : MathFns α) (inputs : List α)
    (pre : List (GNODE α)) :
    (∀ post, graph_sweep m inputs pre = some post →
      post.length = pre.length ∧
      ∀ i a, pre[i]? = some a →
        ∃ x, post[i]? = some { a with state := x } ∧
          spec_node_state m inputs pre post i a = some x) ∧
    (nodes_in_bounds inputs.length pre → ∃ post, graph_sweep m inputs pre = some post) ∧
    (∀ g : GRAPH α,
      (∀ i : Nat, (graph_reset g).nodes[i]?.map GNODE.state =
        g.nodes[i]?.map GNODE.initial_state) ∧
      (0 < g.t → graph_update m g inputs =
        ((graph_sweep m inputs (graph_reset g).nodes).bind
          (sweeps m inputs (g.t.toNat - 1))).map (fun ns => { g with nodes := ns }))) ∧
    (∀ K : Nat, graph_update m (scenario_graph K) [1 / 2] =
      some { t := 1
             nodes :=
              [ { k := 1, state := 1 / 2, initial_state := 0, func := 0,
                  conn := -1 :: List.replicate K 0 },
                { k := 1, state := clamp (m.sin (1 / 2)), initial_state := 0, func := 4,
                  conn := 1 :: List.replicate K 0 } ] }) := by
  refine ⟨?_, ?_, ?_, scenario_result m⟩
  · intro post h
    unfold graph_sweep at h
    rw [List.range_eq_range'] at h
    obtain ⟨hlen, -, hin⟩ := sweep_loop_range m inputs pre.length 0 pre post h
    refine ⟨hlen, ?_⟩
    intro i a ha
    obtain ⟨hi, -⟩ := List.getElem?_eq_some.mp ha
    exact hin i a (Nat.zero_le _) (by omega) ha
  · intro hb
    unfold graph_sweep
    rw [List.range_eq_range']
    exact sweep_loop_total m inputs pre.length 0 pre hb (by omega)
  · intro g
    constructor
    · intro i
      unfold graph_reset
      rw [List.getElem?_map]
      cases g.nodes[i]? <;> rfl
    · intro ht
      have e : g.t.toNat = (g.t.toNat - 1) + 1 := by omega
      unfold graph_update
      conv_lhs => rw [e]
      rfl

theorem graph_sweep_evaluation_order_witness :
    graph_sweep testFns [1 / 2] (scenario_graph 0 : GRAPH ℚ).nodes =
        some [ { k := 1, state := 1 / 2, initial_state := 0, func := 0, conn := [-1] },
               { k := 1, state := 1 / 4, initial_state := 0, func := 4, conn := [1] } ] ∧
      nodes_in_bounds 1 (scenario_graph 0 : GRAPH ℚ).nodes ∧
      (∃ post, graph_sweep testFns [1 / 2] (scenario_graph 0 : GRAPH ℚ).nodes = some post) ∧
      ∃ x : ℚ,
        [ ({ k := 1, state := 1 / 2, initial_state := 0, func := 0, conn := [-1] } : GNODE ℚ),
          { k := 1, state := 1 / 4, initial_state := 0, func := 4, conn := [1] } ][1]? =
          some { k := 1, state := x, initial_state := 0, func := 4, conn := [1] } ∧
        spec_node_state testFns [1 / 2] (scenario_graph 0 : GRAPH ℚ).nodes
          [ { k := 1, state := 1 / 2, initial_state := 0, func := 0, conn := [-1] },
            { k := 1, state := 1 / 4, initial_state := 0, func := 4, conn := [1] } ] 1
          { k := 1, state := 0, initial_state := 0, func := 4, conn := [1] } = some x :=
  have h : graph_sweep testFns [1 / 2] (scenario_graph 0 : GRAPH ℚ).nodes =
      some [ { k := 1, state := 1 / 2, initial_state := 0, func := 0, conn := [-1] },
             { k := 1, state := 1 / 4, initial_state := 0, func := 4, conn := [1] } ] := by
    norm_num [graph_sweep, sweep_loop, node_step, node_sweep, slot_update, node_update,
      node_apply, clamp, scenario_graph, testFns, List.range_succ]
  ⟨h, by decide,
    (graph_sweep_evaluation_order testFns [1 / 2] (scenario_graph 0 : GRAPH ℚ).nodes).2.1
      (by decide),
    ((graph_sweep_evaluation_order testFns [1 / 2] (scenario_graph 0 : GRAPH ℚ).nodes).1 _
      h).2 1 { k := 1, state := 0, initial_state := 0, func := 4, conn := [1] } (by decide)⟩

end SweepOrder

section Determinism
/-! ## Determinism of `graph_update` -/

variable {α : Type} [LinearOrderedField α]

theorem slot_update_map_k (m : MathFns α) (inputs : List α) (i : Nat)
    (nodes : List (GNODE α)) (c : Int) :
    slot_update m inputs i (nodes.map (fun a => { a with k := 0 })) c =
      (slot_update m inputs i nodes c).map (List.map (fun a => { a with k := 0 })) := by
  unfold slot_update
  by_cases h1 : c < 0
  · simp only [h1, if_true, List.getElem?_map]
    cases inputs[c.natAbs - 1]? <;> cases nodes[i]? <;> simp [List.map_set]
  · by_cases h2 : c > 0
    · simp only [h1, h2, if_true, if_false, List.getElem?_map]
      cases nodes[c.toNat - 1]? <;> cases nodes[i]? <;> simp [List.map_set]
    · simp only [h1, h2, if_false, Option.map_some']

theorem node_sweep_map_k (m : MathFns α) (inputs : List α) (i : Nat) (cs : List Int)
    (nodes : List (GNODE α)) :
    node_sweep m inputs i cs (nodes.map (fun a => { a with k := 0 })) =
      (node_sweep m inputs i cs nodes).map (List.map (fun a => { a with k := 0 })) := by
  induction cs generalizing nodes with
  | nil => rfl
  | cons c cs ih =>
    unfold node_sweep
    rw [slot_update_map_k]
    cases slot_update m inputs i nodes c with
    | none => rfl
    | some mid => exact ih mid

theorem node_step_map_k (m : MathFns α) (inputs : List α) (nodes : List (GNODE α)) (i : Nat) :
    node_step m inputs (nodes.map (fun a => { a with k := 0 })) i =
      (node_step m inputs nodes i).map (List.map (fun a => { a with k := 0 })) := by
  unfold node_step
  rw [List.getElem?_map]
  cases nodes[i]? with
  | none => rfl
  | some a => exact node_sweep_map_k m inputs i a.conn nodes

theorem sweep_loop_map_k (m : MathFns α) (inputs : List α) (is : List Nat)
    (nodes : List (GNODE α)) :
    sweep_loop m inputs is (nodes.map (fun a => { a with k := 0 })) =
      (sweep_loop m inputs is nodes).map (List.map (fun a => { a with k := 0 })) := by
  induction is generalizing nodes with
  | nil => rfl
  | cons i is ih =>
    unfold sweep_loop
    rw [node_step_map_k]
    cases node_step m inputs nodes i with
    | none => rfl
    | some mid => exact ih mid

theorem sweeps_map_k (m : MathFns α) (inputs : List α) (r : Nat) (nodes : List (GNODE α)) :
    sweeps m inputs r (nodes.map (fun a => { a with k := 0 })) =
      (sweeps m inputs r nodes).map (List.map (fun a => { a with k := 0 })) := by
  induction r generalizing nodes with
  | zero => rfl
  | succ r ih =>
    unfold sweeps
    have h := sweep_loop_map_k m inputs (List.range nodes.length) nodes
    unfold graph_sweep
    rw [List.length_map, h]
    cases sweep_loop m inputs (List.range nodes.length) nodes with
    | none => rfl
    | some mid => exact ih mid

/-- A sweep changes no field but `state`. -/
theorem graph_sweep_frame (m : MathFns α) (inputs : List α) (pre post : List (GNODE α))
    (h : graph_sweep m inputs pre = some post) :
    post.map (fun a => { a with state := a.initial_state }) =
      pre.map (fun a => { a with state := a.initial_state }) := by
  unfold graph_sweep at h
  rw [List.range_eq_range'] at h
  obtain ⟨hlen, -, hin⟩ := sweep_loop_range m inputs pre.length 0 pre post h
  apply List.ext_getElem?
  intro j
  rw [List.getElem?_map, List.getElem?_map]
  cases ha : pre[j]? with
  | none =>
    have : post[j]? = none := by
      rw [List.getElem?_eq_none_iff] at ha ⊢
      omega
    rw [this]
  | some a =>
    obtain ⟨hj, -⟩ := List.getElem?_eq_some.mp ha
    obtain ⟨x, hx, -⟩ := hin j a (Nat.zero_le _) (by omega) ha
    rw [hx]
    rfl

theorem sweeps_frame (m : MathFns α) (inputs : List α) (r : Nat) (pre post : List (GNODE α))
    (h : sweeps m inputs r pre = some post) :
    post.map (fun a => { a with state := a.initial_state }) =
      pre.map (fun a => { a with state := a.initial_state }) := by
  induction r generalizing pre with
  | zero =>
    simp only [sweeps, Option.some.injEq] at h
    rw [h]
  | succ r ih =>
    unfold sweeps at h
    obtain ⟨mid, hmid, hrest⟩ := Option.bind_eq_some.mp h
    rw [ih mid hrest, graph_sweep_frame m inputs pre mid hmid]

omit [LinearOrderedField α] in
theorem reset_map_k_eq (xs ys : List (GNODE α))
    (h : List.Forall₂ (fun a b : GNODE α =>
      a.func = b.func ∧ a.conn = b.conn ∧ a.initial_state = b.initial_state) xs ys) :
    (xs.map (fun a => { a with state := a.initial_state })).map (fun a => { a with k := 0 }) =
      (ys.map (fun a => { a with state := a.initial_state })).map
        (fun a => { a with k := 0 }) := by
  induction h with
  | nil => rfl
  | cons hab _ ih =>
    obtain ⟨h1, h2, h3⟩ := hab
    simp only [List.map_cons, List.cons.injEq, GNODE.mk.injEq]
    exact ⟨⟨trivial, h3, h3, h1, h2⟩, ih⟩

/-- C4: `graph_update` is a function of the structure and the input only.  Two
graphs with the same `t` and, node by node, the same `func`, `conn` and
`initial_state` (hence the same `n`), whatever their `state` and `k` fields,
give the same list of final node states for the same input (and fail together);
and running `graph_update` again on its own result with the same input returns
that result unchanged. -/
theorem graph_update_deterministic (m : MathFns α) (g1 g2 : GRAPH α) (inputs : List α)
    (ht : g1.t = g2.t)
    (hn : List.Forall₂ (fun a b : GNODE α =>
      a.func = b.func ∧ a.conn = b.conn ∧ a.initial_state = b.initial_state)
      g1.nodes g2.nodes) :
    g1.n = g2.n ∧
    (graph_update m g1 inputs).map (fun g => g.nodes.map GNODE.state) =
      (graph_update m g2 inputs).map (fun g => g.nodes.map GNODE.state) ∧
    (∀ g3, graph_update m g1 inputs = some g3 → graph_update m g3 inputs = some g3) := by
  refine ⟨hn.length_eq, ?_, ?_⟩
  · have hst : ∀ ns : List (GNODE α),
        ns.map GNODE.state = (ns.map (fun a => { a with k := 0 })).map GNODE.state := by
      intro ns; rw [List.map_map]; rfl
    obtain ⟨t1, ns1⟩ := g1
    obtain ⟨t2, ns2⟩ := g2
    simp only at ht hn
    subst ht
    have e := reset_map_k_eq ns1 ns2 hn
    have e1 := sweeps_map_k m inputs t1.toNat
      (ns1.map (fun a => { a with state := a.initial_state }))
    have e2 := sweeps_map_k m inputs t1.toNat
      (ns2.map (fun a => { a with state := a.initial_state }))
    rw [e, e2] at e1
    unfold graph_update graph_reset
    simp only [Option.map_map]
    cases h1 : sweeps m inputs t1.toNat
        (ns1.map (fun a => { a with state := a.initial_state })) with
    | none =>
      rw [h1] at e1
      cases h2 : sweeps m inputs t1.toNat
          (ns2.map (fun a => { a with state := a.initial_state })) with
      | none => rfl
      | some p2 => rw [h2] at e1; simp at e1
    | some p1 =>
      rw [h1] at e1
      cases h2 : sweeps m inputs t1.toNat
          (ns2.map (fun a => { a with state := a.initial_state })) with
      | none => rw [h2] at e1; simp at e1
      | some p2 =>
        rw [h2] at e1
        simp only [Option.map_some', Option.some.injEq, Function.comp] at e1 ⊢
        rw [hst p1, hst p2, e1]
  · intro g3 h
    unfold graph_update at h ⊢
    obtain ⟨post, hpost, hg3⟩ := Option.map_eq_some'.mp h
    have hfr := sweeps_frame m inputs _ _ _ hpost
    subst hg3
    unfold graph_reset at hfr ⊢
    simp only [List.map_map] at hfr
    have hid : ((fun a : GNODE α => { a with state := a.initial_state }) ∘
        fun a : GNODE α => { a with state := a.initial_state }) =
        fun a : GNODE α => { a with state := a.initial_state } := by
      funext a; rfl
    simp only
    rw [hfr, hid]
    exact h

theorem graph_update_deterministic_witness :
    (1 : Int) = 1 ∧
    List.Forall₂ (fun a b : GNODE ℚ =>
      a.func = b.func ∧ a.conn = b.conn ∧ a.initial_state = b.initial_state)
      (scenario_graph 0 : GRAPH ℚ).nodes
      [ { k := 7, state := 1, initial_state := 0, func := 0, conn := [-1] },
        { k := 0, state := -1, initial_state := 0, func := 4, conn := [1] } ] ∧
    (graph_update testFns (scenario_graph 0 : GRAPH ℚ) [1 / 2]).map
        (fun g => g.nodes.map GNODE.state) =
      (graph_update testFns
        { t := 1
          nodes :=
            [ { k := 7, state := 1, initial_state := 0, func := 0, conn := [-1] },
              { k := 0, state := -1, initial_state := 0, func := 4, conn := [1] } ] }
        [1 / 2]).map (fun g => g.nodes.map GNODE.state) :=
  ⟨rfl, List.Forall₂.cons ⟨rfl, rfl, rfl⟩ (List.Forall₂.cons ⟨rfl, rfl, rfl⟩ List.Forall₂.nil),
    (graph_update_deterministic testFns (scenario_graph 0 : GRAPH ℚ)
      { t := 1
        nodes :=
          [ { k := 7, state := 1, initial_state := 0, func := 0, conn := [-1] },
            { k := 0, state := -1, initial_state := 0, func := 4, conn := [1] } ] }
      [1 / 2] rfl
      (List.Forall₂.cons ⟨rfl, rfl, rfl⟩
        (List.Forall₂.cons ⟨rfl, rfl, rfl⟩ List.Forall₂.nil))).2.1⟩

end Determinism

section Mutation
/-! ## Random initialisation and mutation -/

variable {σ α : Type} [LinearOrderedField α]

theorem count_k_foldl (conn : List Int) (k0 : Int) :
    conn.foldl (fun k x => if x ≠ 0 then k + 1 else k) k0 =
      k0 + ((conn.filter (fun x => x ≠ 0)).length : Int) := by
  induction conn generalizing k0 with
  | nil => simp
  | cons x xs ih =>
    rw [List.foldl_cons, ih]
    by_cases hx : x = 0
    · simp [hx]
    · simp [hx]; ring

theorem count_k_eq (conn : List Int) :
    count_k conn = ((conn.filter (fun x => x ≠ 0)).length : Int) := by
  unfold count_k
  rw [count_k_foldl, zero_add]

theorem node_rand_conn_loop_spec (rng : RNG σ α) (c : Consts) (n : Int)
    (hr : rng.irand_in_range) (hsl : 1 ≤ c.state_length) (hn : 1 ≤ n) (r : Nat) :
    ∀ (conn : List Int) (k : Int) (s : σ),
      ∃ new : List Int,
        (node_rand_conn_loop rng c n r (conn, k, s)).1 = conn ++ new ∧
        new.length = r ∧
        (node_rand_conn_loop rng c n r (conn, k, s)).2.1 =
          k + ((new.filter (fun x => x ≠ 0)).length : Int) := by
  induction r with
  | zero => intro conn k s; exact ⟨[], by simp [node_rand_conn_loop]⟩
  | succ r ih =>
    intro conn k s
    unfold node_rand_conn_loop
    simp only
    split_ifs with h1 h2
    · obtain ⟨new, e1, e2, e3⟩ := ih (conn ++ [0]) k (rng.drand s).2
      refine ⟨0 :: new, ?_, ?_, ?_⟩
      · rw [e1]; simp
      · simp [e2]
      · rw [e3]; simp
    · obtain ⟨new, e1, e2, e3⟩ := ih
        (conn ++ [-(rng.irand 1 (c.state_length + 1) (rng.drand (rng.drand s).2).2).1])
        (k + 1) (rng.irand 1 (c.state_length + 1) (rng.drand (rng.drand s).2).2).2
      have hx := (hr 1 (c.state_length + 1) (rng.drand (rng.drand s).2).2 (by omega)).1
      refine ⟨-(rng.irand 1 (c.state_length + 1) (rng.drand (rng.drand s).2).2).1 :: new,
        ?_, ?_, ?_⟩
      · rw [e1]; simp
      · simp [e2]
      · rw [e3]
        have hne : -(rng.irand 1 (c.state_length + 1) (rng.drand (rng.drand s).2).2).1 ≠ 0 := by
          omega
        simp [hne]; ring
    · obtain ⟨new, e1, e2, e3⟩ := ih
        (conn ++ [(rng.irand 1 (n + 1) (rng.drand (rng.drand s).2).2).1])
        (k + 1) (rng.irand 1 (n + 1) (rng.drand (rng.drand s).2).2).2
      have hx := (hr 1 (n + 1) (rng.drand (rng.drand s).2).2 (by omega)).1
      refine ⟨(rng.irand 1 (n + 1) (rng.drand (rng.drand s).2).2).1 :: new, ?_, ?_, ?_⟩
      · rw [e1]; simp
      · simp [e2]
      · rw [e3]
        have hne : (rng.irand 1 (n + 1) (rng.drand (rng.drand s).2).2).1 ≠ 0 := by
          omega
        simp [hne]; ring

theorem node_rand_conn_ok (rng : RNG σ α) (c : Consts) (node : GNODE α) (n : Int) (s : σ)
    (hr : rng.irand_in_range) (hsl : 1 ≤ c.state_length) (hn : 1 ≤ n) :
    in_degree_ok (node_rand_conn rng c node n s).1 ∧
      (node_rand_conn rng c node n s).1.conn.length = c.MAX_K := by
  obtain ⟨new, e1, e2, e3⟩ := node_rand_conn_loop_spec rng c n hr hsl hn c.MAX_K [] 0 s
  unfold in_degree_ok node_rand_conn
  simp only [e1, e3, List.nil_append, zero_add, e2, and_self]

theorem graph_rand_loop_spec (rng : RNG σ α) (c : Consts) (n : Int) (P : GNODE α → Prop)
    (hP : ∀ a s, P (node_init rng c a n s).1) (rest : List (GNODE α)) :
    ∀ (done : List (GNODE α)) (s : σ),
      ∃ new : List (GNODE α),
        (graph_rand_loop rng c n rest (done, s)).1 = done ++ new ∧
        new.length = rest.length ∧ ∀ a ∈ new, P a := by
  induction rest with
  | nil => intro done s; exact ⟨[], by simp [graph_rand_loop]⟩
  | cons a rest ih =>
    intro done s
    unfold graph_rand_loop
    simp only
    obtain ⟨new, e1, e2, e3⟩ := ih (done ++ [(node_init rng c a n s).1]) (node_init rng c a n s).2
    refine ⟨(node_init rng c a n s).1 :: new, ?_, ?_, ?_⟩
    · rw [e1]; simp
    · simp [e2]
    · intro b hb
      rcases List.mem_cons.mp hb with h | h
      · rw [h]; exact hP a s
      · exact e3 b h

theorem graph_init_nodes (rng : RNG σ α) (c : Consts) (fresh : GNODE α) (n : Nat) (s : σ)
    (P : GNODE α → Prop) (hP : ∀ a s, 1 ≤ n → P (node_init rng c a n s).1) :
    (graph_init rng c fresh n s).1.nodes.length = n ∧
      ∀ a ∈ (graph_init rng c fresh n s).1.nodes, P a := by
  unfold graph_init graph_rand
  simp only [GRAPH.n, List.length_replicate]
  cases n with
  | zero => simp [graph_rand_loop]
  | succ n =>
    obtain ⟨new, e1, e2, e3⟩ := graph_rand_loop_spec rng c ((n + 1 : Nat) : Int) P
      (fun a s => hP a s (by omega)) (List.replicate (n + 1) fresh) []
      (rng.irand 0 c.MAX_T s).2
    rw [e1]
    simp only [List.nil_append]
    exact ⟨by rw [e2, List.length_replicate], e3⟩


theorem node_mutate_conn_append (rng : RNG σ α) (c : Consts) (rate : α) (n : Int)
    (xs ys : List Int) :
    ∀ st : List Int × Bool × σ,
      node_mutate_conn rng c rate n (xs ++ ys) st =
        node_mutate_conn rng c rate n ys (node_mutate_conn rng c rate n xs st) := by
  induction xs with
  | nil => intro st; rfl
  | cons x xs ih =>
    intro st
    obtain ⟨done, mod, s⟩ := st
    rw [List.cons_append]
    simp only [node_mutate_conn]
    split_ifs <;> exact ih _

theorem node_mutate_conn_spec (rng : RNG σ α) (c : Consts) (rate : α) (n : Int)
    (rest : List Int) :
    ∀ (done : List Int) (mod : Bool) (s : σ),
      ∃ new : List Int,
        (node_mutate_conn rng c rate n rest (done, mod, s)).1 = done ++ new ∧
        new.length = rest.length ∧
        (node_mutate_conn rng c rate n rest (done, mod, s)).2.1 =
          (mod || decide (new ≠ rest)) := by
  induction rest with
  | nil => intro done mod s; exact ⟨[], by simp [node_mutate_conn]⟩
  | cons old rest ih =>
    intro done mod s
    have key : ∀ (x : Int) (s2 : σ),
        ∃ new : List Int,
          (node_mutate_conn rng c rate n rest
            (done ++ [x], mod || decide (old ≠ x), s2)).1 = done ++ new ∧
          new.length = (old :: rest).length ∧
          (node_mutate_conn rng c rate n rest
            (done ++ [x], mod || decide (old ≠ x), s2)).2.1 =
            (mod || decide (new ≠ old :: rest)) := by
      intro x s2
      obtain ⟨new, e1, e2, e3⟩ := ih (done ++ [x]) (mod || decide (old ≠ x)) s2
      refine ⟨x :: new, ?_, ?_, ?_⟩
      · rw [e1]; simp
      · simp [e2]
      · rw [e3]
        by_cases hx : old = x
        · subst hx; simp
        · have hx2 : ¬ x = old := fun h => hx h.symm
          simp [hx, hx2]
    unfold node_mutate_conn
    simp only
    split_ifs with h0 h1 h2
    · exact key 0 _
    · exact key _ _
    · exact key _ _
    · have h := key old (rng.drand s).2
      simpa using h

theorem node_mutate_func_flag (rng : RNG σ α) (c : Consts) (func : Int) (rate : α) (s : σ) :
    (node_mutate_func rng c func rate s).2.1 =
      decide ((node_mutate_func rng c func rate s).1 ≠ func) := by
  unfold node_mutate_func
  simp only
  split_ifs with h
  · by_cases hx : func = (rng.irand 0 c.NUM_FUNC (rng.drand s).2).1
    · simp [← hx]
    · have hx2 : ¬ (rng.irand 0 c.NUM_FUNC (rng.drand s).2).1 = func := fun h => hx h.symm
      simp [hx, hx2]
  · simp

/-- What `node_mutate` does to one node: only `func`, `conn` and `k` can change,
the number of slots is kept, the flag says whether `func` or `conn` changed, an
unflagged node is untouched, and the in-degree invariant is kept. -/
theorem node_mutate_spec (rng : RNG σ α) (c : Consts) (a : GNODE α) (rate : α) (n : Int)
    (s : σ) :
    (node_mutate rng c a rate n s).1.state = a.state ∧
    (node_mutate rng c a rate n s).1.initial_state = a.initial_state ∧
    (node_mutate rng c a rate n s).1.conn.length = a.conn.length ∧
    (node_mutate rng c a rate n s).2.1 =
      decide (((node_mutate rng c a rate n s).1.func, (node_mutate rng c a rate n s).1.conn) ≠
        (a.func, a.conn)) ∧
    ((node_mutate rng c a rate n s).2.1 = false → (node_mutate rng c a rate n s).1 = a) ∧
    (in_degree_ok a → in_degree_ok (node_mutate rng c a rate n s).1) := by
  obtain ⟨new, e1, e2, e3⟩ := node_mutate_conn_spec rng c rate n a.conn []
    (node_mutate_func rng c a.func rate s).2.1 (node_mutate_func rng c a.func rate s).2.2
  have ef := node_mutate_func_flag rng c a.func rate s
  rw [List.nil_append] at e1
  unfold node_mutate in_degree_ok
  simp only [e1, e3]
  simp only [ef]
  refine ⟨trivial, trivial, e2, ?_, ?_, ?_⟩
  · by_cases h1 : (node_mutate_func rng c a.func rate s).1 = a.func <;>
      by_cases h2 : new = a.conn <;> simp [h1, h2]
  · intro h
    simp only [Bool.or_eq_false_iff, decide_eq_false_iff_not, not_not] at h
    obtain ⟨h1, h2⟩ := h
    simp [h1, h2]
  · intro hk
    split_ifs with h
    · exact count_k_eq new
    · simp only [Bool.or_eq_true, decide_eq_true_eq, not_or, not_not] at h
      rw [h.2]; exact hk


theorem graph_mutate_nodes_append (rng : RNG σ α) (c : Consts) (rate : α) (n : Int)
    (xs ys : List (GNODE α)) :
    ∀ st : List (GNODE α) × Bool × σ,
      graph_mutate_nodes rng c rate n (xs ++ ys) st =
        graph_mutate_nodes rng c rate n ys (graph_mutate_nodes rng c rate n xs st) := by
  induction xs with
  | nil => intro st; rfl
  | cons x xs ih =>
    intro st
    obtain ⟨done, mod, s⟩ := st
    rw [List.cons_append]
    simp only [graph_mutate_nodes]
    exact ih _

theorem graph_mutate_nodes_spec (rng : RNG σ α) (c : Consts) (rate : α) (n : Int)
    (rest : List (GNODE α)) :
    ∀ (done : List (GNODE α)) (mod : Bool) (s : σ),
      ∃ new : List (GNODE α),
        (graph_mutate_nodes rng c rate n rest (done, mod, s)).1 = done ++ new ∧
        List.Forall₂ (fun a b => ∃ s2, b = (node_mutate rng c a rate n s2).1) rest new ∧
        (graph_mutate_nodes rng c rate n rest (done, mod, s)).2.1 =
          (mod || decide (new.map (fun a => (a.func, a.conn)) ≠
            rest.map (fun a => (a.func, a.conn)))) := by
  induction rest with
  | nil => intro done mod s; exact ⟨[], by simp [graph_mutate_nodes]⟩
  | cons a rest ih =>
    intro done mod s
    simp only [graph_mutate_nodes]
    obtain ⟨new, e1, e2, e3⟩ := ih (done ++ [(node_mutate rng c a rate n s).1])
      (mod || (node_mutate rng c a rate n s).2.1) (node_mutate rng c a rate n s).2.2
    refine ⟨(node_mutate rng c a rate n s).1 :: new, ?_, ?_, ?_⟩
    · rw [e1]; simp
    · exact List.Forall₂.cons ⟨s, rfl⟩ e2
    · rw [e3, (node_mutate_spec rng c a rate n s).2.2.2.1]
      by_cases h1 : ((node_mutate rng c a rate n s).1.func, (node_mutate rng c a rate n s).1.conn)
          = (a.func, a.conn)
      · simp [h1]
      · simp [h1]

theorem mutate_t_spec (rng : RNG σ α) (c : Consts) (t : Int) (rate : α) (s : σ) :
    (mutate_t rng c t rate s).2.1 = decide ((mutate_t rng c t rate s).1 ≠ t) ∧
    ((mutate_t rng c t rate s).1 = t ∨
      ((mutate_t rng c t rate s).1 = t - 1 ∧ 1 < t) ∨
      ((mutate_t rng c t rate s).1 = t + 1 ∧ t < c.MAX_T)) := by
  unfold mutate_t
  simp only
  split_ifs with h0 h1 h2 h3
  · refine ⟨?_, Or.inr (Or.inl ⟨rfl, h2⟩)⟩
    have : ¬ t = t - 1 := by omega
    have h4 : ¬ t - 1 = t := by omega
    simp [this, h4]
  · exact ⟨by simp, Or.inl rfl⟩
  · refine ⟨?_, Or.inr (Or.inr ⟨rfl, h3⟩)⟩
    have : ¬ t = t + 1 := by omega
    have h4 : ¬ t + 1 = t := by omega
    simp [this, h4]
  · exact ⟨by simp, Or.inl rfl⟩
  · exact ⟨by simp, Or.inl rfl⟩

theorem graph_mutate_eq (rng : RNG σ α) (c : Consts) (g : GRAPH α) (rate : α) (s : σ) :
    ∃ new : List (GNODE α),
      (graph_mutate rng c g rate s).1.nodes = new ∧
      (graph_mutate rng c g rate s).1.t =
        (mutate_t rng c g.t rate
          (graph_mutate_nodes rng c rate g.n g.nodes ([], false, s)).2.2).1 ∧
      List.Forall₂ (fun a b => ∃ s2, b = (node_mutate rng c a rate g.n s2).1) g.nodes new ∧
      (graph_mutate rng c g rate s).2.1 =
        decide ((graph_mutate rng c g rate s).1.shape ≠ g.shape) := by
  obtain ⟨new, e1, e2, e3⟩ := graph_mutate_nodes_spec rng c rate g.n g.nodes [] false s
  rw [List.nil_append] at e1
  refine ⟨new, ?_, rfl, e2, ?_⟩
  · unfold graph_mutate; exact e1
  · unfold graph_mutate GRAPH.shape
    simp only [e1, e3, (mutate_t_spec rng c g.t rate _).1, Bool.false_or]
    by_cases h1 : new.map (fun a => (a.func, a.conn)) = g.nodes.map (fun a => (a.func, a.conn))
    · simp [h1]
    · simp [h1]

theorem forall₂_node_mutate_eq (rng : RNG σ α) (c : Consts) (rate : α) (n : Int)
    (xs ys : List (GNODE α))
    (h : List.Forall₂ (fun a b => ∃ s2, b = (node_mutate rng c a rate n s2).1) xs ys)
    (hfc : ys.map (fun a => (a.func, a.conn)) = xs.map (fun a => (a.func, a.conn))) :
    ys = xs := by
  induction h with
  | nil => rfl
  | @cons a b l1 l2 hab _ ih =>
    obtain ⟨s2, hb⟩ := hab
    simp only [List.map_cons, List.cons.injEq] at hfc
    rw [ih hfc.2]
    congr 1
    have hflag := (node_mutate_spec rng c a rate n s2).2.2.2.1
    rw [← hb] at hflag
    have hflag2 : (node_mutate rng c a rate n s2).2.1 = false := by
      rw [hflag]; simp [hfc.1]
    rw [hb]
    exact (node_mutate_spec rng c a rate n s2).2.2.2.2.1 hflag2

/-- The flag of `graph_mutate` is false exactly when the shape is unchanged, and
then nothing at all has changed. -/
theorem graph_mutate_flag (rng : RNG σ α) (c : Consts) (g : GRAPH α) (rate : α) (s : σ) :
    ((graph_mutate rng c g rate s).2.1 = true ↔ (graph_mutate rng c g rate s).1.shape ≠ g.shape) ∧
    ((graph_mutate rng c g rate s).2.1 = false → (graph_mutate rng c g rate s).1 = g) := by
  obtain ⟨new, e1, e2, e3, e4⟩ := graph_mutate_eq rng c g rate s
  refine ⟨by rw [e4]; simp, ?_⟩
  intro hf
  rw [e4] at hf
  simp only [decide_eq_false_iff_not, not_not, GRAPH.shape, Prod.mk.injEq] at hf
  rw [e1] at hf
  have hn := forall₂_node_mutate_eq rng c rate g.n g.nodes new e3 hf.2
  cases hg : (graph_mutate rng c g rate s).1 with
  | mk t2 ns2 =>
    rw [hg] at e1 hf
    simp only at e1 hf
    obtain ⟨t, ns⟩ := g
    simp only at hf hn
    rw [e1, hn, hf.1]


theorem forall₂_mem_right {β γ : Type} (R : β → γ → Prop) (xs : List β) (ys : List γ)
    (h : List.Forall₂ R xs ys) (b : γ) (hb : b ∈ ys) : ∃ a ∈ xs, R a b := by
  induction h with
  | nil => cases hb
  | @cons a0 b0 l1 l2 hab _ ih =>
    rcases List.mem_cons.mp hb with h1 | h1
    · exact ⟨a0, List.mem_cons_self _ _, h1 ▸ hab⟩
    · obtain ⟨a, ha, hR⟩ := ih h1
      exact ⟨a, List.mem_cons_of_mem _ ha, hR⟩

theorem listRng_irand_in_range : listRng.irand_in_range := by
  intro a b s hab
  have hpos : 0 < b - a := by omega
  have h1 := Int.emod_nonneg (Int.floor (s.headD 0)) (ne_of_gt hpos)
  have h2 := Int.emod_lt_of_pos (Int.floor (s.headD 0)) hpos
  simp only [listRng]
  constructor <;> omega

/-- C5: in-degree consistency.  Assuming `irand(a, b)` lies in `[a, b)` and
`state_length >= 1`, `node_rand_conn` (for `n >= 1`) and `graph_init` produce
nodes whose `k` is the number of non-zero entries of their `MAX_K` slots; and
`graph_mutate`, for every rate and every generator, keeps that invariant and the
number of slots of every node. -/
theorem in_degree_consistency (rng : RNG σ α) (c : Consts) :
    (rng.irand_in_range → 1 ≤ c.state_length →
      (∀ (node : GNODE α) (n : Int) (s : σ), 1 ≤ n →
        in_degree_ok (node_rand_conn rng c node n s).1 ∧
          (node_rand_conn rng c node n s).1.conn.length = c.MAX_K) ∧
      (∀ (fresh : GNODE α) (n : Nat) (s : σ), ∀ a ∈ (graph_init rng c fresh n s).1.nodes,
        in_degree_ok a ∧ a.conn.length = c.MAX_K)) ∧
    (∀ (g : GRAPH α) (rate : α) (s : σ) (K : Nat),
      (∀ a ∈ g.nodes, in_degree_ok a ∧ a.conn.length = K) →
      ∀ b ∈ (graph_mutate rng c g rate s).1.nodes, in_degree_ok b ∧ b.conn.length = K) := by
  refine ⟨fun hr hsl => ⟨fun node n s hn => node_rand_conn_ok rng c node n s hr hsl hn, ?_⟩, ?_⟩
  · intro fresh n s
    exact (graph_init_nodes rng c fresh n s
      (fun a => in_degree_ok a ∧ a.conn.length = c.MAX_K)
      (fun a s2 hn => node_rand_conn_ok rng c _ n _ hr hsl (by omega))).2
  · intro g rate s K hg b hb
    obtain ⟨new, e1, -, e3, -⟩ := graph_mutate_eq rng c g rate s
    rw [e1] at hb
    obtain ⟨a, ha, s2, hab⟩ := forall₂_mem_right _ _ _ e3 b hb
    have hs := node_mutate_spec rng c a rate g.n s2
    rw [hab]
    exact ⟨hs.2.2.2.2.2 (hg a ha).1, hs.2.2.1.trans (hg a ha).2⟩

theorem in_degree_consistency_witness :
    listRng.irand_in_range ∧ 1 ≤ testConsts.state_length ∧
    (∀ a ∈ (scenario_graph 1 : GRAPH ℚ).nodes, in_degree_ok a ∧ a.conn.length = 2) ∧
    (∀ a ∈ (graph_init listRng testConsts (⟨0, 0, 0, 0, []⟩ : GNODE ℚ) 2
        [3, 0, 5, 0, 1, 0, 0, 1, 1, 0, 1, 1, 1]).1.nodes,
      in_degree_ok a ∧ a.conn.length = testConsts.MAX_K) ∧
    (∀ b ∈ (graph_mutate listRng testConsts (scenario_graph 1 : GRAPH ℚ) 1
        [0, 3, 0, 1, 1, 1, 2, 0, 0]).1.nodes, in_degree_ok b ∧ b.conn.length = 2) :=
  ⟨listRng_irand_in_range, by decide, by decide,
    ((in_degree_consistency listRng testConsts).1 listRng_irand_in_range (by decide)).2
      ⟨0, 0, 0, 0, []⟩ 2 _,
    (in_degree_consistency listRng testConsts).2 (scenario_graph 1 : GRAPH ℚ) 1 _ 2
      (by decide)⟩

/-- C6: `graph_mutate` returns true exactly when the graph afterwards differs
from the graph before in `timesteps`, in some node's function code or in some
connectivity slot (`GRAPH.shape`); and when it returns false the whole graph,
every `k` included, is the graph before the call. -/
theorem graph_mutate_reports_change (rng : RNG σ α) (c : Consts) (g : GRAPH α) (rate : α)
    (s : σ) :
    ((graph_mutate rng c g rate s).2.1 = true ↔
      (graph_mutate rng c g rate s).1.shape ≠ g.shape) ∧
    ((graph_mutate rng c g rate s).2.1 = false → (graph_mutate rng c g rate s).1 = g) :=
  graph_mutate_flag rng c g rate s

theorem graph_mutate_reports_change_witness :
    (graph_mutate listRng testConsts (scenario_graph 1 : GRAPH ℚ) 1
        [1, 2, 1, 1, 1, 1, 1]).2.1 = false ∧
    (graph_mutate listRng testConsts (scenario_graph 1 : GRAPH ℚ) 1
        [1, 2, 1, 1, 1, 1, 1]).1 = scenario_graph 1 :=
  ⟨by decide,
    (graph_mutate_reports_change listRng testConsts (scenario_graph 1 : GRAPH ℚ) 1
      [1, 2, 1, 1, 1, 1, 1]).2 (by decide)⟩

/-- C8: `timesteps` stays in `[1, MAX_T]`.  Assuming `irand(a, b)` lies in
`[a, b)` and `MAX_T >= 1`, `graph_init` sets `t` in `[1, MAX_T]`; and for every
rate and generator `graph_mutate` leaves `t` as it is, or decrements it by one
(only when `t > 1`), or increments it by one (only when `t < MAX_T`), so `t` in
`[1, MAX_T]` stays there. -/
theorem timesteps_in_range (rng : RNG σ α) (c : Consts) :
    (rng.irand_in_range → 1 ≤ c.MAX_T →
      ∀ (fresh : GNODE α) (n : Nat) (s : σ),
        1 ≤ (graph_init rng c fresh n s).1.t ∧ (graph_init rng c fresh n s).1.t ≤ c.MAX_T) ∧
    (∀ (g : GRAPH α) (rate : α) (s : σ),
      ((graph_mutate rng c g rate s).1.t = g.t ∨
        ((graph_mutate rng c g rate s).1.t = g.t - 1 ∧ 1 < g.t) ∨
        ((graph_mutate rng c g rate s).1.t = g.t + 1 ∧ g.t < c.MAX_T)) ∧
      (1 ≤ g.t → g.t ≤ c.MAX_T →
        1 ≤ (graph_mutate rng c g rate s).1.t ∧ (graph_mutate rng c g rate s).1.t ≤ c.MAX_T)) := by
  constructor
  · intro hr hT fresh n s
    have h := hr 0 c.MAX_T s (by omega)
    have ht : (graph_init rng c fresh n s).1.t = (rng.irand 0 c.MAX_T s).1 + 1 := rfl
    rw [ht]
    constructor <;> omega
  · intro g rate s
    have h := (mutate_t_spec rng c g.t rate
      (graph_mutate_nodes rng c rate g.n g.nodes ([], false, s)).2.2).2
    have ht : (graph_mutate rng c g rate s).1.t =
        (mutate_t rng c g.t rate
          (graph_mutate_nodes rng c rate g.n g.nodes ([], false, s)).2.2).1 := rfl
    rw [ht]
    refine ⟨h, fun h1 h2 => ?_⟩
    constructor <;> omega

theorem timesteps_in_range_witness :
    listRng.irand_in_range ∧ 1 ≤ testConsts.MAX_T ∧
    (1 ≤ (graph_init listRng testConsts (⟨0, 0, 0, 0, []⟩ : GNODE ℚ) 2 [13]).1.t ∧
      (graph_init listRng testConsts (⟨0, 0, 0, 0, []⟩ : GNODE ℚ) 2 [13]).1.t ≤
        testConsts.MAX_T) ∧
    (1 ≤ (scenario_graph 1 : GRAPH ℚ).t ∧ (scenario_graph 1 : GRAPH ℚ).t ≤ testConsts.MAX_T) ∧
    (1 ≤ (graph_mutate listRng testConsts (scenario_graph 1 : GRAPH ℚ) 1
        [1, 1, 1, 1, 1, 1, 0, 2]).1.t ∧
      (graph_mutate listRng testConsts (scenario_graph 1 : GRAPH ℚ) 1
        [1, 1, 1, 1, 1, 1, 0, 2]).1.t ≤ testConsts.MAX_T) :=
  ⟨listRng_irand_in_range, by decide,
    (timesteps_in_range listRng testConsts).1 listRng_irand_in_range (by decide) _ 2 _,
    by decide,
    ((timesteps_in_range listRng testConsts).2 (scenario_graph 1 : GRAPH ℚ) 1 _).2
      (by decide) (by decide)⟩

end Mutation

section Gating
/-! ## Per-allele gating -/

variable {σ α : Type} [LinearOrderedField α]

theorem node_mutate_func_gate (rng : RNG σ α) (c : Consts) (func : Int) (rate : α) (s : σ)
    (h : rate ≤ (rng.drand s).1) :
    node_mutate_func rng c func rate s = (func, false, (rng.drand s).2) := by
  unfold node_mutate_func
  simp only [if_neg (not_lt.mpr h)]

theorem node_mutate_conn_at (rng : RNG σ α) (c : Consts) (rate : α) (n : Int)
    (conn : List Int) (i : Nat) (x : Int) (hx : conn[i]? = some x)
    (done : List Int) (mod : Bool) (s : σ)
    (h : rate ≤ (rng.drand
      (node_mutate_conn rng c rate n (conn.take i) (done, mod, s)).2.2).1) :
    (node_mutate_conn rng c rate n conn (done, mod, s)).1[done.length + i]? = some x := by
  obtain ⟨hi, hget⟩ := List.getElem?_eq_some.mp hx
  have hsplit : conn = conn.take i ++ x :: conn.drop (i + 1) := by
    rw [← hget, List.getElem_cons_drop _ _ _, List.take_append_drop]
  obtain ⟨new1, e1, e2, -⟩ := node_mutate_conn_spec rng c rate n (conn.take i) done mod s
  have hlen1 : new1.length = i := by rw [e2, List.length_take]; omega
  conv_lhs => rw [hsplit, node_mutate_conn_append]
  generalize node_mutate_conn rng c rate n (conn.take i) (done, mod, s) = st at e1 h
  obtain ⟨d1, m1, s1⟩ := st
  simp only at e1 h
  simp only [node_mutate_conn, if_neg (not_lt.mpr h)]
  obtain ⟨new2, e3, -, -⟩ := node_mutate_conn_spec rng c rate n (conn.drop (i + 1))
    (d1 ++ [x]) m1 (rng.drand s1).2
  rw [e3, e1, List.append_assoc, List.append_assoc]
  rw [List.getElem?_append_right (by omega), List.getElem?_append_right (by omega)]
  simp [hlen1]

theorem graph_mutate_nodes_at (rng : RNG σ α) (c : Consts) (rate : α) (n : Int)
    (nodes : List (GNODE α)) (j : Nat) (a : GNODE α) (ha : nodes[j]? = some a)
    (done : List (GNODE α)) (mod : Bool) (s : σ) :
    (graph_mutate_nodes rng c rate n nodes (done, mod, s)).1[done.length + j]? =
      some (node_mutate rng c a rate n
        (graph_mutate_nodes rng c rate n (nodes.take j) (done, mod, s)).2.2).1 := by
  obtain ⟨hj, hget⟩ := List.getElem?_eq_some.mp ha
  have hsplit : nodes = nodes.take j ++ a :: nodes.drop (j + 1) := by
    rw [← hget, List.getElem_cons_drop _ _ _, List.take_append_drop]
  obtain ⟨new1, e1, e2, -⟩ := graph_mutate_nodes_spec rng c rate n (nodes.take j) done mod s
  have hlen1 : new1.length = j := by rw [← e2.length_eq, List.length_take]; omega
  conv_lhs => rw [hsplit, graph_mutate_nodes_append]
  generalize graph_mutate_nodes rng c rate n (nodes.take j) (done, mod, s) = st at e1
  obtain ⟨d1, m1, s1⟩ := st
  simp only at e1
  simp only [graph_mutate_nodes]
  obtain ⟨new2, e3, -, -⟩ := graph_mutate_nodes_spec rng c rate n (nodes.drop (j + 1))
    (d1 ++ [(node_mutate rng c a rate n s1).1]) (m1 || (node_mutate rng c a rate n s1).2.1)
    (node_mutate rng c a rate n s1).2.2
  rw [e3, e1, List.append_assoc, List.append_assoc]
  rw [List.getElem?_append_right (by omega), List.getElem?_append_right (by omega)]
  simp [hlen1]


theorem node_mutate_func_eq (rng : RNG σ α) (c : Consts) (a : GNODE α) (rate : α) (n : Int)
    (s : σ) (h : rate ≤ (rng.drand s).1) : (node_mutate rng c a rate n s).1.func = a.func := by
  unfold node_mutate
  simp only [node_mutate_func_gate rng c a.func rate s h]

theorem node_mutate_slot_eq (rng : RNG σ α) (c : Consts) (a : GNODE α) (rate : α) (n : Int)
    (s : σ) (i : Nat) (h : rate ≤ (rng.drand (state_at_slot rng c a rate n s i)).1) :
    (node_mutate rng c a rate n s).1.conn[i]? = a.conn[i]? := by
  cases hx : a.conn[i]? with
  | none =>
    rw [List.getElem?_eq_none_iff] at hx ⊢
    rw [(node_mutate_spec rng c a rate n s).2.2.1]
    exact hx
  | some x =>
    have h2 := node_mutate_conn_at rng c rate n a.conn i x hx []
      (node_mutate_func rng c a.func rate s).2.1 (node_mutate_func rng c a.func rate s).2.2 h
    simp only [List.length_nil, zero_add] at h2
    exact h2

theorem graph_mutate_node_at (rng : RNG σ α) (c : Consts) (g : GRAPH α) (rate : α) (s : σ)
    (j : Nat) :
    (graph_mutate rng c g rate s).1.nodes[j]? =
      g.nodes[j]?.map
        (fun a => (node_mutate rng c a rate g.n (state_at_node rng c g rate s j)).1) := by
  cases ha : g.nodes[j]? with
  | none =>
    obtain ⟨new, e1, -, e3, -⟩ := graph_mutate_eq rng c g rate s
    rw [Option.map_none', List.getElem?_eq_none_iff]
    rw [List.getElem?_eq_none_iff] at ha
    rw [e1, ← e3.length_eq]
    exact ha
  | some a =>
    have h := graph_mutate_nodes_at rng c rate g.n g.nodes j a ha [] false s
    simp only [List.length_nil, zero_add] at h
    exact h

theorem node_mutate_rate_nonpos (rng : RNG σ α) (c : Consts) (a : GNODE α) (rate : α)
    (n : Int) (s : σ) (hrate : rate ≤ 0) (hd : rng.drand_in_range) :
    (node_mutate rng c a rate n s).1 = a := by
  have hgate : ∀ s2 : σ, rate ≤ (rng.drand s2).1 := fun s2 => le_trans hrate (hd s2).1
  have hs := node_mutate_spec rng c a rate n s
  apply hs.2.2.2.2.1
  rw [hs.2.2.2.1]
  have h1 := node_mutate_func_eq rng c a rate n s (hgate _)
  have h2 : (node_mutate rng c a rate n s).1.conn = a.conn := by
    apply List.ext_getElem?
    intro i
    exact node_mutate_slot_eq rng c a rate n s i (hgate _)
  simp [h1, h2]

/-- C7: per-allele gating in `graph_mutate`.  The draw made for the function of
node `j` is the first draw from the generator state in which the node loop
reaches node `j` (`state_at_node`), and the draw made for its slot `i` is the
first draw from the state in which its slot loop reaches slot `i`
(`state_at_slot`).  The function code of node `j` differs after the call only if
the former is below `rate`, and slot `i` differs only if the latter is below
`rate`; hence, with draws in `[0, 1)` and `rate <= 0`, `graph_mutate` leaves the
graph unchanged and returns false. -/
theorem per_allele_gating (rng : RNG σ α) (c : Consts) (rate : α) :
    (∀ (g : GRAPH α) (s : σ) (j : Nat) (a b : GNODE α),
      g.nodes[j]? = some a → (graph_mutate rng c g rate s).1.nodes[j]? = some b →
      (b.func ≠ a.func → (rng.drand (state_at_node rng c g rate s j)).1 < rate) ∧
      (∀ i : Nat, b.conn[i]? ≠ a.conn[i]? →
        (rng.drand
          (state_at_slot rng c a rate g.n (state_at_node rng c g rate s j) i)).1 < rate)) ∧
    (rate ≤ 0 → rng.drand_in_range → ∀ (g : GRAPH α) (s : σ),
      (graph_mutate rng c g rate s).1 = g ∧ (graph_mutate rng c g rate s).2.1 = false) := by
  constructor
  · intro g s j a b ha hb
    rw [graph_mutate_node_at, ha, Option.map_some', Option.some.injEq] at hb
    subst hb
    constructor
    · intro hne
      by_contra hge
      exact hne (node_mutate_func_eq rng c a rate _ _ (not_lt.mp hge))
    · intro i hne
      by_contra hge
      exact hne (node_mutate_slot_eq rng c a rate _ _ i (not_lt.mp hge))
  intro hrate hd g s
  have hnodes : (graph_mutate rng c g rate s).1.nodes = g.nodes := by
    apply List.ext_getElem?
    intro j
    rw [graph_mutate_node_at]
    cases g.nodes[j]? with
    | none => rfl
    | some a => simp only [Option.map_some', node_mutate_rate_nonpos rng c a rate _ _ hrate hd]
  have ht : (graph_mutate rng c g rate s).1.t = g.t := by
    have hg : rate ≤ (rng.drand
        (graph_mutate_nodes rng c rate g.n g.nodes ([], false, s)).2.2).1 :=
      le_trans hrate (hd _).1
    unfold graph_mutate mutate_t
    simp only [if_neg (not_lt.mpr hg)]
  have hshape : (graph_mutate rng c g rate s).1.shape = g.shape := by
    unfold GRAPH.shape; rw [hnodes, ht]
  have hflag : (graph_mutate rng c g rate s).2.1 = false := by
    cases hf : (graph_mutate rng c g rate s).2.1 with
    | false => rfl
    | true => exact absurd hshape ((graph_mutate_flag rng c g rate s).1.1 hf)
  exact ⟨(graph_mutate_flag rng c g rate s).2 hflag, hflag⟩

theorem constRng_drand_in_range : (constRng 0).drand_in_range := by
  intro s
  simp [constRng]

theorem per_allele_gating_witness :
    ((scenario_graph 1 : GRAPH ℚ).nodes[1]? =
        some { k := 1, state := 0, initial_state := 0, func := 4, conn := [1, 0] } ∧
      (graph_mutate listRng testConsts (scenario_graph 1 : GRAPH ℚ) 1
        [1, 1, 1, 0, 2, 1, 1, 1]).1.nodes[1]? =
        some { k := 1, state := 0, initial_state := 0, func := 2, conn := [1, 0] } ∧
      (2 : Int) ≠ 4 ∧
      (listRng.drand (state_at_node listRng testConsts (scenario_graph 1 : GRAPH ℚ) 1
        [1, 1, 1, 0, 2, 1, 1, 1] 1)).1 < 1) ∧
    ((0 : ℚ) ≤ 0 ∧ (constRng 0).drand_in_range) ∧
    (graph_mutate (constRng 0) testConsts (scenario_graph 1 : GRAPH ℚ) 0 ()).1 =
        scenario_graph 1 ∧
      (graph_mutate (constRng 0) testConsts (scenario_graph 1 : GRAPH ℚ) 0 ()).2.1 = false :=
  ⟨⟨by decide, by decide, by decide,
      ((per_allele_gating listRng testConsts 1).1 (scenario_graph 1 : GRAPH ℚ)
        [1, 1, 1, 0, 2, 1, 1, 1] 1
        { k := 1, state := 0, initial_state := 0, func := 4, conn := [1, 0] }
        { k := 1, state := 0, initial_state := 0, func := 2, conn := [1, 0] }
        (by decide) (by decide)).1 (by decide)⟩,
    ⟨le_refl _, constRng_drand_in_range⟩,
    (per_allele_gating (constRng 0) testConsts 0).2 (le_refl _) constRng_drand_in_range
      (scenario_graph 1) ()⟩

end Gating

section SlotDistribution
/-! ## Slot distribution -/

variable {σ α : Type} [LinearOrderedField α]

theorem node_rand_conn_loop_succ (rng : RNG σ α) (c : Consts) (n : Int) (r : Nat)
    (st : List Int × Int × σ) :
    node_rand_conn_loop rng c n (r + 1) st =
      node_rand_conn_loop rng c n r (node_rand_conn_loop rng c n 1 st) := by
  obtain ⟨conn, k, s⟩ := st
  simp only [node_rand_conn_loop]
  split_ifs <;> rfl

/-- C9, as stated, fails: with a first draw of `1/2` and a second draw of `3/20`,
neither below `1/10`, the slot drawn by `node_rand_conn` is not an internal
reference; it is the external reference `-1`. -/
theorem slot_second_threshold_not_tenth :
    ¬ (∀ s : List ℚ, ¬ (listRng.drand s).1 < 1 / 10 →
        ¬ (listRng.drand (listRng.drand s).2).1 < 1 / 10 →
        ∃ v : Int, 1 ≤ v ∧ v ≤ 2 ∧
          (node_rand_conn_loop listRng testConsts 2 1 ([], 0, s)).1 = [v]) := by
  intro h
  obtain ⟨v, hv1, -, hv⟩ := h [1 / 2, 3 / 20, 0] (by norm_num [listRng])
    (by norm_num [listRng])
  have e : (node_rand_conn_loop listRng testConsts 2 1 ([], 0, [1 / 2, 3 / 20, 0])).1 =
      [-1] := by
    norm_num [node_rand_conn_loop, listRng, testConsts]
  rw [e] at hv
  simp only [List.cons.injEq, and_true] at hv
  omega

/-- C9, amended (second threshold `0.2`).  The loop of `node_rand_conn` draws its
slots one at a time, and so does the loop of `node_mutate`.  A slot drawn by
`node_rand_conn` is inert when the first draw is below `1/10`; otherwise it is
the negation of an index in `[1, state_length]` when the second draw is below
`1/5`; otherwise it is an index in `[1, n]`.  A slot whose gate draw is below
`rate` is redrawn by `node_mutate` to the value `node_rand_conn` would draw from
the same generator state, and leaves the generator in the same state. -/
theorem slot_distribution (rng : RNG σ α) (c : Consts) (n : Int)
    (hr : rng.irand_in_range) (hsl : 1 ≤ c.state_length) (hn : 1 ≤ n) :
    (∀ (r : Nat) (st : List Int × Int × σ),
      node_rand_conn_loop rng c n (r + 1) st =
        node_rand_conn_loop rng c n r (node_rand_conn_loop rng c n 1 st)) ∧
    (∀ (rate : α) (old : Int) (rest : List Int) (st : List Int × Bool × σ),
      node_mutate_conn rng c rate n (old :: rest) st =
        node_mutate_conn rng c rate n rest (node_mutate_conn rng c rate n [old] st)) ∧
    (∀ (conn : List Int) (k : Int) (s : σ),
      ((rng.drand s).1 < 1 / 10 →
        node_rand_conn_loop rng c n 1 (conn, k, s) = (conn ++ [0], k, (rng.drand s).2)) ∧
      (¬ (rng.drand s).1 < 1 / 10 → (rng.drand (rng.drand s).2).1 < 1 / 5 →
        ∃ v : Int, 1 ≤ v ∧ v ≤ c.state_length ∧
          (node_rand_conn_loop rng c n 1 (conn, k, s)).1 = conn ++ [-v] ∧
          (node_rand_conn_loop rng c n 1 (conn, k, s)).2.1 = k + 1) ∧
      (¬ (rng.drand s).1 < 1 / 10 → ¬ (rng.drand (rng.drand s).2).1 < 1 / 5 →
        ∃ v : Int, 1 ≤ v ∧ v ≤ n ∧
          (node_rand_conn_loop rng c n 1 (conn, k, s)).1 = conn ++ [v] ∧
          (node_rand_conn_loop rng c n 1 (conn, k, s)).2.1 = k + 1)) ∧
    (∀ (rate : α) (old : Int) (done : List Int) (mod : Bool) (k : Int) (s : σ),
      (rng.drand s).1 < rate →
      (node_mutate_conn rng c rate n [old] (done, mod, s)).1 =
          (node_rand_conn_loop rng c n 1 (done, k, (rng.drand s).2)).1 ∧
        (node_mutate_conn rng c rate n [old] (done, mod, s)).2.2 =
          (node_rand_conn_loop rng c n 1 (done, k, (rng.drand s).2)).2.2) := by
  refine ⟨node_rand_conn_loop_succ rng c n, ?_, ?_, ?_⟩
  · intro rate old rest st
    exact node_mutate_conn_append rng c rate n [old] rest st
  · intro conn k s
    refine ⟨?_, ?_, ?_⟩
    · intro h1
      simp only [node_rand_conn_loop, if_pos h1]
    · intro h1 h2
      have hx := hr 1 (c.state_length + 1) (rng.drand (rng.drand s).2).2 (by omega)
      refine ⟨(rng.irand 1 (c.state_length + 1) (rng.drand (rng.drand s).2).2).1, hx.1,
        by omega, ?_, ?_⟩ <;> simp only [node_rand_conn_loop, if_neg h1, if_pos h2]
    · intro h1 h2
      have hx := hr 1 (n + 1) (rng.drand (rng.drand s).2).2 (by omega)
      refine ⟨(rng.irand 1 (n + 1) (rng.drand (rng.drand s).2).2).1, hx.1,
        by omega, ?_, ?_⟩ <;> simp only [node_rand_conn_loop, if_neg h1, if_neg h2]
  · intro rate old done mod k s h0
    simp only [node_mutate_conn, node_rand_conn_loop, if_pos h0]
    split_ifs <;> exact ⟨rfl, rfl⟩

theorem slot_distribution_witness :
    listRng.irand_in_range ∧ 1 ≤ testConsts.state_length ∧ (1 : Int) ≤ 2 ∧
    (¬ (listRng.drand [1 / 2, 3 / 20, 0]).1 < 1 / 10 ∧
      (listRng.drand (listRng.drand [1 / 2, 3 / 20, 0]).2).1 < 1 / 5) ∧
    ∃ v : Int, 1 ≤ v ∧ v ≤ testConsts.state_length ∧
      (node_rand_conn_loop listRng testConsts 2 1 ([], 0, [1 / 2, 3 / 20, 0])).1 = [] ++ [-v] ∧
      (node_rand_conn_loop listRng testConsts 2 1 ([], 0, [1 / 2, 3 / 20, 0])).2.1 = 0 + 1 :=
  ⟨listRng_irand_in_range, by decide, by decide,
    ⟨by norm_num [listRng], by norm_num [listRng]⟩,
    ((slot_distribution listRng testConsts 2 listRng_irand_in_range (by decide)
      (by decide)).2.2.1 [] 0 [1 / 2, 3 / 20, 0]).2.1 (by norm_num [listRng])
      (by norm_num [listRng])⟩

end SlotDistribution

section AvgK
/-! ## Connectivity-density metric -/

variable {α : Type} [LinearOrderedField α]

theorem int_wrap_of_range (x : Int) (h1 : -2147483648 ≤ x) (h2 : x < 2147483648) :
    int_wrap x = x := by
  unfold int_wrap
  omega

theorem int_wrap_range (x : Int) : -2147483648 ≤ int_wrap x ∧ int_wrap x < 2147483648 := by
  unfold int_wrap
  omega

theorem int_wrap_add (a b : Int) : int_wrap (int_wrap a + b) = int_wrap (a + b) := by
  unfold int_wrap
  omega

omit [LinearOrderedField α] in
theorem avg_k_foldl (nodes : List (GNODE α)) (k0 : Int) :
    int_wrap (nodes.foldl
        (fun k a => if a.func > 3 then (if a.k > 0 then int_wrap (k + 1) else k)
          else int_wrap (k + a.k)) k0) =
      int_wrap (k0 + (nodes.map
        (fun a => if a.func > 3 then (if a.k > 0 then (1 : Int) else 0) else a.k)).sum) := by
  induction nodes generalizing k0 with
  | nil => simp
  | cons a rest ih =>
    rw [List.foldl_cons, ih, List.map_cons, List.sum_cons]
    split_ifs
    · rw [int_wrap_add]; congr 1; ring
    · congr 1; ring
    · rw [int_wrap_add]; congr 1; ring

omit [LinearOrderedField α] in
theorem avg_k_foldl_range (nodes : List (GNODE α)) (k0 : Int)
    (h : -2147483648 ≤ k0 ∧ k0 < 2147483648) :
    -2147483648 ≤ nodes.foldl
        (fun k a => if a.func > 3 then (if a.k > 0 then int_wrap (k + 1) else k)
          else int_wrap (k + a.k)) k0 ∧
      nodes.foldl
        (fun k a => if a.func > 3 then (if a.k > 0 then int_wrap (k + 1) else k)
          else int_wrap (k + a.k)) k0 < 2147483648 := by
  induction nodes generalizing k0 with
  | nil => simpa using h
  | cons a rest ih =>
    rw [List.foldl_cons]
    apply ih
    split_ifs
    · exact int_wrap_range _
    · exact h
    · exact int_wrap_range _

omit [LinearOrderedField α] in
/-- The accumulator of `graph_avg_k` ends as the 32-bit value of the sum of the
contributions the loop adds. -/
theorem avg_k_loop_eq_wrap (nodes : List (GNODE α)) :
    avg_k_loop nodes = int_wrap ((nodes.map
        (fun a => if a.func > 3 then (if a.k > 0 then (1 : Int) else 0) else a.k)).sum) := by
  have h1 := avg_k_foldl nodes 0
  have h2 := avg_k_foldl_range nodes 0 (by norm_num)
  rw [int_wrap_of_range _ h2.1 h2.2, zero_add] at h1
  exact h1

omit [LinearOrderedField α] in
theorem avg_k_contribution_eq_spec (nodes : List (GNODE α))
    (hf : ∀ a ∈ nodes, 0 ≤ a.func ∧ a.func ≤ 6) :
    (nodes.map
        (fun a => if a.func > 3 then (if a.k > 0 then (1 : Int) else 0) else a.k)).sum =
      (nodes.map spec_contribution).sum := by
  congr 1
  apply List.map_congr_left
  intro a ha
  obtain ⟨h1, h2⟩ := hf a ha
  unfold spec_contribution
  by_cases h3 : a.func > 3
  · have h4 : ¬ (a.func = 0 ∨ a.func = 1 ∨ a.func = 2 ∨ a.func = 3) := by omega
    have h5 : a.func = 4 ∨ a.func = 5 ∨ a.func = 6 := by omega
    simp only [if_pos h3, if_neg h4, if_pos h5]
  · have h4 : a.func = 0 ∨ a.func = 1 ∨ a.func = 2 ∨ a.func = 3 := by omega
    simp only [if_neg h3, if_pos h4]

omit [LinearOrderedField α] in
theorem avg_k_loop_eq_spec (nodes : List (GNODE α))
    (hf : ∀ a ∈ nodes, 0 ≤ a.func ∧ a.func ≤ 6) :
    avg_k_loop nodes = int_wrap (nodes.map spec_contribution).sum := by
  rw [avg_k_loop_eq_wrap, avg_k_contribution_eq_spec nodes hf]

omit [LinearOrderedField α] in
theorem avg_k_contribution_bounds (nodes : List (GNODE α)) (K : Nat)
    (hk : ∀ a ∈ nodes, in_degree_ok a ∧ a.conn.length = K) :
    0 ≤ (nodes.map
        (fun a => if a.func > 3 then (if a.k > 0 then (1 : Int) else 0) else a.k)).sum ∧
      (nodes.map
        (fun a => if a.func > 3 then (if a.k > 0 then (1 : Int) else 0) else a.k)).sum ≤
        (nodes.length : Int) * K := by
  induction nodes with
  | nil => simp
  | cons a rest ih =>
    obtain ⟨ih1, ih2⟩ := ih (fun b hb => hk b (List.mem_cons_of_mem _ hb))
    obtain ⟨ha1, ha2⟩ := hk a (List.mem_cons_self _ _)
    unfold in_degree_ok at ha1
    have hle : (a.conn.filter (fun x => x ≠ 0)).length ≤ a.conn.length :=
      List.length_filter_le _ _
    rw [List.map_cons, List.sum_cons, List.length_cons]
    push_cast
    have hK : (0 : Int) ≤ K := Int.natCast_nonneg K
    split_ifs with h1 h2
    · constructor
      · omega
      · have : (1 : Int) ≤ K := by omega
        nlinarith
    · constructor
      · omega
      · nlinarith
    · constructor
      · omega
      · have : a.k ≤ K := by omega
        nlinarith

omit [LinearOrderedField α] in
theorem avg_k_loop_bounds (nodes : List (GNODE α)) (K : Nat)
    (hk : ∀ a ∈ nodes, in_degree_ok a ∧ a.conn.length = K)
    (hfit : (nodes.length : Int) * K < 2147483648) :
    0 ≤ avg_k_loop nodes ∧ avg_k_loop nodes ≤ (nodes.length : Int) * K := by
  obtain ⟨h1, h2⟩ := avg_k_contribution_bounds nodes K hk
  rw [avg_k_loop_eq_wrap, int_wrap_of_range _ (by omega) (by omega)]
  exact ⟨h1, h2⟩

/-- C10, as stated, fails: the accumulator of `graph_avg_k` is a C `int`.  For two
add nodes with `k = 2147483647` and `k = 1` the contributions sum to `2^31`, the
accumulator holds `-2^31`, and the result is `-1073741824`, not `1073741824`. -/
theorem graph_avg_k_int_accumulator :
    ¬ (∀ g : GRAPH ℚ, 0 < g.n → (∀ a ∈ g.nodes, 0 ≤ a.func ∧ a.func ≤ 6) →
        graph_avg_k g = (((g.nodes.map spec_contribution).sum : Int) : ℚ) / (g.n : ℚ)) := by
  intro h
  have h2 := h ⟨1, [⟨2147483647, 0, 0, 0, []⟩, ⟨1, 0, 0, 0, []⟩]⟩ (by decide) (by decide)
  have h3 : avg_k_loop
      ([⟨2147483647, 0, 0, 0, []⟩, ⟨1, 0, 0, 0, []⟩] : List (GNODE ℚ)) = -2147483648 := by
    decide
  have h4 : (([⟨2147483647, 0, 0, 0, []⟩, ⟨1, 0, 0, 0, []⟩] : List (GNODE ℚ)).map
      spec_contribution).sum = 2147483648 := by
    decide
  simp only [graph_avg_k, h3, h4, GRAPH.n] at h2
  norm_num at h2

/-- C10, amended: for a graph with `n > 0` nodes whose function codes lie in `0..6`,
`graph_avg_k` is the 32-bit value of the sum of the nodes' contributions divided
by `n`, hence that sum divided by `n` whenever the sum fits in an `int`; a node
contributes its full `k` when its function is arithmetic and 1 or 0, according to
whether `k > 0`, when it is sine, cosine or tanh.  Under the in-degree invariant
(with `K` slots per node) and `n * K < 2^31` the result lies in `[0, K]`. -/
theorem graph_avg_k_spec (g : GRAPH α) (hn : 0 < g.n) :
    ((∀ a ∈ g.nodes, 0 ≤ a.func ∧ a.func ≤ 6) →
      graph_avg_k g =
          ((int_wrap (g.nodes.map spec_contribution).sum : Int) : α) / (g.n : α) ∧
        (-2147483648 ≤ (g.nodes.map spec_contribution).sum →
          (g.nodes.map spec_contribution).sum < 2147483648 →
          graph_avg_k g = (((g.nodes.map spec_contribution).sum : Int) : α) / (g.n : α))) ∧
    (∀ K : Nat, (∀ a ∈ g.nodes, in_degree_ok a ∧ a.conn.length = K) →
      (g.n : Int) * K < 2147483648 →
      0 ≤ graph_avg_k g ∧ graph_avg_k g ≤ (K : α)) := by
  have hpos : (0 : α) < (g.n : α) := by exact_mod_cast hn
  constructor
  · intro hf
    unfold graph_avg_k
    rw [avg_k_loop_eq_spec g.nodes hf]
    refine ⟨rfl, fun h1 h2 => ?_⟩
    rw [int_wrap_of_range _ h1 h2]
  · intro K hk hfit
    obtain ⟨h1, h2⟩ := avg_k_loop_bounds g.nodes K hk hfit
    unfold graph_avg_k
    constructor
    · apply div_nonneg
      · exact_mod_cast h1
      · exact le_of_lt hpos
    · rw [div_le_iff₀ hpos]
      have h3 : ((avg_k_loop g.nodes : Int) : α) ≤ (((g.nodes.length : Int) * (K : Int) : Int) : α) :=
        Int.cast_le.mpr h2
      unfold GRAPH.n
      push_cast at h3
      linarith

theorem graph_avg_k_spec_witness :
    0 < (scenario_graph 1 : GRAPH ℚ).n ∧
    (∀ a ∈ (scenario_graph 1 : GRAPH ℚ).nodes, 0 ≤ a.func ∧ a.func ≤ 6) ∧
    (∀ a ∈ (scenario_graph 1 : GRAPH ℚ).nodes, in_degree_ok a ∧ a.conn.length = 2) ∧
    (-2147483648 ≤ ((scenario_graph 1 : GRAPH ℚ).nodes.map spec_contribution).sum ∧
      ((scenario_graph 1 : GRAPH ℚ).nodes.map spec_contribution).sum < 2147483648) ∧
    ((scenario_graph 1 : GRAPH ℚ).n : Int) * (2 : Nat) < 2147483648 ∧
    graph_avg_k (scenario_graph 1 : GRAPH ℚ) =
      ((((scenario_graph 1 : GRAPH ℚ).nodes.map spec_contribution).sum : Int) : ℚ) /
        ((scenario_graph 1 : GRAPH ℚ).n : ℚ) ∧
    (0 ≤ graph_avg_k (scenario_graph 1 : GRAPH ℚ) ∧
      graph_avg_k (scenario_graph 1 : GRAPH ℚ) ≤ ((2 : Nat) : ℚ)) :=
  ⟨by decide, by decide, by decide, by decide, by decide,
    ((graph_avg_k_spec (scenario_graph 1 : GRAPH ℚ) (by decide)).1 (by decide)).2
      (by decide) (by decide),
    (graph_avg_k_spec (scenario_graph 1 : GRAPH ℚ) (by decide)).2 2 (by decide) (by decide)⟩

end AvgK

section FrameAndBounds
/-! ## Frame of mutation and bounded node state -/

variable {σ α : Type} [LinearOrderedField α]

omit [LinearOrderedField α] in
theorem forall₂_map_eq {β : Type} (f : GNODE α → β) (R : GNODE α → GNODE α → Prop)
    (hR : ∀ a b, R a b → f b = f a) (xs ys : List (GNODE α)) (h : List.Forall₂ R xs ys) :
    ys.map f = xs.map f := by
  induction h with
  | nil => rfl
  | @cons a b l1 l2 hab _ ih => rw [List.map_cons, List.map_cons, ih, hR a b hab]

/-- C19: frame of structural mutation.  For every graph, rate and generator,
`graph_mutate` keeps the node count and every node's `state` and
`initial_state`; the remaining fields (`func`, `conn`, `k` of a node and `t`)
are the only ones that can differ afterwards. -/
theorem graph_mutate_frame (rng : RNG σ α) (c : Consts) (g : GRAPH α) (rate : α) (s : σ) :
    (graph_mutate rng c g rate s).1.n = g.n ∧
    (graph_mutate rng c g rate s).1.nodes.map (fun a => (a.state, a.initial_state)) =
      g.nodes.map (fun a => (a.state, a.initial_state)) ∧
    (∀ (i : Nat) (a : GNODE α), g.nodes[i]? = some a →
      ∃ b, (graph_mutate rng c g rate s).1.nodes[i]? = some b ∧
        b.state = a.state ∧ b.initial_state = a.initial_state) := by
  obtain ⟨new, e1, -, e3, -⟩ := graph_mutate_eq rng c g rate s
  have hmap : new.map (fun a => (a.state, a.initial_state)) =
      g.nodes.map (fun a => (a.state, a.initial_state)) := by
    apply forall₂_map_eq _ _ _ _ _ e3
    intro a b hab
    obtain ⟨s2, hb⟩ := hab
    have hs := node_mutate_spec rng c a rate g.n s2
    rw [hb, hs.1, hs.2.1]
  refine ⟨?_, ?_, ?_⟩
  · unfold GRAPH.n; rw [e1, e3.length_eq]
  · rw [e1]; exact hmap
  · intro i a ha
    rw [graph_mutate_node_at, ha]
    refine ⟨_, rfl, ?_, ?_⟩
    · exact (node_mutate_spec rng c a rate g.n _).1
    · exact (node_mutate_spec rng c a rate g.n _).2.1

theorem graph_mutate_frame_witness :
    (scenario_graph 1 : GRAPH ℚ).nodes[1]? =
        some { k := 1, state := 0, initial_state := 0, func := 4, conn := [1, 0] } ∧
      ∃ b, (graph_mutate listRng testConsts (scenario_graph 1 : GRAPH ℚ) 1
          [1, 1, 1, 0, 2, 1, 1, 1]).1.nodes[1]? = some b ∧
        b.state = 0 ∧ b.initial_state = 0 :=
  ⟨by decide,
    (graph_mutate_frame listRng testConsts (scenario_graph 1 : GRAPH ℚ) 1
      [1, 1, 1, 0, 2, 1, 1, 1]).2.2 1
      { k := 1, state := 0, initial_state := 0, func := 4, conn := [1, 0] } (by decide)⟩

theorem slots_fold_bounded (m : MathFns α) (inputs : List α) (rd : Nat → α → Option α)
    (func : Int) (cs : List Int) (acc x : α) (hacc : -1 ≤ acc ∧ acc ≤ 1)
    (h : slots_fold m inputs rd func cs acc = some x) : -1 ≤ x ∧ x ≤ 1 := by
  induction cs generalizing acc with
  | nil =>
    simp only [slots_fold, Option.some.injEq] at h
    rw [← h]; exact hacc
  | cons c cs ih =>
    unfold slots_fold at h
    by_cases h1 : c < 0
    · simp only [h1, if_true] at h
      obtain ⟨v, -, hv⟩ := Option.bind_eq_some.mp h
      exact ih _ ⟨clamp_lower _, clamp_upper _⟩ hv
    · by_cases h2 : c > 0
      · simp only [h1, h2, if_true, if_false] at h
        obtain ⟨v, -, hv⟩ := Option.bind_eq_some.mp h
        exact ih _ ⟨clamp_lower _, clamp_upper _⟩ hv
      · simp only [h1, h2, if_false] at h
        exact ih acc hacc h


/-- What one sweep does to the node array: each node keeps every field but
`state`; a state in `[-1, 1]` stays there; a node whose slots are all inert is
untouched. -/
theorem graph_sweep_nodes (m : MathFns α) (inputs : List α) (pre post : List (GNODE α))
    (h : graph_sweep m inputs pre = some post) :
    post.length = pre.length ∧
    ∀ (i : Nat) (a : GNODE α), pre[i]? = some a →
      ∃ x, post[i]? = some { a with state := x } ∧
        ((-1 ≤ a.state ∧ a.state ≤ 1) → (-1 ≤ x ∧ x ≤ 1)) ∧
        ((∀ c ∈ a.conn, c = 0) → x = a.state) := by
  unfold graph_sweep at h
  rw [List.range_eq_range'] at h
  obtain ⟨hlen, -, hin⟩ := sweep_loop_range m inputs pre.length 0 pre post h
  refine ⟨hlen, ?_⟩
  intro i a ha
  obtain ⟨hi, -⟩ := List.getElem?_eq_some.mp ha
  obtain ⟨x, hx1, hx2⟩ := hin i a (Nat.zero_le _) (by omega) ha
  refine ⟨x, hx1, fun hb => slots_fold_bounded m inputs _ a.func a.conn a.state x hb hx2, ?_⟩
  intro hz
  have hfold : ∀ (cs : List Int) (acc : α), (∀ c ∈ cs, c = 0) →
      slots_fold m inputs (spec_read pre post i) a.func cs acc = some acc := by
    intro cs
    induction cs with
    | nil => intro acc _; rfl
    | cons c cs ih =>
      intro acc hc
      have hc0 : c = 0 := hc c (List.mem_cons_self _ _)
      subst hc0
      unfold slots_fold
      simp only [lt_self_iff_false, gt_iff_lt, if_false]
      exact ih acc (fun c hc2 => hc c (List.mem_cons_of_mem _ hc2))
  rw [hfold a.conn a.state hz] at hx2
  exact (Option.some.inj hx2).symm

theorem sweeps_nodes (m : MathFns α) (inputs : List α) (r : Nat) :
    ∀ (pre post : List (GNODE α)), sweeps m inputs r pre = some post →
      post.length = pre.length ∧
      ∀ (i : Nat) (a : GNODE α), pre[i]? = some a →
        ∃ x, post[i]? = some { a with state := x } ∧
          ((-1 ≤ a.state ∧ a.state ≤ 1) → (-1 ≤ x ∧ x ≤ 1)) ∧
          ((∀ c ∈ a.conn, c = 0) → x = a.state) := by
  induction r with
  | zero =>
    intro pre post h
    simp only [sweeps, Option.some.injEq] at h
    subst h
    exact ⟨rfl, fun i a ha => ⟨a.state, ha, fun hb => hb, fun _ => rfl⟩⟩
  | succ r ih =>
    intro pre post h
    unfold sweeps at h
    obtain ⟨mid, hmid, hrest⟩ := Option.bind_eq_some.mp h
    obtain ⟨hl1, h1⟩ := graph_sweep_nodes m inputs pre mid hmid
    obtain ⟨hl2, h2⟩ := ih mid post hrest
    refine ⟨hl2.trans hl1, ?_⟩
    intro i a ha
    obtain ⟨x, hx, hxb, hxz⟩ := h1 i a ha
    obtain ⟨y, hy, hyb, hyz⟩ := h2 i _ hx
    refine ⟨y, hy, fun hb => hyb (hxb hb), fun hz => ?_⟩
    rw [hyz hz]
    exact hxz hz

omit [LinearOrderedField α] in
theorem nodes_in_bounds_of_frame (k : Nat) (pre post : List (GNODE α))
    (hlen : post.length = pre.length)
    (h : ∀ (i : Nat) (a : GNODE α), pre[i]? = some a →
      ∃ x, post[i]? = some { a with state := x })
    (hb : nodes_in_bounds k pre) : nodes_in_bounds k post := by
  intro b hmem c hc
  obtain ⟨i, hi, hget⟩ := List.getElem_of_mem hmem
  have hi2 : i < pre.length := by omega
  obtain ⟨x, hx⟩ := h i pre[i] (List.getElem?_eq_getElem hi2)
  rw [List.getElem?_eq_getElem hi, hget, Option.some.injEq] at hx
  rw [hlen]
  subst hx
  exact hb pre[i] (List.getElem_mem hi2) c hc

theorem sweeps_total (m : MathFns α) (inputs : List α) (r : Nat) :
    ∀ pre : List (GNODE α), nodes_in_bounds inputs.length pre →
      ∃ post, sweeps m inputs r pre = some post := by
  induction r with
  | zero => intro pre _; exact ⟨pre, rfl⟩
  | succ r ih =>
    intro pre hb
    have hs : ∃ mid, graph_sweep m inputs pre = some mid := by
      unfold graph_sweep
      rw [List.range_eq_range']
      exact sweep_loop_total m inputs pre.length 0 pre hb (by omega)
    obtain ⟨mid, hmid⟩ := hs
    obtain ⟨hl, hn⟩ := graph_sweep_nodes m inputs pre mid hmid
    have hb2 : nodes_in_bounds inputs.length mid :=
      nodes_in_bounds_of_frame _ pre mid hl
        (fun i a ha => by obtain ⟨x, hx, -⟩ := hn i a ha; exact ⟨x, hx⟩) hb
    obtain ⟨post, hpost⟩ := ih mid hb2
    exact ⟨post, by unfold sweeps; rw [hmid]; exact hpost⟩

omit [LinearOrderedField α] in
theorem nodes_in_bounds_reset (k : Nat) (g : GRAPH α) (hb : nodes_in_bounds k g.nodes) :
    nodes_in_bounds k (graph_reset g).nodes := by
  intro b hmem c hc
  unfold graph_reset at hmem ⊢
  simp only [List.mem_map, List.length_map] at hmem ⊢
  obtain ⟨a, ha, hab⟩ := hmem
  subst hab
  exact hb a ha c hc

theorem graph_update_total (m : MathFns α) (g : GRAPH α) (inputs : List α)
    (hb : nodes_in_bounds inputs.length g.nodes) :
    ∃ g2, graph_update m g inputs = some g2 := by
  obtain ⟨post, hpost⟩ := sweeps_total m inputs g.t.toNat (graph_reset g).nodes
    (nodes_in_bounds_reset _ g hb)
  exact ⟨{ g with nodes := post }, by unfold graph_update; rw [hpost]; rfl⟩

/-- The nodes after `graph_update`: each is the node before with a new `state`,
which lies in `[-1, 1]` when the initial state does and is the initial state
when all slots are inert. -/
theorem graph_update_nodes (m : MathFns α) (g g2 : GRAPH α) (inputs : List α)
    (h : graph_update m g inputs = some g2) :
    g2.t = g.t ∧ g2.nodes.length = g.nodes.length ∧
    ∀ (i : Nat) (a : GNODE α), g.nodes[i]? = some a →
      ∃ x, g2.nodes[i]? = some { a with state := x } ∧
        ((-1 ≤ a.initial_state ∧ a.initial_state ≤ 1) → (-1 ≤ x ∧ x ≤ 1)) ∧
        ((∀ c ∈ a.conn, c = 0) → x = a.initial_state) := by
  unfold graph_update at h
  obtain ⟨post, hpost, hg2⟩ := Option.map_eq_some'.mp h
  subst hg2
  obtain ⟨hl, hn⟩ := sweeps_nodes m inputs g.t.toNat _ post hpost
  unfold graph_reset at hl hn
  simp only [List.length_map] at hl
  refine ⟨rfl, hl, ?_⟩
  intro i a ha
  have ha2 : (g.nodes.map (fun a => { a with state := a.initial_state }))[i]? =
      some { a with state := a.initial_state } := by
    rw [List.getElem?_map, ha]; rfl
  obtain ⟨x, hx, hxb, hxz⟩ := hn i _ ha2
  exact ⟨x, hx, hxb, hxz⟩


theorem node_init_state (rng : RNG σ α) (c : Consts) (a : GNODE α) (n : Int) (s : σ) :
    (node_init rng c a n s).1.initial_state = 2 * (rng.drand s).1 - 1 ∧
      (node_init rng c a n s).1.state = 2 * (rng.drand s).1 - 1 :=
  ⟨rfl, rfl⟩

end FrameAndBounds

section Copy
/-! ## Copy -/

variable {σ α : Type} [LinearOrderedField α]

omit [LinearOrderedField α] in
theorem load_eq_some (h : Heap α) (p : GRAPH_MEM) (g : GRAPH α) :
    p.load h = some g ↔ h p.nodes = some g.nodes ∧ g.nodes.length = p.n ∧ g.t = p.t := by
  unfold GRAPH_MEM.load
  cases hb : h p.nodes with
  | none => simp
  | some blk =>
    simp only [Option.some.injEq]
    constructor
    · intro hl
      split_ifs at hl with hlen
      cases hl
      exact ⟨rfl, hlen, rfl⟩
    · rintro ⟨h1, h2, h3⟩
      subst h1
      rw [if_pos h2]
      cases g
      simp only at h3
      rw [h3]

omit [LinearOrderedField α] in
theorem load_update_ne (h : Heap α) (p : GRAPH_MEM) (a : Nat) (v : Option (List (GNODE α)))
    (hne : a ≠ p.nodes) : p.load (Function.update h a v) = p.load h := by
  unfold GRAPH_MEM.load
  rw [Function.update_noteq (Ne.symm hne)]

omit [LinearOrderedField α] in
theorem graph_copy_spec (fresh : Nat) (h : Heap α) (dst src : GRAPH_MEM) (g : GRAPH α)
    (hsrc : src.load h = some g) (hdst : dst.nodes = 0 ∨ (h dst.nodes).isSome)
    (hsep : dst.nodes ≠ src.nodes)
    (hfresh : fresh ≠ 0 ∧ (fresh = dst.nodes ∨ h fresh = none)) :
    ∃ h2 : Heap α,
      graph_copy fresh h dst src = some (h2, { t := src.t, n := src.n, nodes := fresh }) ∧
      h2 fresh = some g.nodes ∧ h2 src.nodes = some g.nodes ∧ fresh ≠ src.nodes := by
  obtain ⟨hs1, hs2, hs3⟩ := (load_eq_some h src g).mp hsrc
  have hne : fresh ≠ src.nodes := by
    rcases hfresh.2 with hf | hf
    · rw [hf]; exact hsep
    · intro he; rw [he, hs1] at hf; cases hf
  have htake : List.take src.n g.nodes = g.nodes := by
    rw [← hs2]; exact List.take_length g.nodes
  unfold graph_copy heap_free
  simp only
  by_cases h0 : dst.nodes = 0
  · rw [if_pos h0]
    simp only [if_neg hfresh.1, hs1, hs2, le_refl, if_true, htake]
    refine ⟨_, rfl, ?_, ?_, hne⟩
    · rw [Function.update_same]
    · rw [Function.update_noteq (Ne.symm hne), hs1]
  · rw [if_neg h0]
    have halloc : (h dst.nodes).isSome := by
      rcases hdst with hd | hd
      · exact absurd hd h0
      · exact hd
    obtain ⟨blk, hblk⟩ := Option.isSome_iff_exists.mp halloc
    simp only [hblk, if_neg hfresh.1, Function.update_noteq (Ne.symm hsep), hs1, hs2, le_refl,
      if_true, htake]
    refine ⟨_, rfl, ?_, ?_, hne⟩
    · rw [Function.update_same]
    · rw [Function.update_noteq (Ne.symm hne), Function.update_noteq (Ne.symm hsep), hs1]


theorem testHeap_load : GRAPH_MEM.load testHeap { t := 1, n := 2, nodes := 1 } =
    some (scenario_graph 1) := by
  simp [GRAPH_MEM.load, testHeap, scenario_graph]

/-- C11, as stated, fails: the copy is not right "whatever the destination held
before".  When the destination's `nodes` pointer is the source's block (the
source itself passed as destination, or a struct assigned from it),
`free(to->nodes)` releases the very block `memcpy` is to read, so no copy of the
source graph results, although the source denotes a graph and `malloc` returns a
free non-null address. -/
theorem graph_copy_onto_source_block :
    ¬ (∀ (fresh : Nat) (h : Heap ℚ) (dst src : GRAPH_MEM) (g : GRAPH ℚ),
        src.load h = some g → fresh ≠ 0 → h fresh = none →
        ∃ (h2 : Heap ℚ) (dst2 : GRAPH_MEM),
          graph_copy fresh h dst src = some (h2, dst2) ∧ dst2.load h2 = some g ∧
            src.load h2 = some g) := by
  intro hc
  obtain ⟨h2, dst2, he, -⟩ := hc 3 testHeap { t := 1, n := 2, nodes := 1 }
    { t := 1, n := 2, nodes := 1 } (scenario_graph 1) testHeap_load (by decide) rfl
  have hn : graph_copy 3 testHeap { t := 1, n := 2, nodes := 1 }
      { t := 1, n := 2, nodes := 1 } = none := rfl
  rw [hn] at he
  cases he

/-- C11, amended: `graph_copy` makes the destination an independent deep copy
when the destination does not share the source's block.  Let the
source struct denote the graph `g`, let the destination hold `NULL` or a live
block of any content that is not the source's block, and let `malloc` return a
non-null address that is free (possibly the block just released).  Then
`graph_copy` returns; the destination has the source's `t` and `n` and denotes
`g`, node by node; the source still denotes `g`; the two structs point to
different blocks; and whatever `graph_mutate` or `graph_update` then does to the
copy, the source still denotes `g`. -/
theorem graph_copy_independent (fresh : Nat) (h : Heap α) (dst src : GRAPH_MEM)
    (g : GRAPH α) (hsrc : src.load h = some g)
    (hdst : dst.nodes = 0 ∨ (h dst.nodes).isSome) (hsep : dst.nodes ≠ src.nodes)
    (hfresh : fresh ≠ 0 ∧ (fresh = dst.nodes ∨ h fresh = none)) :
    ∃ (h2 : Heap α) (dst2 : GRAPH_MEM),
      graph_copy fresh h dst src = some (h2, dst2) ∧
      dst2.t = src.t ∧ dst2.n = src.n ∧ dst2.load h2 = some g ∧ src.load h2 = some g ∧
      dst2.nodes ≠ src.nodes ∧
      (∀ (rng : RNG σ α) (c : Consts) (rate : α) (s : σ),
        ∃ r, graph_mutate_mem rng c h2 dst2 rate s = some r ∧ src.load r.1.1 = some g) ∧
      (∀ (m : MathFns α) (inputs : List α) (h3 : Heap α),
        graph_update_mem m h2 dst2 inputs = some h3 → src.load h3 = some g) := by
  obtain ⟨h2, hc, hf, hs, hne⟩ := graph_copy_spec fresh h dst src g hsrc hdst hsep hfresh
  obtain ⟨-, hs2, hs3⟩ := (load_eq_some h src g).mp hsrc
  have hld : GRAPH_MEM.load h2 { t := src.t, n := src.n, nodes := fresh } = some g :=
    (load_eq_some h2 _ g).mpr ⟨hf, hs2, hs3⟩
  have hls : src.load h2 = some g := (load_eq_some h2 src g).mpr ⟨hs, hs2, hs3⟩
  refine ⟨h2, { t := src.t, n := src.n, nodes := fresh }, hc, rfl, rfl, hld, hls, hne, ?_, ?_⟩
  · intro rng c rate s
    unfold graph_mutate_mem
    rw [hld]
    refine ⟨_, rfl, ?_⟩
    simp only
    rw [load_update_ne _ _ _ _ hne]
    exact hls
  · intro m inputs h3 hu
    unfold graph_update_mem at hu
    rw [hld] at hu
    simp only [Option.some_bind] at hu
    obtain ⟨g2, -, hg2⟩ := Option.map_eq_some'.mp hu
    rw [← hg2, load_update_ne _ _ _ _ hne]
    exact hls

theorem graph_copy_independent_witness :
    GRAPH_MEM.load testHeap { t := 1, n := 2, nodes := 1 } = some (scenario_graph 1) ∧
    ((2 : Nat) = 0 ∨ (testHeap 2).isSome) ∧ (2 : Nat) ≠ 1 ∧
    ((3 : Nat) ≠ 0 ∧ ((3 : Nat) = 2 ∨ testHeap 3 = none)) ∧
    ∃ (h2 : Heap ℚ) (dst2 : GRAPH_MEM),
      graph_copy 3 testHeap { t := 7, n := 1, nodes := 2 } { t := 1, n := 2, nodes := 1 } =
        some (h2, dst2) ∧
      dst2.t = 1 ∧ dst2.n = 2 ∧ dst2.load h2 = some (scenario_graph 1) ∧
      GRAPH_MEM.load h2 { t := 1, n := 2, nodes := 1 } = some (scenario_graph 1) ∧
      dst2.nodes ≠ 1 ∧
      (∀ (rng : RNG Unit ℚ) (c : Consts) (rate : ℚ) (s : Unit),
        ∃ r, graph_mutate_mem rng c h2 dst2 rate s = some r ∧
          GRAPH_MEM.load r.1.1 { t := 1, n := 2, nodes := 1 } = some (scenario_graph 1)) ∧
      (∀ (m : MathFns ℚ) (inputs : List ℚ) (h3 : Heap ℚ),
        graph_update_mem m h2 dst2 inputs = some h3 →
          GRAPH_MEM.load h3 { t := 1, n := 2, nodes := 1 } = some (scenario_graph 1)) :=
  ⟨testHeap_load, Or.inr (by decide), by decide, ⟨by decide, Or.inr (by decide)⟩,
    graph_copy_independent 3 testHeap { t := 7, n := 1, nodes := 2 }
      { t := 1, n := 2, nodes := 1 } (scenario_graph 1) testHeap_load (Or.inr (by decide))
      (by decide) ⟨by decide, Or.inr (by decide)⟩⟩

end Copy

section IndexSafety
/-! ## Index safety -/

variable {σ α : Type} [LinearOrderedField α]

theorem node_rand_conn_loop_bounds (rng : RNG σ α) (c : Consts) (n : Int)
    (hr : rng.irand_in_range) (hsl : 1 ≤ c.state_length) (hn : 1 ≤ n) (r : Nat) :
    ∀ (conn : List Int) (k : Int) (s : σ),
      (∀ x ∈ conn, -c.state_length ≤ x ∧ x ≤ n) →
      ∀ x ∈ (node_rand_conn_loop rng c n r (conn, k, s)).1, -c.state_length ≤ x ∧ x ≤ n := by
  induction r with
  | zero => intro conn k s h; exact h
  | succ r ih =>
    intro conn k s h
    have key : ∀ (v : Int), (-c.state_length ≤ v ∧ v ≤ n) →
        ∀ x ∈ conn ++ [v], -c.state_length ≤ x ∧ x ≤ n := by
      intro v hv x hx
      rcases List.mem_append.mp hx with h1 | h1
      · exact h x h1
      · rw [List.mem_singleton.mp h1]; exact hv
    simp only [node_rand_conn_loop]
    split_ifs with h1 h2
    · exact ih _ _ _ (key 0 ⟨by omega, by omega⟩)
    · have hx := hr 1 (c.state_length + 1) (rng.drand (rng.drand s).2).2 (by omega)
      exact ih _ _ _ (key _ ⟨by omega, by omega⟩)
    · have hx := hr 1 (n + 1) (rng.drand (rng.drand s).2).2 (by omega)
      exact ih _ _ _ (key _ ⟨by omega, by omega⟩)

theorem node_mutate_conn_bounds (rng : RNG σ α) (c : Consts) (rate : α) (n : Int)
    (hr : rng.irand_in_range) (hsl : 1 ≤ c.state_length) (hn : 1 ≤ n) (rest : List Int) :
    ∀ (done : List Int) (mod : Bool) (s : σ),
      (∀ x ∈ done, -c.state_length ≤ x ∧ x ≤ n) →
      (∀ x ∈ rest, -c.state_length ≤ x ∧ x ≤ n) →
      ∀ x ∈ (node_mutate_conn rng c rate n rest (done, mod, s)).1,
        -c.state_length ≤ x ∧ x ≤ n := by
  induction rest with
  | nil => intro done mod s h _; exact h
  | cons old rest ih =>
    intro done mod s h hrest
    have hrest2 : ∀ x ∈ rest, -c.state_length ≤ x ∧ x ≤ n :=
      fun x hx => hrest x (List.mem_cons_of_mem _ hx)
    have key : ∀ (v : Int), (-c.state_length ≤ v ∧ v ≤ n) →
        ∀ x ∈ done ++ [v], -c.state_length ≤ x ∧ x ≤ n := by
      intro v hv x hx
      rcases List.mem_append.mp hx with h1 | h1
      · exact h x h1
      · rw [List.mem_singleton.mp h1]; exact hv
    simp only [node_mutate_conn]
    split_ifs with h0 h1 h2
    · exact ih _ _ _ (key 0 ⟨by omega, by omega⟩) hrest2
    · have hx := hr 1 (c.state_length + 1)
        (rng.drand (rng.drand (rng.drand s).2).2).2 (by omega)
      exact ih _ _ _ (key _ ⟨by omega, by omega⟩) hrest2
    · have hx := hr 1 (n + 1) (rng.drand (rng.drand (rng.drand s).2).2).2 (by omega)
      exact ih _ _ _ (key _ ⟨by omega, by omega⟩) hrest2
    · exact ih _ _ _ (key old (hrest old (List.mem_cons_self _ _))) hrest2

theorem graph_init_well_formed (rng : RNG σ α) (c : Consts) (hr : rng.irand_in_range)
    (hsl : 1 ≤ c.state_length) (fresh : GNODE α) (n : Nat) (s : σ) :
    well_formed c (graph_init rng c fresh n s).1 := by
  obtain ⟨hlen, hP⟩ := graph_init_nodes rng c fresh n s
    (fun a => ∀ x ∈ a.conn, -c.state_length ≤ x ∧ x ≤ (n : Int))
    (fun a s2 hn => by
      intro x hx
      exact node_rand_conn_loop_bounds rng c n hr hsl (by omega) c.MAX_K [] 0 _
        (fun _ h => by cases h) x hx)
  intro a ha x hx
  unfold GRAPH.n
  rw [hlen]
  exact hP a ha x hx

theorem graph_mutate_well_formed (rng : RNG σ α) (c : Consts) (hr : rng.irand_in_range)
    (hsl : 1 ≤ c.state_length) (g : GRAPH α) (rate : α) (s : σ) (hg : well_formed c g) :
    well_formed c (graph_mutate rng c g rate s).1 := by
  obtain ⟨new, e1, -, e3, -⟩ := graph_mutate_eq rng c g rate s
  intro b hb x hx
  have hn : (graph_mutate rng c g rate s).1.n = g.n := by
    unfold GRAPH.n; rw [e1, e3.length_eq]
  rw [hn]
  rw [e1] at hb
  obtain ⟨a, ha, s2, hab⟩ := forall₂_mem_right _ _ _ e3 b hb
  have hpos : (1 : Int) ≤ (g.n : Int) := by
    have : 0 < g.nodes.length := List.length_pos_of_mem ha
    unfold GRAPH.n; omega
  rw [hab] at hx
  exact node_mutate_conn_bounds rng c rate g.n hr hsl hpos a.conn [] _ _
    (fun _ h => by cases h) (hg a ha) x hx

omit [LinearOrderedField α] in
theorem well_formed_in_bounds (c : Consts) (g : GRAPH α) (k : Nat)
    (hk : (k : Int) = c.state_length) (hg : well_formed c g) : nodes_in_bounds k g.nodes := by
  intro a ha x hx
  obtain ⟨h1, h2⟩ := hg a ha x hx
  unfold GRAPH.n at h2
  exact ⟨by omega, h2⟩

theorem slot_update_isSome (m : MathFns α) (inputs : List α) (i : Nat)
    (nodes : List (GNODE α)) (c : Int) :
    (slot_update m inputs i nodes c).isSome ↔
      ((c < 0 → c.natAbs - 1 < inputs.length ∧ i < nodes.length) ∧
        (0 < c → c.toNat - 1 < nodes.length ∧ i < nodes.length)) := by
  unfold slot_update
  by_cases h1 : c < 0
  · have h2 : ¬ 0 < c := by omega
    simp only [h1, h2, if_true, true_implies, false_implies, and_true]
    cases hx : inputs[c.natAbs - 1]? with
    | none =>
      have := List.getElem?_eq_none_iff.mp hx
      simp; omega
    | some x =>
      obtain ⟨hlt, -⟩ := List.getElem?_eq_some.mp hx
      cases ha : nodes[i]? with
      | none =>
        have := List.getElem?_eq_none_iff.mp ha
        simp; omega
      | some a =>
        obtain ⟨hlt2, -⟩ := List.getElem?_eq_some.mp ha
        simp [hlt, hlt2]
  · by_cases h2 : 0 < c
    · simp only [h1, h2, gt_iff_lt, if_true, if_false, true_implies, false_implies, true_and]
      cases hx : nodes[c.toNat - 1]? with
      | none =>
        have := List.getElem?_eq_none_iff.mp hx
        simp; omega
      | some x =>
        obtain ⟨hlt, -⟩ := List.getElem?_eq_some.mp hx
        cases ha : nodes[i]? with
        | none =>
          have := List.getElem?_eq_none_iff.mp ha
          simp; omega
        | some a =>
          obtain ⟨hlt2, -⟩ := List.getElem?_eq_some.mp ha
          simp [hlt, hlt2]
    · simp [h1, h2]


/-- C17: index safety of evaluation.  Assume `irand(a, b)` lies in `[a, b)` and
`state_length >= 1`.  `graph_init` produces a well-formed graph; `graph_mutate`
keeps a graph well-formed; the copy made by `graph_copy` of a well-formed graph
is well-formed; a slot is applied without leaving the arrays exactly when the
indices it uses are within the input vector and the node array; and on a
well-formed graph with `state_length` inputs `graph_update` makes no access out
of bounds: it returns. -/
theorem index_safety (rng : RNG σ α) (c : Consts) (hr : rng.irand_in_range)
    (hsl : 1 ≤ c.state_length) :
    (∀ (fresh : GNODE α) (n : Nat) (s : σ), well_formed c (graph_init rng c fresh n s).1) ∧
    (∀ (g : GRAPH α) (rate : α) (s : σ), well_formed c g →
      well_formed c (graph_mutate rng c g rate s).1) ∧
    (∀ (fresh : Nat) (h : Heap α) (dst src : GRAPH_MEM) (g : GRAPH α),
      src.load h = some g → well_formed c g →
      (dst.nodes = 0 ∨ (h dst.nodes).isSome) → dst.nodes ≠ src.nodes →
      (fresh ≠ 0 ∧ (fresh = dst.nodes ∨ h fresh = none)) →
      ∃ (h2 : Heap α) (dst2 : GRAPH_MEM) (g2 : GRAPH α),
        graph_copy fresh h dst src = some (h2, dst2) ∧ dst2.load h2 = some g2 ∧
          well_formed c g2) ∧
    (∀ (m : MathFns α) (inputs : List α) (i : Nat) (nodes : List (GNODE α)) (x : Int),
      (slot_update m inputs i nodes x).isSome ↔
        ((x < 0 → x.natAbs - 1 < inputs.length ∧ i < nodes.length) ∧
          (0 < x → x.toNat - 1 < nodes.length ∧ i < nodes.length))) ∧
    (∀ (m : MathFns α) (g : GRAPH α) (inputs : List α), well_formed c g →
      (inputs.length : Int) = c.state_length → ∃ g2, graph_update m g inputs = some g2) := by
  refine ⟨graph_init_well_formed rng c hr hsl, graph_mutate_well_formed rng c hr hsl, ?_,
    slot_update_isSome, ?_⟩
  · intro fresh h dst src g hsrc hg hdst hsep hfresh
    obtain ⟨h2, hc, hf, -, -⟩ := graph_copy_spec fresh h dst src g hsrc hdst hsep hfresh
    obtain ⟨-, hs2, hs3⟩ := (load_eq_some h src g).mp hsrc
    exact ⟨h2, _, g, hc, (load_eq_some h2 _ g).mpr ⟨hf, hs2, hs3⟩, hg⟩
  · intro m g inputs hg hlen
    exact graph_update_total m g inputs (well_formed_in_bounds c g _ hlen hg)

theorem index_safety_witness :
    listRng.irand_in_range ∧ 1 ≤ testConsts.state_length ∧
    well_formed testConsts (scenario_graph 1 : GRAPH ℚ) ∧
    (([1 / 2] : List ℚ).length : Int) = testConsts.state_length ∧
    well_formed testConsts (graph_mutate listRng testConsts (scenario_graph 1 : GRAPH ℚ) 1
      [0, 3, 0, 1, 1, 1, 2, 0, 0]).1 ∧
    ∃ g2, graph_update testFns (scenario_graph 1 : GRAPH ℚ) [1 / 2] = some g2 :=
  ⟨listRng_irand_in_range, by decide, by decide, by decide,
    (index_safety listRng testConsts listRng_irand_in_range (by decide)).2.1
      (scenario_graph 1) 1 _ (by decide),
    (index_safety listRng testConsts listRng_irand_in_range (by decide)).2.2.2.2 testFns
      (scenario_graph 1) [1 / 2] (by decide) (by decide)⟩

end IndexSafety

section Overwrite
/-! ## Overwrite semantics of sine, cosine and tanh -/

variable {α : Type} [LinearOrderedField α]

theorem node_update_overwrite (m : MathFns α) (s1 s2 : α) (func : Int) (x : α)
    (h4 : 4 ≤ func) (h6 : func ≤ 6) :
    node_update m s1 func x = node_update m s2 func x := by
  have e0 : ¬ func = 0 := by omega
  have e1 : ¬ func = 1 := by omega
  have e2 : ¬ func = 2 := by omega
  have e3 : ¬ func = 3 := by omega
  have e : func = 4 ∨ func = 5 ∨ func = 6 := by omega
  unfold node_update node_apply
  rcases e with h | h | h <;> simp [h]

theorem slots_fold_append (m : MathFns α) (inputs : List α) (rd : Nat → α → Option α)
    (func : Int) (xs ys : List Int) (acc : α) :
    slots_fold m inputs rd func (xs ++ ys) acc =
      (slots_fold m inputs rd func xs acc).bind (slots_fold m inputs rd func ys) := by
  induction xs generalizing acc with
  | nil => rfl
  | cons c cs ih =>
    rw [List.cons_append]
    simp only [slots_fold]
    split_ifs with h1 h2
    · cases inputs[c.natAbs - 1]? with
      | none => rfl
      | some v => exact ih _
    · cases rd (c.toNat - 1) acc with
      | none => rfl
      | some v => exact ih _
    · exact ih _

theorem slots_fold_zeros (m : MathFns α) (inputs : List α) (rd : Nat → α → Option α)
    (func : Int) (cs : List Int) (acc : α) (hz : ∀ c ∈ cs, c = 0) :
    slots_fold m inputs rd func cs acc = some acc := by
  induction cs with
  | nil => rfl
  | cons c cs ih =>
    have hc0 : c = 0 := hz c (List.mem_cons_self _ _)
    subst hc0
    unfold slots_fold
    simp only [lt_self_iff_false, gt_iff_lt, if_false]
    exact ih (fun c hc2 => hz c (List.mem_cons_of_mem _ hc2))

/-- The state a sine, cosine or tanh node has after a sweep, from its last
non-inert slot. -/
theorem overwrite_last_slot (m : MathFns α) (inputs : List α) (pre post : List (GNODE α))
    (i : Nat) (func : Int) (earlier rest : List Int) (c : Int) (s0 x : α)
    (h4 : 4 ≤ func) (h6 : func ≤ 6) (hc : c ≠ 0) (hz : ∀ z ∈ rest, z = 0)
    (h : slots_fold m inputs (spec_read pre post i) func (earlier ++ c :: rest) s0 = some x) :
    ∃ acc v, slots_fold m inputs (spec_read pre post i) func earlier s0 = some acc ∧
      slot_value inputs pre post i acc c = some v ∧ x = node_update m s0 func v := by
  rw [slots_fold_append] at h
  obtain ⟨acc, hacc, h2⟩ := Option.bind_eq_some.mp h
  refine ⟨acc, ?_⟩
  unfold slots_fold at h2
  unfold slot_value
  by_cases h1 : c < 0
  · simp only [h1, if_true] at h2 ⊢
    obtain ⟨v, hv, h3⟩ := Option.bind_eq_some.mp h2
    rw [slots_fold_zeros m inputs _ func rest _ hz, Option.some.injEq] at h3
    exact ⟨v, hacc, hv, by rw [← h3]; exact node_update_overwrite m _ _ func v h4 h6⟩
  · have hpos : c > 0 := by omega
    simp only [h1, hpos, if_true, if_false] at h2 ⊢
    obtain ⟨v, hv, h3⟩ := Option.bind_eq_some.mp h2
    rw [slots_fold_zeros m inputs _ func rest _ hz, Option.some.injEq] at h3
    exact ⟨v, hacc, hv, by rw [← h3]; exact node_update_overwrite m _ _ func v h4 h6⟩

omit [LinearOrderedField α] in
theorem slot_value_of_other (inputs : List α) (pre post : List (GNODE α)) (i : Nat)
    (acc1 acc2 : α) (c : Int) (hother : c < 0 ∨ c.toNat - 1 ≠ i) :
    slot_value inputs pre post i acc1 c = slot_value inputs pre post i acc2 c := by
  unfold slot_value
  by_cases h1 : c < 0
  · simp only [h1, if_true]
  · have hne : c.toNat - 1 ≠ i := by
      rcases hother with h | h
      · exact absurd h h1
      · exact h
    simp only [h1, if_false, spec_read]
    by_cases hlt : c.toNat - 1 < i
    · simp only [hlt, if_true]
    · have hgt : i < c.toNat - 1 := by omega
      simp only [hlt, hgt, if_true, if_false]


/-- C16, as stated, fails: the earlier slots of a sine node can affect its own
state.  A sine node whose last slot refers to the node itself ends at `1/4` when
its first slot reads the input `1` and at `0` when its first slot is inert. -/
theorem earlier_slot_changes_self_reading_sine :
    ¬ (∀ first : Int, -1 ≤ first → first ≤ 1 →
        (graph_update testFns (self_sine_graph first) [1]).map
            (fun g => g.nodes.map GNODE.state) =
          (graph_update testFns (self_sine_graph 0) [1]).map
            (fun g => g.nodes.map GNODE.state)) := by
  intro h
  have h1 := h (-1) (by decide) (by decide)
  have e1 : (graph_update testFns (self_sine_graph (-1)) [1]).map
      (fun g => g.nodes.map GNODE.state) = some [1 / 4] := by
    norm_num [graph_update, graph_reset, self_sine_graph, sweeps, graph_sweep, sweep_loop,
      node_step, node_sweep, slot_update, node_update, node_apply, clamp, testFns]
  have e2 : (graph_update testFns (self_sine_graph 0) [1]).map
      (fun g => g.nodes.map GNODE.state) = some [0] := by
    norm_num [graph_update, graph_reset, self_sine_graph, sweeps, graph_sweep, sweep_loop,
      node_step, node_sweep, slot_update, node_update, node_apply, clamp, testFns]
  rw [e1, e2] at h1
  norm_num at h1

/-- C16, amended.  For function codes 4, 5 and 6 the result of `node_update` does
not depend on the prior state.  Hence after every sweep the state of such a node
is `node_update` of the value `v` read through its last non-inert slot `c`, read
when the slots before `c` have produced the accumulator `acc`; when `c` refers
to an external input or to another node, `v` is the same for every accumulator,
so the earlier slots have no effect on the state (when `c` refers to the node
itself, `v` is that accumulator).  A node whose slots are all inert has its
`initial_state` as state after `graph_update`. -/
theorem overwrite_semantics (m : MathFns α) :
    (∀ (s1 s2 : α) (func : Int) (x : α), 4 ≤ func → func ≤ 6 →
      node_update m s1 func x = node_update m s2 func x) ∧
    (∀ (inputs : List α) (pre post : List (GNODE α)),
      graph_sweep m inputs pre = some post →
      ∀ (i : Nat) (a : GNODE α) (earlier rest : List Int) (c : Int),
        pre[i]? = some a → 4 ≤ a.func → a.func ≤ 6 →
        a.conn = earlier ++ c :: rest → c ≠ 0 → (∀ z ∈ rest, z = 0) →
        ∃ acc v,
          slots_fold m inputs (spec_read pre post i) a.func earlier a.state = some acc ∧
          slot_value inputs pre post i acc c = some v ∧
          post[i]? = some { a with state := node_update m a.state a.func v } ∧
          ((c < 0 ∨ c.toNat - 1 ≠ i) →
            ∀ acc2, slot_value inputs pre post i acc2 c = some v)) ∧
    (∀ (g g2 : GRAPH α) (inputs : List α), graph_update m g inputs = some g2 →
      ∀ (i : Nat) (a : GNODE α), g.nodes[i]? = some a → (∀ z ∈ a.conn, z = 0) →
        g2.nodes[i]? = some { a with state := a.initial_state }) := by
  refine ⟨node_update_overwrite m, ?_, ?_⟩
  · intro inputs pre post h i a earlier rest c ha h4 h6 hconn hc hz
    unfold graph_sweep at h
    rw [List.range_eq_range'] at h
    obtain ⟨-, -, hin⟩ := sweep_loop_range m inputs pre.length 0 pre post h
    obtain ⟨hi, -⟩ := List.getElem?_eq_some.mp ha
    obtain ⟨x, hx1, hx2⟩ := hin i a (Nat.zero_le _) (by omega) ha
    rw [hconn] at hx2
    obtain ⟨acc, v, hacc, hv, hxv⟩ :=
      overwrite_last_slot m inputs pre post i a.func earlier rest c a.state x h4 h6 hc hz hx2
    refine ⟨acc, v, hacc, hv, by rw [hx1, hxv], ?_⟩
    intro hother acc2
    rw [slot_value_of_other inputs pre post i acc2 acc c hother]
    exact hv
  · intro g g2 inputs h i a ha hz
    obtain ⟨-, -, hn⟩ := graph_update_nodes m g g2 inputs h
    obtain ⟨x, hx, -, hxz⟩ := hn i a ha
    rw [hx, hxz hz]

theorem overwrite_semantics_witness :
    ((4 : Int) ≤ 4 ∧ (4 : Int) ≤ 6) ∧
    node_update testFns (1 : ℚ) 4 1 = node_update testFns 0 4 1 ∧
    graph_sweep testFns [1 / 2] (scenario_graph 0 : GRAPH ℚ).nodes =
      some [ { k := 1, state := 1 / 2, initial_state := 0, func := 0, conn := [-1] },
             { k := 1, state := 1 / 4, initial_state := 0, func := 4, conn := [1] } ] ∧
    ∃ acc v : ℚ,
      slots_fold testFns [1 / 2]
        (spec_read (scenario_graph 0 : GRAPH ℚ).nodes
          [ { k := 1, state := 1 / 2, initial_state := 0, func := 0, conn := [-1] },
            { k := 1, state := 1 / 4, initial_state := 0, func := 4, conn := [1] } ] 1)
        4 [] 0 = some acc ∧
      slot_value [1 / 2] (scenario_graph 0 : GRAPH ℚ).nodes
        [ { k := 1, state := 1 / 2, initial_state := 0, func := 0, conn := [-1] },
          { k := 1, state := 1 / 4, initial_state := 0, func := 4, conn := [1] } ] 1 acc 1 =
        some v ∧
      [ ({ k := 1, state := 1 / 2, initial_state := 0, func := 0, conn := [-1] } : GNODE ℚ),
        { k := 1, state := 1 / 4, initial_state := 0, func := 4, conn := [1] } ][1]? =
        some { k := 1, state := node_update testFns 0 4 v, initial_state := 0, func := 4,
               conn := [1] } ∧
      (((1 : Int) < 0 ∨ (1 : Int).toNat - 1 ≠ 1) →
        ∀ acc2, slot_value [1 / 2] (scenario_graph 0 : GRAPH ℚ).nodes
          [ { k := 1, state := 1 / 2, initial_state := 0, func := 0, conn := [-1] },
            { k := 1, state := 1 / 4, initial_state := 0, func := 4, conn := [1] } ] 1 acc2 1 =
          some v) :=
  have h : graph_sweep testFns [1 / 2] (scenario_graph 0 : GRAPH ℚ).nodes =
      some [ { k := 1, state := 1 / 2, initial_state := 0, func := 0, conn := [-1] },
             { k := 1, state := 1 / 4, initial_state := 0, func := 4, conn := [1] } ] := by
    norm_num [graph_sweep, sweep_loop, node_step, node_sweep, slot_update, node_update,
      node_apply, clamp, scenario_graph, testFns, List.range_succ]
  ⟨⟨by decide, by decide⟩,
    (overwrite_semantics testFns).1 1 0 4 1 (by decide) (by decide), h,
    (overwrite_semantics testFns).2.1 [1 / 2] (scenario_graph 0 : GRAPH ℚ).nodes _ h 1
      { k := 1, state := 0, initial_state := 0, func := 4, conn := [1] } [] [] 1
      (by decide) (by decide) (by decide) (by decide) (by decide)
      (fun _ hz => by cases hz)⟩

end Overwrite

section Trial
/-! ## The trial -/

variable {W S L A α : Type} [LinearOrderedField α]

omit [LinearOrderedField α] in
theorem buf_write_spec (err : List α) (cnt P : Int) (v : α) (hP : 1 ≤ P) (hc : 0 ≤ cnt)
    (hlen : err.length = P.toNat) :
    buf_write err cnt P v = some (err.set (cnt % P).toNat v) ∧
      0 ≤ cnt % P ∧ cnt % P < P ∧ (cnt % P).toNat < err.length := by
  have hmod : Int.tmod cnt P = cnt % P := Int.tmod_eq_emod hc (by omega)
  have h1 : 0 ≤ cnt % P := Int.emod_nonneg cnt (by omega)
  have h2 : cnt % P < P := Int.emod_lt_of_pos cnt (by omega)
  have h3 : (cnt % P).toNat < err.length := by omega
  refine ⟨?_, h1, h2, h3⟩
  unfold buf_write
  rw [if_neg (by omega), hmod, if_pos ⟨h1, h3⟩]

omit [LinearOrderedField α] in
theorem buf_write_length (err err1 : List α) (cnt P : Int) (v : α)
    (h : buf_write err cnt P v = some err1) : err1.length = err.length ∧ P ≠ 0 := by
  unfold buf_write at h
  split_ifs at h with h0 h1
  cases h
  exact ⟨List.length_set _ _ _, h0⟩

omit [LinearOrderedField α] in
theorem trial_predict_world (env : Env W S L A α) (cnt : Int) (train : Bool)
    (st : Exec W L α) :
    (trial_predict env cnt train st).answer =
        (trial_predict env cnt train ({ world := st.world, log := [] } : Exec W L α)).answer ∧
      (trial_predict env cnt train st).pre =
        (trial_predict env cnt train ({ world := st.world, log := [] } : Exec W L α)).pre ∧
      (trial_predict env cnt train st).sets =
        (trial_predict env cnt train ({ world := st.world, log := [] } : Exec W L α)).sets ∧
      (trial_predict env cnt train st).exec.world =
        (trial_predict env cnt train
          ({ world := st.world, log := [] } : Exec W L α)).exec.world ∧
      (trial_predict env cnt train st).exec.log =
        st.log ++ [Call.func_state train, Call.func_answer train, Call.set_match cnt,
          Call.set_pred] := by
  refine ⟨rfl, rfl, rfl, rfl, ?_⟩
  simp [trial_predict, Exec.call]

omit [LinearOrderedField α] in
theorem trial_learn_log (env : Env W S L A α) (cnt : Int) (train : Bool)
    (q : Predicted W S L α) :
    (trial_learn env cnt train q).2.log =
      q.exec.log ++ (if train then [Call.set_update, Call.ga cnt] else []) := by
  cases train <;> simp [trial_learn, Exec.call]

omit [LinearOrderedField α] in
theorem trial_exec_log (env : Env W S L A α) (cnt : Int) (train : Bool) (st : Exec W L α) :
    (trial_exec env cnt train st).log = st.log ++
      ([Call.func_state train, Call.func_answer train, Call.set_match cnt, Call.set_pred] ++
        (if train then [Call.set_update, Call.ga cnt] else []) ++
        [Call.set_kill (trial_learn env cnt train (trial_predict env cnt train st)).1.2,
          Call.set_free (trial_learn env cnt train (trial_predict env cnt train st)).1.1]) := by
  obtain ⟨-, -, -, -, e5⟩ := trial_predict_world env cnt train st
  simp only [trial_exec, Exec.call, trial_learn_log, e5, List.append_assoc]
  rfl

omit [LinearOrderedField α] in
theorem trial_exec_world (env : Env W S L A α) (cnt : Int) (train : Bool) (st : Exec W L α) :
    (trial_exec env cnt train st).world =
      (trial_exec env cnt train ({ world := st.world, log := [] } : Exec W L α)).world := by
  cases train <;> rfl

/-- The result of `trial`: the buffer with the recorded error written, and the
program after the calls of the trial. -/
theorem trial_eq (env : Env W S L A α) (P cnt : Int) (train : Bool) (err : List α)
    (st : Exec W L α) :
    trial env P cnt train err st =
      (buf_write err cnt P (trial_error env cnt train st.world)).map
        (fun err1 => (err1, trial_exec env cnt train st)) := by
  obtain ⟨e1, e2, -, -, -⟩ := trial_predict_world env cnt train st
  have herr : abs ((trial_predict env cnt train st).answer -
      (trial_predict env cnt train st).pre) = trial_error env cnt train st.world := by
    unfold trial_error; rw [e1, e2]
  unfold trial
  simp only [herr]
  cases buf_write err cnt P (trial_error env cnt train st.world) with
  | none => rfl
  | some err1 => rfl


theorem trial_test_view (env : Env W S L A α) (P cnt : Int) (err : List α)
    (st : Exec W L α) :
    (trial env.test_view P cnt true err st).map (fun r => (r.1, r.2.world)) =
      (trial env P cnt false err st).map (fun r => (r.1, r.2.world)) := by
  rw [trial_eq, trial_eq]
  have e1 : trial_error env.test_view cnt true st.world = trial_error env cnt false st.world :=
    rfl
  have e2 : (trial_exec env.test_view cnt true st).world =
      (trial_exec env cnt false st).world := rfl
  rw [e1]
  cases buf_write err cnt P (trial_error env cnt false st.world) with
  | none => rfl
  | some err1 => simp only [Option.map_some', e2]

omit [LinearOrderedField α] in
theorem without_learning_eq_test_view (env : Env W S L A α)
    (hs : ∀ b, env.func_state b = env.func_state false)
    (ha : ∀ b, env.func_answer b = env.func_answer false) :
    env.without_learning = env.test_view := by
  have h1 : env.func_state = fun _ => env.func_state false := funext hs
  have h2 : env.func_answer = fun _ => env.func_answer false := funext ha
  unfold Env.test_view Env.without_learning
  simp only
  congr 1

/-- C12, as stated, fails: a test-mode trial is not the train-mode trial with
`set_update` and `ga` replaced by the identity, because `func_state` and
`func_answer` are called with the flag `train`.  In the example environment the
answer to a training trial is the clock and the answer to a test trial is 0, so
the recorded errors are 1 and 0. -/
theorem test_trial_differs_in_flag :
    ¬ (∀ (err : List ℚ) (st : Exec Int Nat ℚ),
        (trial testEnv.without_learning 2 0 true err st).map (fun r => (r.1, r.2.world)) =
          (trial testEnv 2 0 false err st).map (fun r => (r.1, r.2.world))) := by
  intro h
  have h1 := h [9, 9] { world := 0, log := [] }
  rw [trial_eq, trial_eq] at h1
  have e1 : trial_error testEnv.without_learning 0 true (0 : Int) = 1 := by
    simp [trial_error, trial_predict, Exec.call, testEnv, Env.without_learning]
  have e2 : trial_error testEnv 0 false (0 : Int) = 0 := by
    simp [trial_error, trial_predict, Exec.call, testEnv]
  have b1 := (buf_write_spec [9, 9] 0 2 (1 : ℚ) (by decide) (by decide) (by decide)).1
  have b2 := (buf_write_spec [9, 9] 0 2 (0 : ℚ) (by decide) (by decide) (by decide)).1
  simp only [e1, e2, b1, b2, Option.map_some', Option.some.injEq, Prod.mk.injEq] at h1
  have h2 := h1.1
  simp at h2

/-- C12, amended.  A trial that returns has made, in this order, the calls
`func_state(train)`, `func_answer(train)`, `set_match` with `cnt`, `set_pred`,
then, only when `train` is true, `set_update` and `ga` with `cnt`, then
`set_kill` on the kill set and `set_free` on the match set (in test mode the
sets `set_match` and `set_pred` left); a test-mode trial makes no call of
`set_update` or `ga`; a trial returns when `PERF_AVG_TRIALS >= 1`, `cnt >= 0`
and the buffer has `PERF_AVG_TRIALS` entries.  A test-mode trial leaves the
buffer and the other modules as the train-mode trial does in which `set_update`
and `ga` are the identity and `func_state` and `func_answer` are called with
`train = false`; it equals the train-mode trial without learning when
`func_state` and `func_answer` do not depend on the flag. -/
theorem trial_sequencing (env : Env W S L A α) (P cnt : Int) (train : Bool) (err : List α)
    (st : Exec W L α) :
    (∀ r, trial env P cnt train err st = some r →
      r.2.log = st.log ++
        ([Call.func_state train, Call.func_answer train, Call.set_match cnt, Call.set_pred] ++
          (if train then [Call.set_update, Call.ga cnt] else []) ++
          [Call.set_kill (trial_learn env cnt train (trial_predict env cnt train st)).1.2,
            Call.set_free
              (trial_learn env cnt train (trial_predict env cnt train st)).1.1])) ∧
    (trial_learn env cnt false (trial_predict env cnt false st)).1 =
      ((trial_predict env cnt false st).sets.mset,
        (trial_predict env cnt false st).sets.kset) ∧
    (∀ r, trial env P cnt false err st = some r →
      ∃ new, r.2.log = st.log ++ new ∧ Call.set_update ∉ new ∧ ∀ c, Call.ga c ∉ new) ∧
    (1 ≤ P → 0 ≤ cnt → err.length = P.toNat → ∃ r, trial env P cnt train err st = some r) ∧
    (trial env.test_view P cnt true err st).map (fun r => (r.1, r.2.world)) =
      (trial env P cnt false err st).map (fun r => (r.1, r.2.world)) ∧
    ((∀ b, env.func_state b = env.func_state false) →
      (∀ b, env.func_answer b = env.func_answer false) →
      (trial env.without_learning P cnt true err st).map (fun r => (r.1, r.2.world)) =
        (trial env P cnt false err st).map (fun r => (r.1, r.2.world))) := by
  refine ⟨?_, rfl, ?_, ?_, trial_test_view env P cnt err st, ?_⟩
  · intro r hr
    rw [trial_eq] at hr
    obtain ⟨err1, -, h2⟩ := Option.map_eq_some'.mp hr
    rw [← h2]
    exact trial_exec_log env cnt train st
  · intro r hr
    rw [trial_eq] at hr
    obtain ⟨err1, -, h2⟩ := Option.map_eq_some'.mp hr
    rw [← h2]
    refine ⟨_, trial_exec_log env cnt false st, ?_, ?_⟩
    · simp
    · intro c; simp
  · intro hP hc hlen
    rw [trial_eq, (buf_write_spec err cnt P _ hP hc hlen).1]
    exact ⟨_, rfl⟩
  · intro hs ha
    rw [without_learning_eq_test_view env hs ha]
    exact trial_test_view env P cnt err st


theorem trial_sequencing_witness :
    ((1 : Int) ≤ 2 ∧ (0 : Int) ≤ 3 ∧ ([9, 9] : List ℚ).length = (2 : Int).toNat) ∧
    (∃ r, trial testEnv 2 3 true [9, 9] { world := 10, log := [] } = some r) ∧
    trial testEnv 2 3 false [9, 9] { world := 10, log := [] } =
      some ([9, 0], trial_exec testEnv 3 false { world := 10, log := [] }) ∧
    (trial_exec testEnv 3 false { world := 10, log := [] }).log =
      [] ++ ([Call.func_state false, Call.func_answer false, Call.set_match 3, Call.set_pred] ++
        (if false then [Call.set_update, Call.ga 3] else []) ++
        [Call.set_kill (trial_learn testEnv 3 false
            (trial_predict testEnv 3 false { world := 10, log := [] })).1.2,
          Call.set_free (trial_learn testEnv 3 false
            (trial_predict testEnv 3 false { world := 10, log := [] })).1.1]) :=
  have h : trial testEnv 2 3 false [9, 9] { world := 10, log := [] } =
      some ([9, 0], trial_exec testEnv 3 false { world := 10, log := [] }) := by
    rw [trial_eq, (buf_write_spec _ _ _ _ (by decide) (by decide) (by decide)).1]
    simp [trial_error, trial_predict, Exec.call, testEnv]
  ⟨⟨by decide, by decide, by decide⟩,
    (trial_sequencing testEnv 2 3 true [9, 9] { world := 10, log := [] }).2.2.2.1
      (by decide) (by decide) (by decide),
    h, (trial_sequencing testEnv 2 3 false [9, 9] { world := 10, log := [] }).1 _ h⟩

/-- C14: error recording in `trial`.  For `PERF_AVG_TRIALS >= 1`, `cnt >= 0` and a
buffer of `PERF_AVG_TRIALS` entries, `trial` returns; the buffer afterwards is
the buffer before with entry `cnt mod PERF_AVG_TRIALS`, an index in
`[0, PERF_AVG_TRIALS)`, set to `fabs(answer - pre)` and every other entry
unchanged; `answer` is what `func_answer` returned and `pre` what `set_pred`
returned on the sets of `set_match`, and neither depends on `set_update` or
`ga`. -/
theorem trial_records_error (env : Env W S L A α) (P cnt : Int) (train : Bool)
    (err : List α) (st : Exec W L α) (hP : 1 ≤ P) (hc : 0 ≤ cnt)
    (hlen : err.length = P.toNat) :
    ∃ r, trial env P cnt train err st = some r ∧
      0 ≤ cnt % P ∧ cnt % P < P ∧
      r.1.length = err.length ∧
      r.1[(cnt % P).toNat]? = some (trial_error env cnt train st.world) ∧
      (∀ j : Nat, j ≠ (cnt % P).toNat → r.1[j]? = err[j]?) ∧
      trial_error env cnt train st.world =
        abs ((env.func_answer train (env.func_state train st.world).2).1 -
          (env.set_pred
            (env.set_match env.null 0 0 (env.func_state train st.world).1 cnt env.null
              (env.func_answer train (env.func_state train st.world).2).2).1.mset
            (env.set_match env.null 0 0 (env.func_state train st.world).1 cnt env.null
              (env.func_answer train (env.func_state train st.world).2).2).1.msize
            (env.func_state train st.world).1
            (env.set_match env.null 0 0 (env.func_state train st.world).1 cnt env.null
              (env.func_answer train (env.func_state train st.world).2).2).2).1.1) ∧
      trial_error env.without_learning cnt train st.world =
        trial_error env cnt train st.world := by
  obtain ⟨hw, h0, h1, h2⟩ := buf_write_spec err cnt P
    (trial_error env cnt train st.world) hP hc hlen
  refine ⟨(err.set (cnt % P).toNat (trial_error env cnt train st.world),
    trial_exec env cnt train st), ?_, h0, h1, ?_, ?_, ?_, rfl, rfl⟩
  · rw [trial_eq, hw]; rfl
  · exact List.length_set _ _ _
  · simp only
    rw [List.getElem?_set_self h2]
  · intro j hj
    simp only
    rw [List.getElem?_set_ne (Ne.symm hj)]

theorem trial_records_error_witness :
    ((1 : Int) ≤ 2 ∧ (0 : Int) ≤ 3 ∧ ([9, 9] : List ℚ).length = (2 : Int).toNat) ∧
    ∃ r, trial testEnv 2 3 true [9, 9] { world := 10, log := [] } = some r ∧
      0 ≤ (3 : Int) % 2 ∧ (3 : Int) % 2 < 2 ∧
      r.1.length = ([9, 9] : List ℚ).length ∧
      r.1[((3 : Int) % 2).toNat]? = some (trial_error testEnv 3 true (10 : Int)) ∧
      (∀ j : Nat, j ≠ ((3 : Int) % 2).toNat → r.1[j]? = ([9, 9] : List ℚ)[j]?) :=
  ⟨⟨by decide, by decide, by decide⟩,
    (trial_records_error testEnv 2 3 true [9, 9] { world := 10, log := [] }
      (by decide) (by decide) (by decide)).imp
      (fun _ h => ⟨h.1, h.2.1, h.2.2.1, h.2.2.2.1, h.2.2.2.2.1, h.2.2.2.2.2.1⟩)⟩

end Trial

section ReportingWindow
/-! ## The trial loop and the reporting window -/

variable {W S L A α : Type} [LinearOrderedField α]

theorem trials_loop_append (env : Env W S L A α) (P : Int) (xs ys : List Int)
    (b : List α × List α × Exec W L α) :
    trials_loop env P (xs ++ ys) b =
      (trials_loop env P xs b).bind (trials_loop env P ys) := by
  induction xs generalizing b with
  | nil => rfl
  | cons x xs ih =>
    rw [List.cons_append]
    simp only [trials_loop]
    cases trial_pair env P x b with
    | none => rfl
    | some b1 => exact ih b1

theorem indices_succ (n : Nat) : indices (n + 1) = indices n ++ [(n : Int)] := by
  unfold indices
  rw [List.range_succ, List.map_append]
  rfl

omit [LinearOrderedField α] in
theorem disp_perf_calls_append (xs ys : List (Call L α)) :
    disp_perf_calls (xs ++ ys) = disp_perf_calls xs ++ disp_perf_calls ys := by
  unfold disp_perf_calls
  rw [List.filterMap_append]

omit [LinearOrderedField α] in
/-- The calls a trial adds to the log are neither `disp_perf` nor the usage
message nor `exit`. -/
theorem trial_exec_new (env : Env W S L A α) (cnt : Int) (train : Bool) (st : Exec W L α) :
    ∃ new, (trial_exec env cnt train st).log = st.log ++ new ∧
      disp_perf_calls new = [] ∧
      (∀ e t c p, Call.disp_perf e t c p ∉ new) ∧
      Call.printf_usage ∉ new ∧ (∀ s, Call.exit_process s ∉ new) := by
  refine ⟨_, trial_exec_log env cnt train st, ?_, ?_, ?_, ?_⟩
  · cases train <;> simp [disp_perf_calls]
  · intro e t c p; cases train <;> simp
  · cases train <;> simp
  · intro s; cases train <;> simp

theorem trial_pair_spec (env : Env W S L A α) (P cnt : Int)
    (b : List α × List α × Exec W L α) (hP : 1 ≤ P) (hc : 0 ≤ cnt)
    (hl1 : b.1.length = P.toNat) (hl2 : b.2.1.length = P.toNat) :
    ∃ (st3 : Exec W L α) (new : List (Call L α)),
      trial_pair env P cnt b =
        some (b.1.set (cnt % P).toNat (trial_error env cnt true b.2.2.world),
          b.2.1.set (cnt % P).toNat
            (trial_error env cnt false (trial_exec env cnt true b.2.2).world), st3) ∧
      st3.log = b.2.2.log ++ new ∧
      disp_perf_calls new = (if cnt > 0 ∧ cnt % P = 0 then [cnt] else []) ∧
      (∀ e t c p, Call.disp_perf e t c p ∈ new →
        e = b.1.set (cnt % P).toNat (trial_error env cnt true b.2.2.world) ∧
        t = b.2.1.set (cnt % P).toNat
          (trial_error env cnt false (trial_exec env cnt true b.2.2).world) ∧
        c = cnt ∧ 0 < cnt ∧ cnt % P = 0) ∧
      Call.printf_usage ∉ new ∧ (∀ s, Call.exit_process s ∉ new) := by
  obtain ⟨err, terr, st⟩ := b
  simp only at hl1 hl2 ⊢
  have hmod : Int.tmod cnt P = cnt % P := Int.tmod_eq_emod hc (by omega)
  obtain ⟨n1, hn1, hd1, hx1, hu1, he1⟩ := trial_exec_new env cnt true st
  obtain ⟨n2, hn2, hd2, hx2, hu2, he2⟩ :=
    trial_exec_new env cnt false (trial_exec env cnt true st)
  unfold trial_pair
  simp only [trial_eq, (buf_write_spec err cnt P _ hP hc hl1).1,
    (buf_write_spec terr cnt P _ hP hc hl2).1, Option.map_some', hmod]
  by_cases hcond : cnt % P = 0 ∧ cnt > 0
  · have hcond2 : cnt > 0 ∧ cnt % P = 0 := ⟨hcond.2, hcond.1⟩
    rw [if_pos hcond, if_pos hcond2]
    refine ⟨_, n1 ++ n2 ++
      [Call.disp_perf (err.set (cnt % P).toNat (trial_error env cnt true st.world))
        (terr.set (cnt % P).toNat
          (trial_error env cnt false (trial_exec env cnt true st).world)) cnt
        (env.pop_num (trial_exec env cnt false (trial_exec env cnt true st)).world)],
      rfl, ?_, ?_, ?_, ?_, ?_⟩
    · simp only [Exec.call_void, hn2, hn1, List.append_assoc]
    · rw [disp_perf_calls_append, disp_perf_calls_append, hd1, hd2]
      simp [disp_perf_calls]
    · intro e t c p hmem
      simp only [List.mem_append, List.mem_singleton] at hmem
      rcases hmem with (h | h) | h
      · exact absurd h (hx1 e t c p)
      · exact absurd h (hx2 e t c p)
      · cases h
        exact ⟨rfl, rfl, rfl, hcond.2, hcond.1⟩
    · simp only [List.mem_append, List.mem_singleton, not_or]
      exact ⟨⟨hu1, hu2⟩, by simp⟩
    · intro s
      simp only [List.mem_append, List.mem_singleton, not_or]
      exact ⟨⟨he1 s, he2 s⟩, by simp⟩
  · have hcond2 : ¬ (cnt > 0 ∧ cnt % P = 0) := fun h => hcond ⟨h.2, h.1⟩
    rw [if_neg hcond, if_neg hcond2]
    refine ⟨_, n1 ++ n2, rfl, ?_, ?_, ?_, ?_, ?_⟩
    · simp only [hn2, hn1, List.append_assoc]
    · rw [disp_perf_calls_append, hd1, hd2]; rfl
    · intro e t c p hmem
      simp only [List.mem_append] at hmem
      rcases hmem with h | h
      · exact absurd h (hx1 e t c p)
      · exact absurd h (hx2 e t c p)
    · simp only [List.mem_append, not_or]
      exact ⟨hu1, hu2⟩
    · intro s
      simp only [List.mem_append, not_or]
      exact ⟨he1 s, he2 s⟩


theorem mod_toNat_ne (c n : Nat) (P : Int) (hP : 1 ≤ P) (hcn : c < n)
    (hw : (n : Int) + 1 ≤ c + P) : ((c : Int) % P).toNat ≠ ((n : Int) % P).toNat := by
  intro h
  have h1 : 0 ≤ (c : Int) % P := Int.emod_nonneg _ (by omega)
  have h2 : 0 ≤ (n : Int) % P := Int.emod_nonneg _ (by omega)
  have h3 : (c : Int) % P = (n : Int) % P := by omega
  have h4 : ((n : Int) - c) % P = 0 := by
    rw [Int.sub_emod, h3, sub_self, Int.zero_emod]
  have h5 : ((n : Int) - c) % P = (n : Int) - c := Int.emod_eq_of_lt (by omega) (by omega)
  omega

theorem trials_loop_inv (env : Env W S L A α) (P : Int) (b0 : List α × List α × Exec W L α)
    (hP : 1 ≤ P) (hl1 : b0.1.length = P.toNat) (hl2 : b0.2.1.length = P.toNat) (n : Nat) :
    ∃ (b : List α × List α × Exec W L α) (new : List (Call L α)),
      trials_loop env P (indices n) b0 = some b ∧
      b.1.length = P.toNat ∧ b.2.1.length = P.toNat ∧
      (∀ c : Nat, c < n → (n : Int) ≤ c + P →
        b.1[((c : Int) % P).toNat]? = train_error_at env P b0 c ∧
        b.2.1[((c : Int) % P).toNat]? = test_error_at env P b0 c) ∧
      b.2.2.log = b0.2.2.log ++ new ∧
      disp_perf_calls new = (indices n).filter (fun c => decide (c > 0 ∧ c % P = 0)) ∧
      (∀ e t cnt p, Call.disp_perf e t cnt p ∈ new →
        0 < cnt ∧ cnt % P = 0 ∧ cnt < n ∧ e.length = P.toNat ∧ t.length = P.toNat ∧
        ∀ c : Nat, cnt < c + P → (c : Int) ≤ cnt →
          e[((c : Int) % P).toNat]? = train_error_at env P b0 c ∧
          t[((c : Int) % P).toNat]? = test_error_at env P b0 c) ∧
      Call.printf_usage ∉ new ∧ (∀ s, Call.exit_process s ∉ new) := by
  induction n with
  | zero =>
    refine ⟨b0, [], rfl, hl1, hl2, ?_, by simp, rfl, ?_, by simp, by simp⟩
    · intro c hc; omega
    · intro e t cnt p h; cases h
  | succ n ih =>
    obtain ⟨b, new, hloop, hb1, hb2, hent, hlog, hdisp, hev, hu, hx⟩ := ih
    obtain ⟨st3, new2, hpair, hlog2, hdisp2, hev2, hu2, hx2⟩ :=
      trial_pair_spec env P (n : Int) b hP (Int.natCast_nonneg n) hb1 hb2
    have hidx : ((n : Int) % P).toNat < P.toNat := by
      have h1 := Int.emod_nonneg (n : Int) (show P ≠ 0 by omega)
      have h2 := Int.emod_lt_of_pos (n : Int) (show 0 < P by omega)
      omega
    have htrain : train_error_at env P b0 n = some (trial_error env n true b.2.2.world) := by
      unfold train_error_at; rw [hloop]; rfl
    have htest : test_error_at env P b0 n =
        some (trial_error env n false (trial_exec env n true b.2.2).world) := by
      unfold test_error_at; rw [hloop]; rfl
    have hent2 : ∀ c : Nat, c < n + 1 → ((n + 1 : Nat) : Int) ≤ c + P →
        (b.1.set ((n : Int) % P).toNat (trial_error env n true b.2.2.world))[
            ((c : Int) % P).toNat]? = train_error_at env P b0 c ∧
        (b.2.1.set ((n : Int) % P).toNat
          (trial_error env n false (trial_exec env n true b.2.2).world))[
            ((c : Int) % P).toNat]? = test_error_at env P b0 c := by
      intro c hc hw
      by_cases hcn : c = n
      · subst hcn
        rw [List.getElem?_set_self (by omega), List.getElem?_set_self (by omega), htrain, htest]
        exact ⟨rfl, rfl⟩
      · have hlt : c < n := by omega
        have hne := mod_toNat_ne c n P hP hlt (by push_cast at hw; omega)
        rw [List.getElem?_set_ne (Ne.symm hne), List.getElem?_set_ne (Ne.symm hne)]
        exact hent c hlt (by push_cast at hw; omega)
    refine ⟨(b.1.set ((n : Int) % P).toNat (trial_error env n true b.2.2.world),
      b.2.1.set ((n : Int) % P).toNat
        (trial_error env n false (trial_exec env n true b.2.2).world), st3),
      new ++ new2, ?_, ?_, ?_, hent2, ?_, ?_, ?_, ?_, ?_⟩
    · rw [indices_succ, trials_loop_append, hloop]
      simp only [Option.some_bind, trials_loop, Int.ofNat_eq_coe]
      rw [hpair]
      rfl
    · simp only [List.length_set]; exact hb1
    · simp only [List.length_set]; exact hb2
    · simp only [hlog2, hlog, List.append_assoc]
    · rw [disp_perf_calls_append, hdisp, hdisp2, indices_succ, List.filter_append]
      congr 1
      by_cases hcond : (n : Int) > 0 ∧ (n : Int) % P = 0
      · rw [if_pos hcond, List.filter_cons_of_pos (by simpa using hcond), List.filter_nil]
      · rw [if_neg hcond, List.filter_cons_of_neg (by simpa using hcond), List.filter_nil]
    · intro e t cnt p hmem
      rcases List.mem_append.mp hmem with h | h
      · obtain ⟨h1, h2, h3, h4⟩ := hev e t cnt p h
        exact ⟨h1, h2, by push_cast; omega, h4⟩
      · obtain ⟨he, ht, hc, hpos, hmod⟩ := hev2 e t cnt p h
        subst hc
        refine ⟨hpos, hmod, by push_cast; omega, by rw [he, List.length_set]; exact hb1,
          by rw [ht, List.length_set]; exact hb2, ?_⟩
        intro c hc1 hc2
        rw [he, ht]
        exact hent2 c (by omega) (by push_cast; omega)
    · simp only [List.mem_append, not_or]; exact ⟨hu, hu2⟩
    · intro s; simp only [List.mem_append, not_or]; exact ⟨hx s, hx2 s⟩


/-- C15: the reporting window.  Let `P >= 1` and let both buffers have `P`
entries.  The `cnt` loop of an experiment over `n` trials returns; the calls of
`disp_perf` it makes are, in order, those with `cnt` in `0..n-1`, `cnt > 0` and
`cnt mod P = 0`; and at each of them the buffers passed have `P` entries and,
for every trial index `c` with `cnt - P < c <= cnt`, entry `c mod P` of the
training buffer is the error recorded by the training trial `c` and entry
`c mod P` of the test buffer the error recorded by the test trial `c`.  An
experiment runs this loop over `MAX_TRIALS` trials. -/
theorem reporting_window (env : Env W S L A α) (P : Int) (b0 : List α × List α × Exec W L α)
    (hP : 1 ≤ P) (hl1 : b0.1.length = P.toNat) (hl2 : b0.2.1.length = P.toNat) (n : Nat) :
    (∃ (b : List α × List α × Exec W L α) (new : List (Call L α)),
      trials_loop env P (indices n) b0 = some b ∧
      b.2.2.log = b0.2.2.log ++ new ∧
      disp_perf_calls new = (indices n).filter (fun c => decide (c > 0 ∧ c % P = 0)) ∧
      (∀ e t cnt p, Call.disp_perf e t cnt p ∈ new →
        0 < cnt ∧ cnt % P = 0 ∧ cnt < n ∧ e.length = P.toNat ∧ t.length = P.toNat ∧
        ∀ c : Nat, cnt - P < c → (c : Int) ≤ cnt →
          ∃ v1 v2, train_error_at env P b0 c = some v1 ∧ test_error_at env P b0 c = some v2 ∧
            e[((c : Int) % P).toNat]? = some v1 ∧ t[((c : Int) % P).toNat]? = some v2)) ∧
    (∀ (cs : MainConsts) (e : Int) (b : List α × List α × Exec W L α),
      cs.PERF_AVG_TRIALS = P → cs.MAX_TRIALS.toNat = n →
      ∃ st3 : Exec W L α, st3.log = b.2.2.log ++
          [Call.printf_experiment e, Call.pop_init, Call.outfile_init e] ∧
        experiment env cs e b =
          (trials_loop env P (indices n) (b.1, b.2.1, st3)).map (fun r =>
            (r.1, r.2.1,
              (r.2.2.call_void Call.set_kill_pset env.set_kill_pset).call_void
                Call.outfile_close env.outfile_close))) := by
  constructor
  · obtain ⟨b, new, hloop, -, -, -, hlog, hdisp, hev, -, -⟩ :=
      trials_loop_inv env P b0 hP hl1 hl2 n
    refine ⟨b, new, hloop, hlog, hdisp, ?_⟩
    intro e t cnt p hmem
    obtain ⟨h1, h2, h3, h4, h5, h6⟩ := hev e t cnt p hmem
    refine ⟨h1, h2, h3, h4, h5, ?_⟩
    intro c hc1 hc2
    obtain ⟨bc, -, hloopc, -, -, -, -, -, -, -, -⟩ := trials_loop_inv env P b0 hP hl1 hl2 c
    obtain ⟨h7, h8⟩ := h6 c (by omega) hc2
    refine ⟨trial_error env c true bc.2.2.world,
      trial_error env c false (trial_exec env c true bc.2.2).world, ?_, ?_, ?_, ?_⟩
    · unfold train_error_at; rw [hloopc]; rfl
    · unfold test_error_at; rw [hloopc]; rfl
    · rw [h7]; unfold train_error_at; rw [hloopc]; rfl
    · rw [h8]; unfold test_error_at; rw [hloopc]; rfl
  · intro cs e b hcs hn
    refine ⟨((b.2.2.call_void (Call.printf_experiment e) id).call_void Call.pop_init
      env.pop_init).call_void (Call.outfile_init e) (env.outfile_init e), ?_, ?_⟩
    · simp [Exec.call_void]
    · unfold experiment
      rw [hcs, hn]

theorem reporting_window_witness :
    ((1 : Int) ≤ 2 ∧ ([9, 9] : List ℚ).length = (2 : Int).toNat ∧
      ([8, 8] : List ℚ).length = (2 : Int).toNat) ∧
    ∃ (b : List ℚ × List ℚ × Exec Int Nat ℚ) (new : List (Call Nat ℚ)),
      trials_loop testEnv 2 (indices 5) ([9, 9], [8, 8], { world := 0, log := [] }) = some b ∧
      b.2.2.log = [] ++ new ∧
      disp_perf_calls new = (indices 5).filter (fun c => decide (c > 0 ∧ c % 2 = 0)) ∧
      (∀ e t cnt p, Call.disp_perf e t cnt p ∈ new →
        0 < cnt ∧ cnt % 2 = 0 ∧ cnt < (5 : Nat) ∧ e.length = (2 : Int).toNat ∧
        t.length = (2 : Int).toNat ∧
        ∀ c : Nat, cnt - 2 < c → (c : Int) ≤ cnt →
          ∃ v1 v2,
            train_error_at testEnv 2 ([9, 9], [8, 8], { world := 0, log := [] }) c = some v1 ∧
            test_error_at testEnv 2 ([9, 9], [8, 8], { world := 0, log := [] }) c = some v2 ∧
            e[((c : Int) % 2).toNat]? = some v1 ∧ t[((c : Int) % 2).toNat]? = some v2) :=
  ⟨⟨by decide, by decide, by decide⟩,
    (reporting_window testEnv 2 ([9, 9], [8, 8], { world := 0, log := [] }) (by decide)
      (by decide) (by decide) 5).1⟩

end ReportingWindow

section ProcessEntry
/-! ## Process entry -/

variable {W S L A α : Type} [LinearOrderedField α]

theorem experiment_spec (env : Env W S L A α) (cs : MainConsts) (e : Int)
    (b : List α × List α × Exec W L α) (hP : 1 ≤ cs.PERF_AVG_TRIALS)
    (hl1 : b.1.length = cs.PERF_AVG_TRIALS.toNat)
    (hl2 : b.2.1.length = cs.PERF_AVG_TRIALS.toNat) :
    ∃ (b2 : List α × List α × Exec W L α) (new : List (Call L α)),
      experiment env cs e b = some b2 ∧
      b2.1.length = cs.PERF_AVG_TRIALS.toNat ∧ b2.2.1.length = cs.PERF_AVG_TRIALS.toNat ∧
      b2.2.2.log = b.2.2.log ++ new ∧
      Call.printf_usage ∉ new ∧ (∀ s, Call.exit_process s ∉ new) := by
  obtain ⟨b1, new, hloop, h1, h2, -, hlog, -, -, hu, hx⟩ :=
    trials_loop_inv env cs.PERF_AVG_TRIALS
      (b.1, b.2.1, ((b.2.2.call_void (Call.printf_experiment e) id).call_void Call.pop_init
        env.pop_init).call_void (Call.outfile_init e) (env.outfile_init e))
      hP hl1 hl2 cs.MAX_TRIALS.toNat
  refine ⟨(b1.1, b1.2.1,
      (b1.2.2.call_void Call.set_kill_pset env.set_kill_pset).call_void Call.outfile_close
        env.outfile_close),
    [Call.printf_experiment e, Call.pop_init, Call.outfile_init e] ++ new ++
      [Call.set_kill_pset, Call.outfile_close], ?_, ?_, ?_, ?_, ?_, ?_⟩
  · unfold experiment
    simp only
    rw [hloop]
    rfl
  · exact h1
  · exact h2
  · simp only [Exec.call_void, hlog, List.append_assoc]
    rfl
  · simp only [List.mem_append, List.mem_cons, not_or]
    simp [hu]
  · intro s
    simp only [List.mem_append, List.mem_cons, not_or]
    simp [hx s]

theorem experiments_loop_spec (env : Env W S L A α) (cs : MainConsts)
    (hP : 1 ≤ cs.PERF_AVG_TRIALS) (es : List Int) :
    ∀ b : List α × List α × Exec W L α,
      b.1.length = cs.PERF_AVG_TRIALS.toNat → b.2.1.length = cs.PERF_AVG_TRIALS.toNat →
      ∃ (b2 : List α × List α × Exec W L α) (new : List (Call L α)),
        experiments_loop env cs es b = some b2 ∧
        b2.1.length = cs.PERF_AVG_TRIALS.toNat ∧
        b2.2.1.length = cs.PERF_AVG_TRIALS.toNat ∧
        b2.2.2.log = b.2.2.log ++ new ∧
        Call.printf_usage ∉ new ∧ (∀ s, Call.exit_process s ∉ new) := by
  induction es with
  | nil =>
    intro b h1 h2
    exact ⟨b, [], rfl, h1, h2, by simp, by simp, by simp⟩
  | cons e es ih =>
    intro b h1 h2
    obtain ⟨b1, new1, he, h3, h4, hlog1, hu1, hx1⟩ := experiment_spec env cs e b hP h1 h2
    obtain ⟨b2, new2, hl, h5, h6, hlog2, hu2, hx2⟩ := ih b1 h3 h4
    refine ⟨b2, new1 ++ new2, ?_, h5, h6, ?_, ?_, ?_⟩
    · simp only [experiments_loop, he, Option.some_bind, hl]
    · rw [hlog2, hlog1, List.append_assoc]
    · simp only [List.mem_append, not_or]; exact ⟨hu1, hu2⟩
    · intro s; simp only [List.mem_append, not_or]; exact ⟨hx1 s, hx2 s⟩

/-- The run of `main` when the argument count is accepted: it returns exactly
when `argv[1]` exists and `PERF_AVG_TRIALS >= 1`, then with `EXIT_SUCCESS` and a
log that starts with the four initialisation calls and holds neither the usage
message nor `exit`. -/
theorem main_accepted (env : Env W S L A α) (junk1 junk2 : Nat → α) (argc : Int)
    (argv : List A) (w : W) (h2 : 2 ≤ argc) (h4 : argc ≤ 4) :
    (∀ r, main env junk1 junk2 argc argv w = some r →
      r.1 = EXIT_SUCCESS ∧
      (∃ rest, r.2.log = [Call.constants_init argc, Call.random_init, Call.func_init,
        Call.gen_outfname] ++ rest) ∧
      Call.printf_usage ∉ r.2.log ∧ (∀ s, Call.exit_process s ∉ r.2.log)) ∧
    ((∃ a1, argv[1]? = some a1) → 1 ≤ (env.constants_init argc argv w).1.PERF_AVG_TRIALS →
      ∃ r, main env junk1 junk2 argc argv w = some r) := by
  have hargc : ¬ (argc < 2 ∨ argc > 4) := by omega
  have key : ∀ a1, argv[1]? = some a1 →
      1 ≤ (env.constants_init argc argv w).1.PERF_AVG_TRIALS →
      ∃ r rest, main env junk1 junk2 argc argv w = some r ∧ r.1 = EXIT_SUCCESS ∧
        r.2.log = [Call.constants_init argc, Call.random_init, Call.func_init,
          Call.gen_outfname] ++ rest ∧
        Call.printf_usage ∉ rest ∧ (∀ s, Call.exit_process s ∉ rest) := by
    intro a1 ha1 hP
    have hP2 : ¬ (env.constants_init argc argv w).1.PERF_AVG_TRIALS ≤ 0 := by omega
    obtain ⟨b2, new, hl, -, -, hlog, hu, hx⟩ := experiments_loop_spec env
      (env.constants_init argc argv w).1 hP
      ((List.range (env.constants_init argc argv w).1.NUM_EXPERIMENTS.toNat).map
        (fun (i : Nat) => Int.ofNat i + 1))
      ((List.range (env.constants_init argc argv w).1.PERF_AVG_TRIALS.toNat).map junk1,
        (List.range (env.constants_init argc argv w).1.PERF_AVG_TRIALS.toNat).map junk2,
        ((((({ world := w, log := [] } : Exec W L α).call (Call.constants_init argc)
          (env.constants_init argc argv)).2.call_void Call.random_init
          env.random_init).call_void Call.func_init (env.func_init a1)).call_void
          Call.gen_outfname (env.gen_outfname a1)))
      (by simp) (by simp)
    refine ⟨(EXIT_SUCCESS, b2.2.2.call_void Call.func_free env.func_free),
      new ++ [Call.func_free], ?_, ?_, ?_, ?_, ?_⟩
    · unfold main
      simp only [if_neg hargc, ha1, Exec.call, if_neg hP2]
      simp only [Exec.call] at hl
      rw [hl]
      rfl
    · rfl
    · simp only [Exec.call_void, hlog, Exec.call, List.nil_append, List.append_assoc]
      rfl
    · simp only [List.mem_append, List.mem_singleton, not_or]
      exact ⟨hu, by simp⟩
    · intro s
      simp only [List.mem_append, List.mem_singleton, not_or]
      exact ⟨hx s, by simp⟩
  constructor
  · intro r hr
    cases ha1 : argv[1]? with
    | none =>
      unfold main at hr
      simp only [if_neg hargc, ha1] at hr
      cases hr
    | some a1 =>
      by_cases hP : 1 ≤ (env.constants_init argc argv w).1.PERF_AVG_TRIALS
      · obtain ⟨r2, rest, hm, hs, hlog, hu, hx⟩ := key a1 ha1 hP
        rw [hm] at hr
        cases hr
        refine ⟨hs, ⟨rest, hlog⟩, ?_, ?_⟩
        · rw [hlog]
          simp only [List.mem_append, List.mem_cons, not_or]
          simp [hu]
        · intro s
          rw [hlog]
          simp only [List.mem_append, List.mem_cons, not_or]
          simp [hx s]
      · have hP2 : (env.constants_init argc argv w).1.PERF_AVG_TRIALS ≤ 0 := by omega
        unfold main at hr
        simp only [if_neg hargc, ha1, Exec.call, if_pos hP2] at hr
        cases hr
  · rintro ⟨a1, ha1⟩ hP
    obtain ⟨r, -, hm, -⟩ := key a1 ha1 hP
    exact ⟨r, hm⟩


/-- C13: the usage error.  When `argc < 2` or `argc > 4`, `main` returns
`EXIT_FAILURE` having made exactly the calls that print the usage message and
exit, with the other modules untouched (no initialisation call).  `main` ends
with `EXIT_FAILURE` after printing the usage message only in that case.  For
`argc` in `2..4` a run of `main` that returns has status `EXIT_SUCCESS`, starts
with `constants_init`, `random_init`, `func_init`, `gen_outfname`, and never
prints the usage message or exits early; it returns when `argv[1]` exists and
`PERF_AVG_TRIALS >= 1`. -/
theorem usage_error (env : Env W S L A α) (junk1 junk2 : Nat → α) (argc : Int)
    (argv : List A) (w : W) :
    ((argc < 2 ∨ argc > 4) →
      main env junk1 junk2 argc argv w =
        some (EXIT_FAILURE,
          { world := w, log := [Call.printf_usage, Call.exit_process EXIT_FAILURE] })) ∧
    ((∃ st : Exec W L α, main env junk1 junk2 argc argv w = some (EXIT_FAILURE, st) ∧
        Call.printf_usage ∈ st.log) ↔ (argc < 2 ∨ argc > 4)) ∧
    (2 ≤ argc → argc ≤ 4 →
      (∀ r, main env junk1 junk2 argc argv w = some r →
        r.1 = EXIT_SUCCESS ∧
        (∃ rest, r.2.log = [Call.constants_init argc, Call.random_init, Call.func_init,
          Call.gen_outfname] ++ rest) ∧
        Call.printf_usage ∉ r.2.log ∧ (∀ s, Call.exit_process s ∉ r.2.log)) ∧
      ((∃ a1, argv[1]? = some a1) →
        1 ≤ (env.constants_init argc argv w).1.PERF_AVG_TRIALS →
        ∃ r, main env junk1 junk2 argc argv w = some r)) := by
  have hbad : (argc < 2 ∨ argc > 4) →
      main env junk1 junk2 argc argv w =
        some (EXIT_FAILURE,
          { world := w, log := [Call.printf_usage, Call.exit_process EXIT_FAILURE] }) := by
    intro h
    unfold main
    simp only [if_pos h]
    rfl
  refine ⟨hbad, ?_, fun h2 h4 => main_accepted env junk1 junk2 argc argv w h2 h4⟩
  constructor
  · rintro ⟨st, hst, -⟩
    by_contra hgood
    have h := (main_accepted env junk1 junk2 argc argv w (by omega) (by omega)).1 _ hst
    have h1 : EXIT_FAILURE = EXIT_SUCCESS := h.1
    revert h1
    decide
  · intro h
    exact ⟨_, hbad h, by simp⟩

theorem usage_error_witness :
    ((1 : Int) < 2 ∨ (1 : Int) > 4) ∧
    main testEnv (fun _ => 9) (fun _ => 8) 1 [()] 0 =
      some (EXIT_FAILURE,
        { world := 0, log := [Call.printf_usage, Call.exit_process EXIT_FAILURE] }) ∧
    ((2 : Int) ≤ 2 ∧ (2 : Int) ≤ 4 ∧ (∃ a1, [(), ()][1]? = some a1) ∧
      1 ≤ (testEnv.constants_init 2 [(), ()] 0).1.PERF_AVG_TRIALS) ∧
    ∃ r, main testEnv (fun _ => 9) (fun _ => 8) 2 [(), ()] 0 = some r :=
  ⟨Or.inl (by decide),
    (usage_error testEnv (fun _ => 9) (fun _ => 8) 1 [()] 0).1 (Or.inl (by decide)),
    ⟨by decide, by decide, ⟨(), rfl⟩, by decide⟩,
    ((usage_error testEnv (fun _ => 9) (fun _ => 8) 2 [(), ()] 0).2.2 (by decide)
      (by decide)).2 ⟨(), rfl⟩ (by decide)⟩

end ProcessEntry

section SpecialValueLemmas
/-! ## Special values of a double -/

variable {σ α : Type} [LinearOrderedField α]

theorem clamp_dbl_fin (y : α) : clamp_dbl (.fin y) = .fin (clamp y) := by
  unfold clamp_dbl clamp
  simp only [Double.lt, decide_eq_true_eq, gt_iff_lt]
  split_ifs <;> rfl

theorem clamp_dbl_pinf : clamp_dbl (.pinf : Double α) = .fin 1 := by
  simp [clamp_dbl, Double.lt]

theorem clamp_dbl_ninf : clamp_dbl (.ninf : Double α) = .fin (-1) := by
  simp [clamp_dbl, Double.lt]

theorem clamp_dbl_nan : clamp_dbl (.nan : Double α) = .nan := by
  simp [clamp_dbl, Double.lt]

theorem clamp_dbl_bounded (d : Double α) : (clamp_dbl d).bounded ↔ d ≠ .nan := by
  cases d with
  | fin y =>
    rw [clamp_dbl_fin]
    simp only [Double.bounded, ne_eq, not_false_eq_true, iff_true, reduceCtorEq]
    exact ⟨clamp_lower y, clamp_upper y⟩
  | pinf => rw [clamp_dbl_pinf]; simp [Double.bounded]
  | ninf => rw [clamp_dbl_ninf]; simp [Double.bounded]
  | nan => rw [clamp_dbl_nan]; simp [Double.bounded]

/-- On finite values `node_update` on doubles is `node_update` on the field. -/
theorem node_update_dbl_fin (m : MathFns α) (state : α) (func : Int) (input : α) :
    node_update_dbl m (.fin state) func (.fin input) =
      .fin (node_update m state func input) := by
  unfold node_update_dbl node_update
  rw [← clamp_dbl_fin]
  congr 1
  unfold node_apply_dbl node_apply
  by_cases h0 : func = 0
  · simp only [h0, if_true, Double.add]
  by_cases h1 : func = 1
  · simp only [h1, if_true, Double.sub]; rfl
  by_cases h2 : func = 2
  · simp only [h2, if_true, Double.mul]; rfl
  by_cases h3 : func = 3
  · simp only [h3, if_true, Double.ne, Double.div, decide_eq_true_eq]
    by_cases hx : input ≠ 0
    · simp [hx]
    · simp [hx]
  by_cases h4 : func = 4
  · simp only [h4, if_true, Double.sin]; rfl
  by_cases h5 : func = 5
  · simp only [h5, if_true, Double.cos]; rfl
  by_cases h6 : func = 6
  · simp only [h6, if_true, Double.tanh]; rfl
  simp only [h0, h1, h2, h3, h4, h5, h6, if_false]

theorem node_apply_dbl_nan_iff (m : MathFns α) (state : Double α) (func : Int) (input : α) :
    node_apply_dbl m state func (.fin input) = .nan ↔
      (state = .nan ∧ func ≠ 4 ∧ func ≠ 5 ∧ func ≠ 6) ∨
        ((state = .pinf ∨ state = .ninf) ∧ func = 2 ∧ input = 0) := by
  unfold node_apply_dbl
  by_cases h0 : func = 0
  · subst h0
    cases state <;> simp [Double.add]
  by_cases h1 : func = 1
  · subst h1
    cases state <;> simp [Double.sub]
  by_cases h2 : func = 2
  · subst h2
    cases state with
    | fin s => simp [Double.mul]
    | nan => simp [Double.mul]
    | pinf =>
      simp only [Double.mul]
      rcases lt_trichotomy input 0 with h | h | h
      · simp [h, not_lt.mpr (le_of_lt h), ne_of_lt h]
      · simp [h]
      · simp [h, ne_of_gt h]
    | ninf =>
      simp only [Double.mul]
      rcases lt_trichotomy input 0 with h | h | h
      · simp [h, not_lt.mpr (le_of_lt h), ne_of_lt h]
      · simp [h]
      · simp [h, ne_of_gt h]
  by_cases h3 : func = 3
  · subst h3
    by_cases hx : input = 0
    · cases state <;> simp [Double.ne, hx]
    · cases state with
      | fin s => simp [Double.ne, Double.div, hx]
      | nan => simp [Double.ne, Double.div, hx]
      | pinf =>
        simp only [Double.ne, Double.div]
        by_cases hl : input < 0 <;> simp [hx, hl]
      | ninf =>
        simp only [Double.ne, Double.div]
        by_cases hl : input < 0 <;> simp [hx, hl]
  by_cases h4 : func = 4
  · subst h4
    cases state <;> simp [Double.sin]
  by_cases h5 : func = 5
  · subst h5
    cases state <;> simp [Double.cos]
  by_cases h6 : func = 6
  · subst h6
    cases state <;> simp [Double.tanh]
  simp only [h0, h1, h2, h3, h4, h5, h6, if_false]
  cases state <;> simp [h2, h4, h5, h6]

/-- C2, as stated, fails: not every prior state ends in `[-1, 1]`.  A prior state
NaN under a function code outside `0..6` (here 7) is left as it is by the switch
and by both comparisons of the clamp, so the state produced is NaN. -/
theorem node_update_keeps_nan :
    ¬ (∀ (state : Double ℚ) (func : Int) (input : ℚ),
        (node_update_dbl testFns state func (.fin input)).bounded) := by
  intro h
  exact absurd (h .nan 7 0) (by decide)

/-- C2, amended: for every function code (also outside `0..6`) and every finite
input, a finite prior state gives a state in `[-1, 1]`, the one `node_update`
computes on finite values; and for an arbitrary prior state the state produced
lies in `[-1, 1]` except when the prior state is NaN and the code is not 4, 5 or
6 (sine, cosine and tanh overwrite it), or the prior state is infinite and the
code is 2 (multiply) with input 0. -/
theorem node_update_bounded (m : MathFns α) (func : Int) (input : α) :
    (∀ state : α,
      node_update_dbl m (.fin state) func (.fin input) =
          .fin (node_update m state func input) ∧
        -1 ≤ node_update m state func input ∧ node_update m state func input ≤ 1) ∧
    (∀ state : Double α,
      (node_update_dbl m state func (.fin input)).bounded ↔
        ¬ (state = .nan ∧ func ≠ 4 ∧ func ≠ 5 ∧ func ≠ 6) ∧
          ¬ ((state = .pinf ∨ state = .ninf) ∧ func = 2 ∧ input = 0)) := by
  constructor
  · intro state
    exact ⟨node_update_dbl_fin m state func input, clamp_lower _, clamp_upper _⟩
  · intro state
    unfold node_update_dbl
    rw [clamp_dbl_bounded, ne_eq, node_apply_dbl_nan_iff, not_or]

theorem slot_update_dbl_fin (m : MathFns α) (inputs : List α) (i : Nat)
    (nodes : List (GNODE α)) (c : Int) :
    slot_update_dbl m (inputs.map .fin) i (nodes.map GNODE.to_double) c =
      (slot_update m inputs i nodes c).map (List.map GNODE.to_double) := by
  unfold slot_update_dbl slot_update
  simp only [List.getElem?_map]
  by_cases hc : c < 0
  · simp only [if_pos hc]
    cases hx : inputs[c.natAbs - 1]? with
    | none => simp
    | some x =>
      cases ha : nodes[i]? with
      | none => simp
      | some a =>
        simp only [Option.map_some', List.map_set]
        congr 2
        simp only [GNODE.to_double, node_update_dbl_fin]
  · simp only [if_neg hc]
    by_cases hp : c > 0
    · simp only [if_pos hp]
      cases hb : nodes[c.toNat - 1]? with
      | none => simp
      | some b =>
        cases ha : nodes[i]? with
        | none => simp
        | some a =>
          simp only [Option.map_some', List.map_set]
          congr 2
          simp only [GNODE.to_double, node_update_dbl_fin]
    · simp only [if_neg hp, Option.map_some']

theorem node_sweep_dbl_fin (m : MathFns α) (inputs : List α) (i : Nat) (cs : List Int) :
    ∀ nodes : List (GNODE α),
      node_sweep_dbl m (inputs.map .fin) i cs (nodes.map GNODE.to_double) =
        (node_sweep m inputs i cs nodes).map (List.map GNODE.to_double) := by
  induction cs with
  | nil => intro nodes; simp [node_sweep_dbl, node_sweep]
  | cons c cs ih =>
    intro nodes
    simp only [node_sweep_dbl, node_sweep, slot_update_dbl_fin]
    cases slot_update m inputs i nodes c with
    | none => simp
    | some ns => simp [ih]

theorem node_step_dbl_fin (m : MathFns α) (inputs : List α) (nodes : List (GNODE α))
    (i : Nat) :
    node_step_dbl m (inputs.map .fin) (nodes.map GNODE.to_double) i =
      (node_step m inputs nodes i).map (List.map GNODE.to_double) := by
  unfold node_step_dbl node_step
  simp only [List.getElem?_map]
  cases ha : nodes[i]? with
  | none => simp
  | some a =>
    simp only [Option.map_some']
    exact node_sweep_dbl_fin m inputs i a.conn nodes

theorem sweep_loop_dbl_fin (m : MathFns α) (inputs : List α) (is : List Nat) :
    ∀ nodes : List (GNODE α),
      sweep_loop_dbl m (inputs.map .fin) is (nodes.map GNODE.to_double) =
        (sweep_loop m inputs is nodes).map (List.map GNODE.to_double) := by
  induction is with
  | nil => intro nodes; simp [sweep_loop_dbl, sweep_loop]
  | cons i is ih =>
    intro nodes
    simp only [sweep_loop_dbl, sweep_loop, node_step_dbl_fin]
    cases node_step m inputs nodes i with
    | none => simp
    | some ns => simp [ih]

theorem sweeps_dbl_fin (m : MathFns α) (inputs : List α) (r : Nat) :
    ∀ nodes : List (GNODE α),
      sweeps_dbl m (inputs.map .fin) r (nodes.map GNODE.to_double) =
        (sweeps m inputs r nodes).map (List.map GNODE.to_double) := by
  induction r with
  | zero => intro nodes; simp [sweeps_dbl, sweeps]
  | succ r ih =>
    intro nodes
    simp only [sweeps_dbl, sweeps, graph_sweep_dbl, graph_sweep, List.length_map,
      sweep_loop_dbl_fin]
    cases sweep_loop m inputs (List.range nodes.length) nodes with
    | none => simp
    | some ns => simp [ih]

/-- On a graph whose initial states are finite and on finite inputs, `graph_update`
on doubles is `graph_update` on finite values. -/
theorem graph_update_dbl_fin (m : MathFns α) (g : GRAPH (Double α)) (inputs : List α)
    (hfin : ∀ a ∈ g.nodes, ∃ s, a.initial_state = .fin s) :
    graph_update_dbl m g (inputs.map .fin) =
      (graph_update m { t := g.t, nodes := g.nodes.map GNODE.finite_part } inputs).map
        (fun g2 => { t := g2.t, nodes := g2.nodes.map GNODE.to_double }) := by
  have hreset : (graph_reset g).nodes =
      (graph_reset ({ t := g.t, nodes := g.nodes.map GNODE.finite_part } : GRAPH α)).nodes.map
        GNODE.to_double := by
    simp only [graph_reset, List.map_map]
    apply List.map_congr_left
    intro a ha
    obtain ⟨s, hs⟩ := hfin a ha
    cases a with
    | mk k st ini f cn =>
      simp only at hs
      subst hs
      simp [GNODE.to_double, GNODE.finite_part, Double.val]
  unfold graph_update_dbl graph_update
  rw [hreset, sweeps_dbl_fin]
  simp only [Option.map_map]
  rfl

/-- C18, as stated, fails: not every input vector keeps the states in `[-1, 1]`.
An add node with initial state 0 that reads an input holding NaN ends with state
NaN, which both comparisons of the clamp let through. -/
theorem graph_update_nan_input :
    ¬ (∀ (g : GRAPH (Double ℚ)) (inputs : List (Double ℚ)),
        (∀ a ∈ g.nodes, a.initial_state.bounded) →
        ∀ g2, graph_update_dbl testFns g inputs = some g2 →
          ∀ b ∈ g2.nodes, b.state.bounded) := by
  intro h
  have h2 := h add_input_graph [.nan] (by decide)
    { t := 1, nodes := [{ k := 1, state := .nan, initial_state := .fin 0, func := 0,
                          conn := [-1] }] }
    (by decide) _ (List.mem_singleton_self _)
  exact absurd h2 (by decide)

/-- C18, amended: bounded node state.  With `drand()` in `[0, 1)`, `graph_init`
gives every node a `state` equal to its `initial_state`, in `[-1, 1]`.  For every
graph whose initial states lie in `[-1, 1]` (whatever its current states, NaN and
the infinities included), every input vector of finite values and every `t`:
whenever `graph_update` returns, every node's state is a finite value in
`[-1, 1]` and a node whose slots are all inert has its `initial_state` as state;
and `graph_update` does return when all references are in bounds. -/
theorem node_state_bounded (m : MathFns α) :
    (∀ (rng : RNG σ α) (c : Consts) (fresh : GNODE α) (n : Nat) (s : σ),
      rng.drand_in_range → ∀ a ∈ (graph_init rng c fresh n s).1.nodes,
        (-1 ≤ a.initial_state ∧ a.initial_state ≤ 1) ∧ a.state = a.initial_state) ∧
    (∀ (g : GRAPH (Double α)) (inputs : List α),
      (∀ a ∈ g.nodes, a.initial_state.bounded) →
      (∀ g2, graph_update_dbl m g (inputs.map .fin) = some g2 →
        (∀ b ∈ g2.nodes, b.state.bounded) ∧
        (∀ (i : Nat) (a : GNODE (Double α)), g.nodes[i]? = some a → (∀ x ∈ a.conn, x = 0) →
          g2.nodes[i]? = some { a with state := a.initial_state })) ∧
      (nodes_in_bounds inputs.length g.nodes →
        ∃ g2, graph_update_dbl m g (inputs.map .fin) = some g2)) := by
  constructor
  · intro rng c fresh n s hd
    refine (graph_init_nodes rng c fresh n s
      (fun a => (-1 ≤ a.initial_state ∧ a.initial_state ≤ 1) ∧ a.state = a.initial_state)
      ?_).2
    intro a s2 _
    obtain ⟨h1, h2⟩ := node_init_state rng c a n s2
    obtain ⟨d0, d1⟩ := hd s2
    rw [h1, h2]
    refine ⟨⟨by linarith, by linarith⟩, rfl⟩
  · intro g inputs hinit
    have hfin : ∀ a ∈ g.nodes, ∃ s, a.initial_state = .fin s ∧ -1 ≤ s ∧ s ≤ 1 := by
      intro a ha
      have hb := hinit a ha
      cases hi : a.initial_state with
      | fin s => rw [hi] at hb; exact ⟨s, rfl, hb⟩
      | pinf => rw [hi] at hb; exact absurd hb (by simp [Double.bounded])
      | ninf => rw [hi] at hb; exact absurd hb (by simp [Double.bounded])
      | nan => rw [hi] at hb; exact absurd hb (by simp [Double.bounded])
    have hsim := graph_update_dbl_fin m g inputs
      (fun a ha => (hfin a ha).imp (fun _ h => h.1))
    constructor
    · intro g2 h
      rw [hsim] at h
      obtain ⟨f2, hf2, hg2⟩ := Option.map_eq_some'.mp h
      obtain ⟨-, hlen, hn⟩ := graph_update_nodes m _ f2 inputs hf2
      subst hg2
      simp only [List.length_map] at hlen
      constructor
      · intro b hb
        simp only [List.mem_map] at hb
        obtain ⟨b2, hb2, rfl⟩ := hb
        obtain ⟨i, hi, hget⟩ := List.getElem_of_mem hb2
        have hi2 : i < g.nodes.length := by omega
        obtain ⟨x, hx, hxb, -⟩ := hn i (GNODE.finite_part g.nodes[i])
          (by rw [List.getElem?_map, List.getElem?_eq_getElem hi2]; rfl)
        rw [List.getElem?_eq_getElem hi, hget, Option.some.injEq] at hx
        obtain ⟨s, hs, hs1, hs2⟩ := hfin _ (List.getElem_mem hi2)
        have hx2 : -1 ≤ x ∧ x ≤ 1 := by
          apply hxb
          simp only [GNODE.finite_part, hs, Double.val]
          exact ⟨hs1, hs2⟩
        rw [hx]
        simpa [GNODE.to_double, Double.bounded] using hx2
      · intro i a ha hz
        obtain ⟨x, hx, -, hxz⟩ := hn i (GNODE.finite_part a)
          (by rw [List.getElem?_map, ha]; rfl)
        obtain ⟨hi, hget⟩ := List.getElem?_eq_some.mp ha
        obtain ⟨s, hs, -⟩ := hfin a (hget ▸ List.getElem_mem hi)
        have hx3 : x = s := by
          rw [hxz hz]
          simp only [GNODE.finite_part, hs, Double.val]
        simp only [List.getElem?_map, hx, Option.map_some', Option.some.injEq]
        cases a with
        | mk k st ini f cn =>
          simp only at hs
          subst hs
          simp [GNODE.to_double, GNODE.finite_part, Double.val, hx3]
    · intro hb
      have hb2 : nodes_in_bounds inputs.length
          ({ t := g.t, nodes := g.nodes.map GNODE.finite_part } : GRAPH α).nodes := by
        intro a ha c hc
        simp only [List.mem_map] at ha
        obtain ⟨a2, ha2, rfl⟩ := ha
        simpa [List.length_map] using hb a2 ha2 c hc
      obtain ⟨f2, hf2⟩ := graph_update_total m _ inputs hb2
      exact ⟨_, by rw [hsim, hf2]; rfl⟩

theorem node_state_bounded_witness :
    (constRng 0).drand_in_range ∧
    (∀ a ∈ add_input_graph.nodes, a.initial_state.bounded) ∧
    nodes_in_bounds [(3 : ℚ)].length add_input_graph.nodes ∧
    (∀ a ∈ (graph_init (constRng 0) testConsts (⟨0, 0, 0, 0, []⟩ : GNODE ℚ) 2 ()).1.nodes,
      (-1 ≤ a.initial_state ∧ a.initial_state ≤ 1) ∧ a.state = a.initial_state) ∧
    ∃ g2, graph_update_dbl testFns add_input_graph ([(3 : ℚ)].map .fin) = some g2 :=
  ⟨constRng_drand_in_range, by decide, by decide,
    (@node_state_bounded Unit ℚ _ testFns).1 (constRng 0) testConsts ⟨0, 0, 0, 0, []⟩ 2 ()
      constRng_drand_in_range,
    ((@node_state_bounded Unit ℚ _ testFns).2 add_input_graph [3] (by decide)).2 (by decide)⟩

end SpecialValueLemmas

end Xcsf
